import Mathlib

/-! Circuit puzzle engine (`UCircuitPuzzle`): shallow embedding and properties.

The definitions below follow `Source/Greystone/UCircuitPuzzle.cpp` function by
function, keeping the names of the source.

Conventions of the embedding:

* `int32` values are `Int`; C++ `/` and `%` are `Int.tdiv` and `Int.tmod`
  (truncation toward zero).  Arithmetic is taken without overflow: every
  quantity the engine computes is bounded by the tile count, which a `TArray`
  keeps below `2^31`.
* `ECircuitDir` is a `uint8` enumeration; it is represented by its underlying
  value (`Up = 0`, `Right = 1`, `Down = 2`, `Left = 3`), so that
  `static_cast<ECircuitDir>(...)` of an arbitrary integer has a meaning.
* `TArray` is a `List`; the checked `operator[]` is `tileAt`, which has no
  value outside `[0, Num)`.  Functions that index an array return `Option`,
  `none` standing for "does not return" (range check failure, or a loop that
  is still running when the iteration budget is used up).
* `FRandomStream` is a sequence of raw draws together with a read position.
* `OnSolved.Broadcast()` is recorded in the result of `RotateTile`.
-/

set_option linter.unusedVariables false

namespace Greystone

/-! ## Data types (`DataTypes.h`, `FCircuitTile.h`, `FCircuitPuzzleConfig.h`) -/

/-- The enumeration `ECircuitDir : uint8 { Up, Right, Down, Left }`, by underlying value. -/
abbrev ECircuitDir := Nat

/-- Direction `ECircuitDir::Up`. -/
abbrev ECircuitDir.Up : ECircuitDir := 0
/-- Direction `ECircuitDir::Right`. -/
abbrev ECircuitDir.Right : ECircuitDir := 1
/-- Direction `ECircuitDir::Down`. -/
abbrev ECircuitDir.Down : ECircuitDir := 2
/-- Direction `ECircuitDir::Left`. -/
abbrev ECircuitDir.Left : ECircuitDir := 3

/-- The conversion `static_cast<ECircuitDir>(v)` of an `int32` to the `uint8` enumeration. -/
def castDir (v : Int) : ECircuitDir := (v % 256).toNat

/-- The conversion `static_cast<int32>(Dir)`. -/
def dirToInt (d : ECircuitDir) : Int := (d : Int)

/-- The enumeration `ECircuitTileType`. -/
inductive ECircuitTileType where
  | Empty | Source | Sink | Straight | Elbow | Tee | Cross | Blocker
  deriving DecidableEq, Repr

/-- The struct `FCircuitTile` (the field `Type` is called `TileType` here). -/
structure FCircuitTile where
  TileType : ECircuitTileType
  RotationSteps : Int
  bLocked : Bool
  bPowered : Bool
  deriving DecidableEq, Repr

/-- The struct `FCircuitPuzzleConfig`, without `TimeLimitSeconds`, which the engine never reads. -/
structure FCircuitPuzzleConfig where
  Width : Int
  Height : Int
  MaxMoves : Int
  bAllowRotateSource : Bool
  bAllowRotateSink : Bool
  LockCount : Int
  MinScramble : Int
  Seed : Int
  deriving DecidableEq, Repr

/-- The data members of `UCircuitPuzzle`. -/
structure UCircuitPuzzle where
  Width : Int
  Height : Int
  Config : FCircuitPuzzleConfig
  Tiles : List FCircuitTile
  SolutionRotations : List Int
  deriving DecidableEq, Repr

/-! ## Random stream -/

/-- The engine type `FRandomStream`: an unbounded sequence of raw draws and the
position of the next one. -/
structure FRandomStream where
  draws : Nat → Nat
  pos : Nat

/-- Call `RandStream.RandRange(Min, Max)`: a value of `[Min, Max]` chosen by the next
raw draw (`Min` when the range is empty), and the advanced stream. -/
def FRandomStream.RandRange (rs : FRandomStream) (Min Max : Int) : Int × FRandomStream :=
  let Range := (Max - Min) + 1
  (if Range > 0 then Min + ((rs.draws rs.pos : Nat) : Int) % Range else Min,
   FRandomStream.mk rs.draws (rs.pos + 1))

/-- Test `RandStream.FRand() < 0.7f`: the next raw draw, read in thousandths of the
unit interval, compared with the threshold; and the advanced stream. -/
def FRandomStream.FRandBelow70 (rs : FRandomStream) : Bool × FRandomStream :=
  (decide (rs.draws rs.pos % 1000 < 700), FRandomStream.mk rs.draws (rs.pos + 1))

/-! ## Array access -/

/-- Checked read `Tiles[Index]`. -/
def tileAt (Tiles : List FCircuitTile) (Index : Int) : Option FCircuitTile :=
  if 0 ≤ Index then Tiles[Index.toNat]? else none

/-- In-place update `Tiles[Index] = f(Tiles[Index])` through the checked accessor. -/
def modifyTile (Tiles : List FCircuitTile) (Index : Int) (f : FCircuitTile → FCircuitTile) :
    Option (List FCircuitTile) :=
  match tileAt Tiles Index with
  | some t => some (Tiles.set Index.toNat (f t))
  | none => none

/-- Checked read `Array[Index]` of a `TArray<int32>`. -/
def intAt (xs : List Int) (Index : Int) : Option Int :=
  if 0 ≤ Index then xs[Index.toNat]? else none

/-! ## Helper functions of `UCircuitPuzzle` -/

namespace UCircuitPuzzle

/-- Method `UCircuitPuzzle::AreAdjacent`. -/
def AreAdjacent (self : UCircuitPuzzle) (Index1 Index2 : Int) : Bool :=
  let X1 := Index1.tmod self.Width
  let Y1 := Index1.tdiv self.Width
  let X2 := Index2.tmod self.Width
  let Y2 := Index2.tdiv self.Width
  let DX : Int := (X1 - X2).natAbs
  let DY : Int := (Y1 - Y2).natAbs
  (DX == 1 && DY == 0) || (DX == 0 && DY == 1)

/-- Method `UCircuitPuzzle::GetUnvisitedNeighbors`; the result is `OutNeighbors`. -/
def GetUnvisitedNeighbors (self : UCircuitPuzzle) (Index : Int) (Visited : List Int) : List Int :=
  let X := Index.tmod self.Width
  let Y := Index.tdiv self.Width
  let Out0 : List Int := []
  let Out1 := if Y > 0 ∧ ¬ ((Y - 1) * self.Width + X) ∈ Visited
    then Out0 ++ [(Y - 1) * self.Width + X] else Out0
  let Out2 := if X < self.Width - 1 ∧ ¬ (Y * self.Width + (X + 1)) ∈ Visited
    then Out1 ++ [Y * self.Width + (X + 1)] else Out1
  let Out3 := if Y < self.Height - 1 ∧ ¬ ((Y + 1) * self.Width + X) ∈ Visited
    then Out2 ++ [(Y + 1) * self.Width + X] else Out2
  let Out4 := if X > 0 ∧ ¬ (Y * self.Width + (X - 1)) ∈ Visited
    then Out3 ++ [Y * self.Width + (X - 1)] else Out3
  Out4

/-- The loop `for (int32 Neighbor : Neighbors)` of `ChooseNextTile`, on the pair
`(BestNeighbor, BestDist)`.  Distances are compared by their squares, the
square root being strictly increasing; `none` is `FLT_MAX`. -/
def ChooseNextTile.best (self : UCircuitPuzzle) (TargetX TargetY : Int) :
    List Int → Int × Option Int → Int × Option Int
  | [], acc => acc
  | Neighbor :: rest, (BestNeighbor, BestDist) =>
    let NX := Neighbor.tmod self.Width
    let NY := Neighbor.tdiv self.Width
    let Dist := (TargetX - NX) * (TargetX - NX) + (TargetY - NY) * (TargetY - NY)
    let closer : Bool := match BestDist with
      | none => true
      | some b => decide (Dist < b)
    if closer then ChooseNextTile.best self TargetX TargetY rest (Neighbor, some Dist)
    else ChooseNextTile.best self TargetX TargetY rest (BestNeighbor, BestDist)

/-- Method `UCircuitPuzzle::ChooseNextTile`. -/
def ChooseNextTile (self : UCircuitPuzzle) (CurrentIndex TargetIndex : Int)
    (Neighbors : List Int) (RandStream : FRandomStream) : Option (Int × FRandomStream) :=
  let TargetX := TargetIndex.tmod self.Width
  let TargetY := TargetIndex.tdiv self.Width
  let (towards, RandStream) := RandStream.FRandBelow70
  if towards then
    match intAt Neighbors 0 with
    | none => none
    | some first =>
      some ((ChooseNextTile.best self TargetX TargetY Neighbors (first, none)).1, RandStream)
  else
    let (pick, RandStream) := RandStream.RandRange 0 ((Neighbors.length : Int) - 1)
    match intAt Neighbors pick with
    | none => none
    | some n => some (n, RandStream)

/-- Method `UCircuitPuzzle::GetDirectionTo`. -/
def GetDirectionTo (self : UCircuitPuzzle) (FromIndex ToIndex : Int) : ECircuitDir :=
  let FromX := FromIndex.tmod self.Width
  let FromY := FromIndex.tdiv self.Width
  let ToX := ToIndex.tmod self.Width
  let ToY := ToIndex.tdiv self.Width
  if ToY < FromY then ECircuitDir.Up
  else if ToX > FromX then ECircuitDir.Right
  else if ToY > FromY then ECircuitDir.Down
  else ECircuitDir.Left

/-- Method `UCircuitPuzzle::GetNeighborIndex`. -/
def GetNeighborIndex (self : UCircuitPuzzle) (Index : Int) (Direction : ECircuitDir) : Int :=
  let X := Index.tmod self.Width
  let Y := Index.tdiv self.Width
  match Direction with
  | 0 => if Y > 0 then (Y - 1) * self.Width + X else -1
  | 1 => if X < self.Width - 1 then Y * self.Width + (X + 1) else -1
  | 2 => if Y < self.Height - 1 then (Y + 1) * self.Width + X else -1
  | 3 => if X > 0 then Y * self.Width + (X - 1) else -1
  | _ => -1

/-- Method `UCircuitPuzzle::GetOppositeDirection`. -/
def GetOppositeDirection (Direction : ECircuitDir) : ECircuitDir :=
  match Direction with
  | 0 => ECircuitDir.Down
  | 1 => ECircuitDir.Left
  | 2 => ECircuitDir.Up
  | 3 => ECircuitDir.Right
  | _ => ECircuitDir.Up

/-- The `switch (Tile.Type)` of `GetTileConnections`, for the tile read from the array. -/
def tileConnections (Tile : FCircuitTile) : List ECircuitDir :=
  let Rot := Tile.RotationSteps
  match Tile.TileType with
  | .Source | .Sink => [castDir (Rot.tmod 4)]
  | .Straight =>
    [castDir (if Rot.tmod 2 = 0 then 0 else 1), castDir (if Rot.tmod 2 = 0 then 2 else 3)]
  | .Elbow => [castDir ((0 + Rot).tmod 4), castDir ((1 + Rot).tmod 4)]
  | .Tee => [castDir ((0 + Rot).tmod 4), castDir ((1 + Rot).tmod 4), castDir ((3 + Rot).tmod 4)]
  | .Cross => [ECircuitDir.Up, ECircuitDir.Right, ECircuitDir.Down, ECircuitDir.Left]
  | .Empty | .Blocker => []

/-- Method `UCircuitPuzzle::GetTileConnections`. -/
def GetTileConnections (self : UCircuitPuzzle) (Index : Int) : Option (List ECircuitDir) :=
  match tileAt self.Tiles Index with
  | some Tile => some (tileConnections Tile)
  | none => none

/-! ## Power propagation -/

/-- Body of the loop `for (ECircuitDir Dir : Connections)` of `RecomputePower`,
on the engine state and the queue. -/
def RecomputePower.visit (CurrentIndex : Int) (st : UCircuitPuzzle × List Int)
    (Dir : ECircuitDir) : Option (UCircuitPuzzle × List Int) :=
  let self := st.1
  let Queue := st.2
  let NeighborIndex := self.GetNeighborIndex CurrentIndex Dir
  if NeighborIndex = -1 then some (self, Queue)
  else
    match tileAt self.Tiles NeighborIndex with
    | none => none
    | some Neighbor =>
      if Neighbor.bPowered then some (self, Queue)
      else
        let OppositeDir := GetOppositeDirection Dir
        match self.GetTileConnections NeighborIndex with
        | none => none
        | some NeighborConnections =>
          if OppositeDir ∈ NeighborConnections then
            some ({ self with
                    Tiles := self.Tiles.set NeighborIndex.toNat { Neighbor with bPowered := true } },
                  Queue ++ [NeighborIndex])
          else some (self, Queue)

/-- The loop `while (!Queue.IsEmpty())` of `RecomputePower`; the first argument
bounds the number of dequeued tiles. -/
def RecomputePower.loop : Nat → UCircuitPuzzle → List Int → Option UCircuitPuzzle
  | _, self, [] => some self
  | 0, _, _ :: _ => none
  | fuel + 1, self, CurrentIndex :: Queue =>
    match self.GetTileConnections CurrentIndex with
    | none => none
    | some Connections =>
      match Connections.foldlM (RecomputePower.visit CurrentIndex) (self, Queue) with
      | none => none
      | some st => RecomputePower.loop fuel st.1 st.2

/-- The loop "Find source" of `RecomputePower`: the first index, counted from
`i`, whose tile is a Source, or `-1`. -/
def RecomputePower.findSource : List FCircuitTile → Int → Int
  | [], _ => -1
  | t :: rest, i =>
    if t.TileType = ECircuitTileType.Source then i else RecomputePower.findSource rest (i + 1)

/-- The statement "Reset all power" of `RecomputePower`. -/
def RecomputePower.reset (self : UCircuitPuzzle) : UCircuitPuzzle :=
  { self with Tiles := self.Tiles.map (fun Tile => { Tile with bPowered := false }) }

/-- Method `UCircuitPuzzle::RecomputePower`.  Every dequeued tile was marked powered
when it was enqueued, so the loop is given one iteration per tile. -/
def RecomputePower (self : UCircuitPuzzle) : Option UCircuitPuzzle :=
  let self := RecomputePower.reset self
  let SourceIndex := RecomputePower.findSource self.Tiles 0
  if SourceIndex = -1 then some self
  else
    match modifyTile self.Tiles SourceIndex (fun Tile => { Tile with bPowered := true }) with
    | none => none
    | some Tiles =>
      RecomputePower.loop self.Tiles.length { self with Tiles := Tiles } [SourceIndex]

/-- Method `UCircuitPuzzle::IsSolved`. -/
def IsSolved (self : UCircuitPuzzle) : Bool :=
  self.Tiles.any (fun Tile => Tile.TileType == ECircuitTileType.Sink && Tile.bPowered)

end UCircuitPuzzle

/-- What a call of `RotateTile` produces: the returned flag, whether
`OnSolved.Broadcast()` was executed, and the engine state afterwards. -/
structure RotateOutcome where
  Returned : Bool
  Broadcast : Bool
  State : UCircuitPuzzle
  deriving DecidableEq, Repr

namespace UCircuitPuzzle

/-- Method `UCircuitPuzzle::RotateTile`. -/
def RotateTile (self : UCircuitPuzzle) (Index : Int) : Option RotateOutcome :=
  if Index < 0 ∨ Index ≥ (self.Tiles.length : Int) then some (RotateOutcome.mk false false self)
  else
    match tileAt self.Tiles Index with
    | none => none
    | some Tile =>
      if Tile.bLocked then some (RotateOutcome.mk false false self)
      else if Tile.TileType = ECircuitTileType.Source ∧ ¬ self.Config.bAllowRotateSource then
        some (RotateOutcome.mk false false self)
      else if Tile.TileType = ECircuitTileType.Sink ∧ ¬ self.Config.bAllowRotateSink then
        some (RotateOutcome.mk false false self)
      else
        let rotated : UCircuitPuzzle :=
          { self with
            Tiles := self.Tiles.set Index.toNat
              { Tile with RotationSteps := (Tile.RotationSteps + 1).tmod 4 } }
        match rotated.RecomputePower with
        | none => none
        | some powered => some (RotateOutcome.mk true powered.IsSolved powered)

/-! ## Generation -/

/-- The loop `while (CurrentIndex != SinkIndex)` of `GenerateSolutionPath`, on
`Path`, `CurrentIndex` and the random stream; the first argument bounds the
number of iterations.  The set `Visited` holds exactly the elements of `Path`. -/
def GenerateSolutionPath.walk (self : UCircuitPuzzle) (SourceIndex SinkIndex : Int) :
    Nat → List Int → Int → FRandomStream → Option (List Int × FRandomStream)
  | fuel, Path, CurrentIndex, RandStream =>
    if CurrentIndex = SinkIndex then some (Path, RandStream)
    else
      match fuel with
      | 0 => none
      | fuel + 1 =>
        let Visited := Path
        let Neighbors := self.GetUnvisitedNeighbors CurrentIndex Visited
        if Neighbors.length = 0 then
          if Path.length > 1 then
            match Path.dropLast.getLast? with
            | none => none
            | some Last =>
              GenerateSolutionPath.walk self SourceIndex SinkIndex fuel Path.dropLast Last RandStream
          else
            GenerateSolutionPath.walk self SourceIndex SinkIndex fuel [SourceIndex] SourceIndex
              RandStream
        else
          match self.ChooseNextTile CurrentIndex SinkIndex Neighbors RandStream with
          | none => none
          | some (NextIndex, RandStream) =>
            GenerateSolutionPath.walk self SourceIndex SinkIndex fuel (Path ++ [NextIndex])
              NextIndex RandStream

/-- The duplicate filter of `GenerateSolutionPath`: the remaining `Path` and the
`CleanPath` built so far (`PathSet` holds exactly the elements of `CleanPath`). -/
def GenerateSolutionPath.clean : List Int → List Int → List Int
  | [], CleanPath => CleanPath
  | Idx :: rest, CleanPath =>
    if Idx ∈ CleanPath then GenerateSolutionPath.clean rest CleanPath
    else GenerateSolutionPath.clean rest (CleanPath ++ [Idx])

/-- Body of the loop "Convert path to tiles" of `GenerateSolutionPath`, for the
loop counter `i`. -/
def GenerateSolutionPath.convert (Path : List Int) (self : UCircuitPuzzle) (i : Nat) :
    Option UCircuitPuzzle :=
  match intAt Path i with
  | none => none
  | some Idx =>
    match tileAt self.Tiles Idx with
    | none => none
    | some Tile =>
      if (i ≠ 0 ∧ (i : Int) ≠ (Path.length : Int) - 1) ∧ Tile.TileType ≠ ECircuitTileType.Empty then
        some self
      else if i = 0 then
        if Path.length > 1 then
          match intAt Path ((i : Int) + 1) with
          | none => none
          | some NextIdx =>
            let DirToNext := self.GetDirectionTo Idx NextIdx
            some { self with
                   Tiles := self.Tiles.set Idx.toNat { Tile with RotationSteps := dirToInt DirToNext } }
        else some self
      else if (i : Int) = (Path.length : Int) - 1 then
        if Path.length > 1 then
          match intAt Path ((i : Int) - 1) with
          | none => none
          | some PrevIdx =>
            let DirFromPrev := self.GetDirectionTo Idx PrevIdx
            some { self with
                   Tiles := self.Tiles.set Idx.toNat { Tile with RotationSteps := dirToInt DirFromPrev } }
        else some self
      else
        match intAt Path ((i : Int) - 1), intAt Path ((i : Int) + 1) with
        | some PrevIdx, some NextIdx =>
          let DirFromPrev := self.GetDirectionTo Idx PrevIdx
          let DirToNext := self.GetDirectionTo Idx NextIdx
          let Dir1 := dirToInt DirFromPrev
          let Dir2 := dirToInt DirToNext
          let DirDiff : Int := (Dir1 - Dir2).natAbs
          if DirDiff = 2 then
            some { self with
                   Tiles := self.Tiles.set Idx.toNat
                     { Tile with TileType := ECircuitTileType.Straight,
                                 RotationSteps := if Dir1 = 0 ∨ Dir1 = 2 then 0 else 1 } }
          else
            some { self with
                   Tiles := self.Tiles.set Idx.toNat
                     { Tile with TileType := ECircuitTileType.Elbow,
                                 RotationSteps :=
                                   if Dir2 = (Dir1 + 1).tmod 4 then Dir1
                                   else if Dir1 = (Dir2 + 1).tmod 4 then Dir2
                                   else min Dir1 Dir2 } }
        | _, _ => none

/-- Method `UCircuitPuzzle::GenerateSolutionPath`; the last argument bounds the
iterations of the walk. -/
def GenerateSolutionPath (self : UCircuitPuzzle) (SourceIndex SinkIndex : Int)
    (RandStream : FRandomStream) (fuel : Nat) : Option (UCircuitPuzzle × FRandomStream) :=
  match GenerateSolutionPath.walk self SourceIndex SinkIndex fuel [SourceIndex] SourceIndex
      RandStream with
  | none => none
  | some (Path, RandStream) =>
    if Path.length < 2 then some (self, RandStream)
    else
      match intAt Path 0, intAt Path ((Path.length : Int) - 1) with
      | some First, some Last =>
        if First ≠ SourceIndex then some (self, RandStream)
        else if Last ≠ SinkIndex then some (self, RandStream)
        else
          let CleanPath := GenerateSolutionPath.clean Path []
          match (List.range CleanPath.length).foldlM (GenerateSolutionPath.convert CleanPath) self with
          | none => none
          | some self => some (self, RandStream)
      | _, _ => none

/-- The loop of `ScramblePuzzle`, for the remaining number of iterations. -/
def ScramblePuzzle.loop : Nat → UCircuitPuzzle → FRandomStream →
    Option (UCircuitPuzzle × FRandomStream)
  | 0, self, RandStream => some (self, RandStream)
  | n + 1, self, RandStream =>
    let (RandomIndex, RandStream) := RandStream.RandRange 0 ((self.Tiles.length : Int) - 1)
    match tileAt self.Tiles RandomIndex with
    | none => none
    | some Tile =>
      if Tile.TileType = ECircuitTileType.Source ∧ ¬ self.Config.bAllowRotateSource then
        ScramblePuzzle.loop n self RandStream
      else if Tile.TileType = ECircuitTileType.Sink ∧ ¬ self.Config.bAllowRotateSink then
        ScramblePuzzle.loop n self RandStream
      else
        let (RotateAmount, RandStream) := RandStream.RandRange 1 3
        ScramblePuzzle.loop n
          { self with
            Tiles := self.Tiles.set RandomIndex.toNat
              { Tile with RotationSteps := (Tile.RotationSteps + RotateAmount).tmod 4 } }
          RandStream

/-- Method `UCircuitPuzzle::ScramblePuzzle`. -/
def ScramblePuzzle (self : UCircuitPuzzle) (RandStream : FRandomStream) :
    Option (UCircuitPuzzle × FRandomStream) :=
  let ScrambleCount := max self.Config.MinScramble ((self.Width * self.Height).tdiv 2)
  ScramblePuzzle.loop ScrambleCount.toNat self RandStream

/-- The loop of `ApplyLocks`, for the remaining number of iterations. -/
def ApplyLocks.loop : Nat → UCircuitPuzzle → FRandomStream →
    Option (UCircuitPuzzle × FRandomStream)
  | 0, self, RandStream => some (self, RandStream)
  | n + 1, self, RandStream =>
    let (RandomIndex, RandStream) := RandStream.RandRange 0 ((self.Tiles.length : Int) - 1)
    match tileAt self.Tiles RandomIndex with
    | none => none
    | some Tile =>
      if Tile.TileType = ECircuitTileType.Source ∨ Tile.TileType = ECircuitTileType.Sink then
        ApplyLocks.loop n self RandStream
      else
        ApplyLocks.loop n
          { self with Tiles := self.Tiles.set RandomIndex.toNat { Tile with bLocked := true } }
          RandStream

/-- Method `UCircuitPuzzle::ApplyLocks`. -/
def ApplyLocks (self : UCircuitPuzzle) (RandStream : FRandomStream) :
    Option (UCircuitPuzzle × FRandomStream) :=
  let LocksToApply := min self.Config.LockCount (self.Tiles.length : Int)
  ApplyLocks.loop LocksToApply.toNat self RandStream

/-- The loop "Make sure source and sink are not the same and not adjacent" of
`StartNew`; the first argument bounds the number of redraws. -/
def StartNew.placeSink (self : UCircuitPuzzle) (SourceIndex TileCount : Int) :
    Nat → Int → FRandomStream → Option (Int × FRandomStream)
  | fuel, SinkIndex, RandStream =>
    if SinkIndex = SourceIndex ∨ self.AreAdjacent SourceIndex SinkIndex = true then
      match fuel with
      | 0 => none
      | fuel + 1 =>
        let (SinkIndex, RandStream) := RandStream.RandRange 0 (TileCount - 1)
        StartNew.placeSink self SourceIndex TileCount fuel SinkIndex RandStream
    else some (SinkIndex, RandStream)

/-- Body of the loop "Fill empty tiles with random pieces" of `StartNew`, for
the loop counter `i`. -/
def StartNew.fill (st : UCircuitPuzzle × FRandomStream) (i : Nat) :
    Option (UCircuitPuzzle × FRandomStream) :=
  let self := st.1
  let RandStream := st.2
  match tileAt self.Tiles i, intAt self.SolutionRotations i with
  | some Tile, some _ =>
    if Tile.TileType = ECircuitTileType.Empty then
      let (Roll, RandStream) := RandStream.RandRange 0 99
      let NewType :=
        if Roll < 40 then ECircuitTileType.Straight
        else if Roll < 80 then ECircuitTileType.Elbow
        else if Roll < 95 then ECircuitTileType.Tee
        else ECircuitTileType.Cross
      let (Rotation, RandStream) := RandStream.RandRange 0 3
      some ({ self with
              Tiles := self.Tiles.set i { Tile with TileType := NewType, RotationSteps := Rotation },
              SolutionRotations := self.SolutionRotations.set i Rotation },
            RandStream)
    else
      some ({ self with SolutionRotations := self.SolutionRotations.set i Tile.RotationSteps },
            RandStream)
  | _, _ => none

/-- Method `UCircuitPuzzle::StartNew`, called on the engine `self` with the draws
that the stream seeded from `InConfig.Seed` delivers; the last argument bounds
the iterations of each of the two unbounded loops. -/
def StartNew (self : UCircuitPuzzle) (InConfig : FCircuitPuzzleConfig)
    (RandStream : FRandomStream) (fuel : Nat) : Option UCircuitPuzzle :=
  let TileCount := InConfig.Width * InConfig.Height
  if TileCount < 0 then none
  else
    let self : UCircuitPuzzle :=
      { Width := InConfig.Width, Height := InConfig.Height, Config := InConfig,
        Tiles := List.replicate TileCount.toNat
          (FCircuitTile.mk ECircuitTileType.Empty 0 false false),
        SolutionRotations := List.replicate TileCount.toNat 0 }
    let (SourceIndex, RandStream) := RandStream.RandRange 0 (TileCount - 1)
    let (SinkIndex, RandStream) := RandStream.RandRange 0 (TileCount - 1)
    match StartNew.placeSink self SourceIndex TileCount fuel SinkIndex RandStream with
    | none => none
    | some (SinkIndex, RandStream) =>
      match modifyTile self.Tiles SourceIndex
          (fun Tile => { Tile with TileType := ECircuitTileType.Source }) with
      | none => none
      | some Tiles =>
        match modifyTile Tiles SinkIndex
            (fun Tile => { Tile with TileType := ECircuitTileType.Sink }) with
        | none => none
        | some Tiles =>
          match GenerateSolutionPath { self with Tiles := Tiles } SourceIndex SinkIndex
              RandStream fuel with
          | none => none
          | some (self, RandStream) =>
            match (List.range TileCount.toNat).foldlM StartNew.fill (self, RandStream) with
            | none => none
            | some (self, RandStream) =>
              match ScramblePuzzle self RandStream with
              | none => none
              | some (self, RandStream) =>
                match ApplyLocks self RandStream with
                | none => none
                | some (self, _) => RecomputePower self

end UCircuitPuzzle

/-! ## Sample runs -/

/-- A stream that delivers the listed draws and then zeros. -/
def streamOf (ds : List Nat) : FRandomStream := FRandomStream.mk (fun n => ds.getD n 0) 0

/-- An engine before its first `StartNew`. -/
def freshPuzzle : UCircuitPuzzle :=
  UCircuitPuzzle.mk 0 0 (FCircuitPuzzleConfig.mk 5 5 0 false false 0 6 0) [] []

/-! ## Vocabulary of the properties -/

open UCircuitPuzzle

/-- The grid invariant of the data model: the tile array holds `Width * Height` tiles. -/
def GridShaped (self : UCircuitPuzzle) : Prop :=
  (self.Tiles.length : Int) = self.Width * self.Height

/-- Tile `i` exists and its powered flag is set. -/
def PoweredAt (self : UCircuitPuzzle) (i : Int) : Prop :=
  ∃ t, tileAt self.Tiles i = some t ∧ t.bPowered = true

/-- Tile `k` exists and has a connector in direction `d`. -/
def ConnectsAt (self : UCircuitPuzzle) (k : Int) (d : ECircuitDir) : Prop :=
  ∃ t, tileAt self.Tiles k = some t ∧ d ∈ tileConnections t

/-- One conducting step: `k` is the in-grid neighbour of `j` in a direction `d`
with `d` among the connections of `j` and the opposite of `d` among those of `k`. -/
def Conducts (self : UCircuitPuzzle) (j k : Int) : Prop :=
  ∃ d cj ck, self.GetTileConnections j = some cj ∧ d ∈ cj ∧ self.GetNeighborIndex j d = k ∧
    k ≠ -1 ∧ self.GetTileConnections k = some ck ∧ GetOppositeDirection d ∈ ck

/-- A chain of conducting steps leads from `src` to `i` (the empty chain included). -/
def Reach (self : UCircuitPuzzle) (src i : Int) : Prop :=
  Relation.ReflTransGen (Conducts self) src i

/-- Every neighbour index computed for a tile of the array is an index of the array. -/
def NeighborsInRange (self : UCircuitPuzzle) : Prop :=
  ∀ (i : Int) (d : ECircuitDir), 0 ≤ i → i < self.Tiles.length →
    self.GetNeighborIndex i d ≠ -1 →
      0 ≤ self.GetNeighborIndex i d ∧ self.GetNeighborIndex i d < self.Tiles.length

/-- Two engine states differ at most in the powered flags of their tiles. -/
def SameButPower (s s' : UCircuitPuzzle) : Prop :=
  RecomputePower.reset s' = RecomputePower.reset s

/-- Number of tiles whose powered flag is clear. -/
def unpoweredCount (self : UCircuitPuzzle) : Nat :=
  self.Tiles.countP (fun t => !t.bPowered)

/-- Invariant of the breadth-first loop of `RecomputePower`, for the state `s0`
at loop entry, the Source index `src`, the current state and the queue. -/
def BfsInv (s0 : UCircuitPuzzle) (src : Int) (s : UCircuitPuzzle) (Q : List Int) : Prop :=
  SameButPower s0 s ∧ PoweredAt s src ∧ (∀ i, PoweredAt s i → Reach s0 src i) ∧
  (∀ j, PoweredAt s j → j ∉ Q → ∀ k, Conducts s0 j k → PoweredAt s k) ∧
  (∀ q ∈ Q, PoweredAt s q)

/-- Row `q` and column `r` name a cell of a grid of `W * H` cells under the
truncating index arithmetic (both dimensions positive, or both negative). -/
def CellOK (W H q r : Int) : Prop :=
  0 ≤ r ∧ ((0 < W ∧ 0 < H ∧ 0 ≤ q ∧ q < H ∧ r < W) ∨ (W < 0 ∧ H < 0 ∧ q ≤ 0 ∧ H < q ∧ r < -W))

/-- Index `src` holds a Source tile and no lower index does: the tile at which
`RecomputePower` starts. -/
def FirstSource (self : UCircuitPuzzle) (src : Int) : Prop :=
  (∃ t, tileAt self.Tiles src = some t ∧ t.TileType = ECircuitTileType.Source) ∧
  ∀ j t, j < src → tileAt self.Tiles j = some t → t.TileType ≠ ECircuitTileType.Source

/-- The conditions under which `RotateTile` refuses to rotate. -/
def RotateRefused (self : UCircuitPuzzle) (Index : Int) : Prop :=
  Index < 0 ∨ Index ≥ (self.Tiles.length : Int) ∨
  ∃ t, tileAt self.Tiles Index = some t ∧
    (t.bLocked = true ∨
     (t.TileType = ECircuitTileType.Source ∧ self.Config.bAllowRotateSource = false) ∨
     (t.TileType = ECircuitTileType.Sink ∧ self.Config.bAllowRotateSink = false))

/-- The engine state with tile `Index` turned by one step and nothing else changed. -/
def withRotated (self : UCircuitPuzzle) (Index : Int) (t : FCircuitTile) : UCircuitPuzzle :=
  { self with
    Tiles := self.Tiles.set Index.toNat { t with RotationSteps := (t.RotationSteps + 1).tmod 4 } }

/-- Index `b` is what `GetNeighborIndex` returns for `a` in some direction. -/
def Step (self : UCircuitPuzzle) (a b : Int) : Prop :=
  ∃ d, self.GetNeighborIndex a d = b ∧ b ≠ -1

/-- Invariant of the walk of `GenerateSolutionPath`: the path starts at `src`, ends at
`cur`, repeats no index, stays in the array, and joins neighbours. -/
def PathInv (self : UCircuitPuzzle) (src : Int) (Path : List Int) (cur : Int) : Prop :=
  Path[0]? = some src ∧ Path[Path.length - 1]? = some cur ∧ Path.Nodup ∧
  (∀ p ∈ Path, 0 ≤ p ∧ p < (self.Tiles.length : Int)) ∧
  (∀ (k : Nat) (a b : Int), Path[k]? = some a → Path[k + 1]? = some b → Step self a b)

/-- The grid as `StartNew` hands it to `GenerateSolutionPath`: a Source at `src`, a Sink at
`snk`, and Empty tiles elsewhere. -/
def OnlySourceSink (self : UCircuitPuzzle) (src snk : Int) : Prop :=
  ∀ j t, tileAt self.Tiles j = some t →
    (j = src → t.TileType = ECircuitTileType.Source) ∧
    (j = snk → t.TileType = ECircuitTileType.Sink) ∧
    (j ≠ src → j ≠ snk → t.TileType = ECircuitTileType.Empty)

/-- What the conversion loop of `GenerateSolutionPath` makes of the tile `t0` at
position `k` of the path `P`, whose index is `a`: the tile `t` keeps its flags, keeps its
kind unless it was Empty, and connects toward both path neighbours. -/
def Converted (self : UCircuitPuzzle) (P : List Int) (k : Nat) (a : Int)
    (t0 t : FCircuitTile) : Prop :=
  t.bLocked = t0.bLocked ∧ t.bPowered = t0.bPowered ∧
  0 ≤ t.RotationSteps ∧ t.RotationSteps ≤ 3 ∧
  (t0.TileType = ECircuitTileType.Empty →
    t.TileType = ECircuitTileType.Straight ∨ t.TileType = ECircuitTileType.Elbow) ∧
  (t0.TileType ≠ ECircuitTileType.Empty → t.TileType = t0.TileType) ∧
  (∀ p, 1 ≤ k → P[k - 1]? = some p → self.GetDirectionTo a p ∈ tileConnections t) ∧
  (∀ q, P[k + 1]? = some q → self.GetDirectionTo a q ∈ tileConnections t)

/-- Invariant of the conversion loop of `GenerateSolutionPath` before iteration `i`,
relating the state `s1` at loop entry to the current state `s`. -/
def ConvInv (s1 : UCircuitPuzzle) (P : List Int) (i : Nat) (s : UCircuitPuzzle) : Prop :=
  (s.Width = s1.Width ∧ s.Height = s1.Height ∧ s.Config = s1.Config ∧
    s.SolutionRotations = s1.SolutionRotations ∧ s.Tiles.length = s1.Tiles.length) ∧
  (∀ j, (∀ k, k < i → P[k]? ≠ some j) → tileAt s.Tiles j = tileAt s1.Tiles j) ∧
  (∀ k a, k < i → P[k]? = some a →
    ∃ t0 t, tileAt s1.Tiles a = some t0 ∧ tileAt s.Tiles a = some t ∧ Converted s1 P k a t0 t)

/-- Two tile arrays have the same length and their tiles are related index by index. -/
def TilesRel (R : FCircuitTile → FCircuitTile → Prop) (a b : List FCircuitTile) : Prop :=
  a.length = b.length ∧
  ∀ (n : Nat) (ta tb : FCircuitTile), a[n]? = some ta → b[n]? = some tb → R ta tb

/-- The rotation of a tile lies in `0..3`. -/
def RotInRange (t : FCircuitTile) : Prop := 0 ≤ t.RotationSteps ∧ t.RotationSteps ≤ 3

/-- What generation (path conversion, random fill) may do to a tile: the flags stay, a
kind other than Empty stays, an Empty tile never becomes Source, Sink or Blocker, and a
rotation in `0..3` stays in `0..3`. -/
def GenRel (t t' : FCircuitTile) : Prop :=
  t'.bLocked = t.bLocked ∧ t'.bPowered = t.bPowered ∧
  (t.TileType ≠ ECircuitTileType.Empty → t'.TileType = t.TileType) ∧
  (t.TileType = ECircuitTileType.Empty →
    t'.TileType ≠ ECircuitTileType.Source ∧ t'.TileType ≠ ECircuitTileType.Sink ∧
    t'.TileType ≠ ECircuitTileType.Blocker) ∧
  (RotInRange t → RotInRange t')

/-- What the random fill does to a tile: a tile that is not Empty is untouched, an Empty
tile gets one of the four connector kinds and a rotation in `0..3`. -/
def FillRel (t t' : FCircuitTile) : Prop :=
  (t.TileType ≠ ECircuitTileType.Empty → t' = t) ∧
  (t.TileType = ECircuitTileType.Empty →
    t' = t ∨
    ((t'.TileType = ECircuitTileType.Straight ∨ t'.TileType = ECircuitTileType.Elbow ∨
      t'.TileType = ECircuitTileType.Tee ∨ t'.TileType = ECircuitTileType.Cross) ∧
     RotInRange t' ∧ t'.bLocked = t.bLocked ∧ t'.bPowered = t.bPowered))

/-- What `ScramblePuzzle` does to a tile under the configuration `cfg`: only the rotation
changes, it stays in `0..3`, and a Source or Sink that must not rotate keeps it. -/
def ScrambleRel (cfg : FCircuitPuzzleConfig) (t t' : FCircuitTile) : Prop :=
  t'.TileType = t.TileType ∧ t'.bLocked = t.bLocked ∧ t'.bPowered = t.bPowered ∧
  (RotInRange t → RotInRange t') ∧
  (t.TileType = ECircuitTileType.Source → cfg.bAllowRotateSource = false →
    t'.RotationSteps = t.RotationSteps) ∧
  (t.TileType = ECircuitTileType.Sink → cfg.bAllowRotateSink = false →
    t'.RotationSteps = t.RotationSteps)

/-- What `ApplyLocks` does to a tile: only the locked flag changes, it is never cleared,
and it stays as it is on a Source or Sink. -/
def LockRel (t t' : FCircuitTile) : Prop :=
  t'.TileType = t.TileType ∧ t'.RotationSteps = t.RotationSteps ∧ t'.bPowered = t.bPowered ∧
  (t.bLocked = true → t'.bLocked = true) ∧
  (t.TileType = ECircuitTileType.Source ∨ t.TileType = ECircuitTileType.Sink →
    t'.bLocked = t.bLocked)

/-- Invariant of the fill loop of `StartNew` before iteration `i`, relating the state
`s2` at loop entry to the current state `s`. -/
def FillInv (s2 : UCircuitPuzzle) (i : Nat) (s : UCircuitPuzzle) : Prop :=
  (s.Width = s2.Width ∧ s.Height = s2.Height ∧ s.Config = s2.Config ∧
    s.SolutionRotations.length = s2.SolutionRotations.length) ∧
  TilesRel FillRel s2.Tiles s.Tiles ∧
  (∀ (n : Nat), i ≤ n → s.Tiles[n]? = s2.Tiles[n]?) ∧
  (∀ (n : Nat) (t : FCircuitTile), n < i → s.Tiles[n]? = some t →
    t.TileType ≠ ECircuitTileType.Empty ∧ s.SolutionRotations[n]? = some t.RotationSteps)

/-- The engine state has the dimensions and configuration `cfg` and a tile array of
`Width * Height` tiles. -/
def Framed (cfg : FCircuitPuzzleConfig) (x : UCircuitPuzzle) : Prop :=
  x.Width = cfg.Width ∧ x.Height = cfg.Height ∧ x.Config = cfg ∧ GridShaped x

/-- The stages of a run of `StartNew` that returned `s`: `s1` after Source and Sink are
placed, `s2` after `GenerateSolutionPath`, `s3` after the random fill (the solved layout),
`s4` after `ScramblePuzzle`, `s6` after `ApplyLocks`. -/
structure StartNewRun (cfg : FCircuitPuzzleConfig) (src snk : Int)
    (s1 s2 s3 s4 s6 s : UCircuitPuzzle) : Prop where
  srcRange : 0 ≤ src ∧ src < (s1.Tiles.length : Int)
  snkRange : 0 ≤ snk ∧ snk < (s1.Tiles.length : Int)
  distinct : snk ≠ src
  apart : s1.AreAdjacent src snk = false
  framed1 : Framed cfg s1
  framed2 : Framed cfg s2
  framed3 : Framed cfg s3
  framed4 : Framed cfg s4
  framed6 : Framed cfg s6
  framed : Framed cfg s
  start : ∀ j t, tileAt s1.Tiles j = some t →
    t = FCircuitTile.mk
      (if j = src then ECircuitTileType.Source
       else if j = snk then ECircuitTileType.Sink else ECircuitTileType.Empty) 0 false false
  path : ∃ P, PathInv s1 src P snk ∧ ConvInv s1 P P.length s2
  filled : FillInv s2 s2.Tiles.length s3
  solutionLength : s3.SolutionRotations.length = s3.Tiles.length
  scrambled : TilesRel (ScrambleRel cfg) s3.Tiles s4.Tiles ∧
    s4.SolutionRotations = s3.SolutionRotations
  locked : TilesRel LockRel s4.Tiles s6.Tiles ∧ s6.SolutionRotations = s4.SolutionRotations
  lockRun : ∃ rs4 rs6, s4.ApplyLocks rs4 = some (s6, rs6)
  powered : s6.RecomputePower = some s ∧ SameButPower s6 s

/-- The state with every tile's rotation set to its entry of `SolutionRotations`. -/
def restoreSolution (self : UCircuitPuzzle) : UCircuitPuzzle :=
  { self with
    Tiles := List.zipWith (fun t r => { t with RotationSteps := r }) self.Tiles
      self.SolutionRotations }

/-- A tile keeps its kind, and its rotation if in `0..3` stays in `0..3`. -/
def KeepRel (t t' : FCircuitTile) : Prop :=
  t'.TileType = t.TileType ∧ (RotInRange t → RotInRange t')

/-- Two tiles have the same kind and the same rotation. -/
def SameConnector (t t' : FCircuitTile) : Prop :=
  t'.TileType = t.TileType ∧ t'.RotationSteps = t.RotationSteps

/-- The states of a run: what a returning `StartNew` builds, and what `RotateTile` calls
make of it. -/
inductive Reachable : UCircuitPuzzle → Prop
  | start (prior : UCircuitPuzzle) (cfg : FCircuitPuzzleConfig) (rs : FRandomStream)
      (fuel : Nat) (s : UCircuitPuzzle) :
      UCircuitPuzzle.StartNew prior cfg rs fuel = some s → Reachable s
  | rotate (s : UCircuitPuzzle) (Index : Int) (out : RotateOutcome) :
      Reachable s → s.RotateTile Index = some out → Reachable out.State

/-- The state after the calls `RotateTile(i)` for the listed indices, in order. -/
def rotateMany : UCircuitPuzzle → List Int → Option UCircuitPuzzle
  | s, [] => some s
  | s, i :: rest =>
    match s.RotateTile i with
    | none => none
    | some out => rotateMany out.State rest

/-- The state `self` with all powered flags cleared and the rotation of tile `i`, which
is `t`, replaced by `r`. -/
def rotatedTo (self : UCircuitPuzzle) (i : Int) (t : FCircuitTile) (r : Int) : UCircuitPuzzle :=
  { RecomputePower.reset self with
    Tiles := (RecomputePower.reset self).Tiles.set i.toNat
      (FCircuitTile.mk t.TileType r t.bLocked false) }

/-- Invariant of the reachable states: the grid shape, rotations in `0..3`, and powered
flags that `RecomputePower` reproduces. -/
def ReachInv (s : UCircuitPuzzle) : Prop :=
  GridShaped s ∧ (∀ j t, tileAt s.Tiles j = some t → RotInRange t) ∧
  s.RecomputePower = some s

/-- The connection table of the specification, by tile kind and rotation `r`: Empty and
Blocker connect nowhere; Source and Sink toward `r mod 4`; Straight toward Up and Down
when `r` is even and toward Right and Left when `r` is odd; Elbow toward `r mod 4` and
`(r + 1) mod 4`; Tee toward `r mod 4`, `(r + 1) mod 4` and `(r + 3) mod 4`; Cross toward
all four directions. -/
def specConnections (kind : ECircuitTileType) (r : Int) : List ECircuitDir :=
  match kind with
  | .Empty | .Blocker => []
  | .Source | .Sink => [(r % 4).toNat]
  | .Straight =>
    if r % 2 = 0 then [ECircuitDir.Up, ECircuitDir.Down]
    else [ECircuitDir.Right, ECircuitDir.Left]
  | .Elbow => [(r % 4).toNat, ((r + 1) % 4).toNat]
  | .Tee => [(r % 4).toNat, ((r + 1) % 4).toNat, ((r + 3) % 4).toNat]
  | .Cross => [ECircuitDir.Up, ECircuitDir.Right, ECircuitDir.Down, ECircuitDir.Left]

/-- The loop `while (!Queue.IsEmpty())` of `RecomputePower` with a log: the same steps as
`RecomputePower.loop`, and `Trace` collects the dequeued indices in order. -/
def UCircuitPuzzle.RecomputePower.loopTrace :
    Nat → UCircuitPuzzle → List Int → List Int → Option (UCircuitPuzzle × List Int)
  | _, self, [], Trace => some (self, Trace)
  | 0, _, _ :: _, _ => none
  | fuel + 1, self, CurrentIndex :: Queue, Trace =>
    match self.GetTileConnections CurrentIndex with
    | none => none
    | some Connections =>
      match Connections.foldlM (RecomputePower.visit CurrentIndex) (self, Queue) with
      | none => none
      | some st => UCircuitPuzzle.RecomputePower.loopTrace fuel st.1 st.2 (Trace ++ [CurrentIndex])

/-- Method `UCircuitPuzzle::RecomputePower` with the log of dequeued indices. -/
def UCircuitPuzzle.RecomputePower.trace (self : UCircuitPuzzle) :
    Option (UCircuitPuzzle × List Int) :=
  let self := RecomputePower.reset self
  let SourceIndex := RecomputePower.findSource self.Tiles 0
  if SourceIndex = -1 then some (self, [])
  else
    match modifyTile self.Tiles SourceIndex (fun Tile => { Tile with bPowered := true }) with
    | none => none
    | some Tiles =>
      UCircuitPuzzle.RecomputePower.loopTrace self.Tiles.length { self with Tiles := Tiles }
        [SourceIndex] []

/-- The part of `StartNew` up to the exit of the walk loop of `GenerateSolutionPath`: the
carved path and the stream at that point; `none` when the sink-placement loop or the walk
loop has not exited within `fuel` iterations. -/
def UCircuitPuzzle.StartNew.walkLoop (InConfig : FCircuitPuzzleConfig)
    (RandStream : FRandomStream) (fuel : Nat) : Option (List Int × FRandomStream) :=
  let TileCount := InConfig.Width * InConfig.Height
  if TileCount < 0 then none
  else
    let self : UCircuitPuzzle :=
      { Width := InConfig.Width, Height := InConfig.Height, Config := InConfig,
        Tiles := List.replicate TileCount.toNat
          (FCircuitTile.mk ECircuitTileType.Empty 0 false false),
        SolutionRotations := List.replicate TileCount.toNat 0 }
    let (SourceIndex, RandStream) := RandStream.RandRange 0 (TileCount - 1)
    let (SinkIndex, RandStream) := RandStream.RandRange 0 (TileCount - 1)
    match StartNew.placeSink self SourceIndex TileCount fuel SinkIndex RandStream with
    | none => none
    | some (SinkIndex, RandStream) =>
      match modifyTile self.Tiles SourceIndex
          (fun Tile => { Tile with TileType := ECircuitTileType.Source }) with
      | none => none
      | some Tiles =>
        match modifyTile Tiles SinkIndex
            (fun Tile => { Tile with TileType := ECircuitTileType.Sink }) with
        | none => none
        | some Tiles =>
          GenerateSolutionPath.walk { self with Tiles := Tiles } SourceIndex SinkIndex fuel
            [SourceIndex] SourceIndex RandStream

/-- Invariant of the reachable states, second part: `SolutionRotations` has one entry per
tile, every entry lies in `0..3`, and no tile is Empty or a Blocker. -/
def SolutionInv (s : UCircuitPuzzle) : Prop :=
  s.SolutionRotations.length = s.Tiles.length ∧
  (∀ (n : Nat) (r : Int), s.SolutionRotations[n]? = some r → 0 ≤ r ∧ r ≤ 3) ∧
  (∀ j t, tileAt s.Tiles j = some t →
    t.TileType ≠ ECircuitTileType.Empty ∧ t.TileType ≠ ECircuitTileType.Blocker)

/-- A Source or Sink tile that the configuration forbids rotating: the tiles that
`ScramblePuzzle` skips. -/
def ScrambleSkips (cfg : FCircuitPuzzleConfig) (t : FCircuitTile) : Prop :=
  (t.TileType = ECircuitTileType.Source ∧ cfg.bAllowRotateSource = false) ∨
  (t.TileType = ECircuitTileType.Sink ∧ cfg.bAllowRotateSink = false)

/-- The effect of one logged iteration of `ScramblePuzzle` on the tile array: `(i, some a)`
advances the rotation of tile `i` by `a` modulo 4, `(i, none)` is a skipped draw. -/
def scrambleOp (Tiles : List FCircuitTile) (op : Int × Option Int) : List FCircuitTile :=
  match op.2, tileAt Tiles op.1 with
  | some a, some Tile =>
    Tiles.set op.1.toNat { Tile with RotationSteps := (Tile.RotationSteps + a).tmod 4 }
  | _, _ => Tiles

/-- The loop of `ScramblePuzzle` with a log: the same steps as `ScramblePuzzle.loop`, and
the log holds, per iteration, the drawn index and the rotation amount (`none` when the
iteration was skipped). -/
def UCircuitPuzzle.ScramblePuzzle.loopLog : Nat → UCircuitPuzzle → FRandomStream →
    Option (UCircuitPuzzle × FRandomStream × List (Int × Option Int))
  | 0, self, RandStream => some (self, RandStream, [])
  | n + 1, self, RandStream =>
    let (RandomIndex, RandStream) := RandStream.RandRange 0 ((self.Tiles.length : Int) - 1)
    match tileAt self.Tiles RandomIndex with
    | none => none
    | some Tile =>
      if Tile.TileType = ECircuitTileType.Source ∧ ¬ self.Config.bAllowRotateSource then
        (UCircuitPuzzle.ScramblePuzzle.loopLog n self RandStream).map
          (fun r => (r.1, r.2.1, (RandomIndex, none) :: r.2.2))
      else if Tile.TileType = ECircuitTileType.Sink ∧ ¬ self.Config.bAllowRotateSink then
        (UCircuitPuzzle.ScramblePuzzle.loopLog n self RandStream).map
          (fun r => (r.1, r.2.1, (RandomIndex, none) :: r.2.2))
      else
        let (RotateAmount, RandStream) := RandStream.RandRange 1 3
        (UCircuitPuzzle.ScramblePuzzle.loopLog n
          { self with
            Tiles := self.Tiles.set RandomIndex.toNat
              { Tile with RotationSteps := (Tile.RotationSteps + RotateAmount).tmod 4 } }
          RandStream).map
          (fun r => (r.1, r.2.1, (RandomIndex, some RotateAmount) :: r.2.2))

/-- What the log of a run of `ScramblePuzzle` from the state `s` and the stream `rs` to
the state `s'` and the stream `rs'` says: `n` iterations; the tile array is the result
of the logged operations in order; every drawn index is in range; an iteration is
skipped exactly when the drawn tile is a Source or Sink that may not be rotated; every
amount lies in `1..3`; each iteration consumes one draw and each rotation one more. -/
def ScrambleLog (n : Nat) (s : UCircuitPuzzle) (rs : FRandomStream) (s' : UCircuitPuzzle)
    (rs' : FRandomStream) (log : List (Int × Option Int)) : Prop :=
  log.length = n ∧ s'.Tiles = log.foldl scrambleOp s.Tiles ∧
  (∀ op ∈ log, (0 ≤ op.1 ∧ op.1 < (s.Tiles.length : Int)) ∧
    (op.2 = none ↔ ∃ t, tileAt s.Tiles op.1 = some t ∧ ScrambleSkips s.Config t) ∧
    (∀ a, op.2 = some a → 1 ≤ a ∧ a ≤ 3)) ∧
  rs'.pos = rs.pos + n + log.countP (fun op => op.2.isSome) ∧
  log.countP (fun op => op.2.isSome) + log.countP (fun op => op.2.isNone) = n

/-- The index drawn by iteration `k` (counted from 0) of the loop of `ApplyLocks` when the
loop starts with the stream `rs` on an array of `len` tiles. -/
def drawnIndex (rs : FRandomStream) (len : Nat) (k : Nat) : Int :=
  ((FRandomStream.mk rs.draws (rs.pos + k)).RandRange 0 ((len : Int) - 1)).1

/-- Number of tiles whose locked flag is set. -/
def lockedCount (l : List FCircuitTile) : Nat := l.countP (fun t => t.bLocked)

/-- The state after the calls `RotateTile(i)` for the listed indices, in order, when every
one of them returns true; `none` as soon as a call is refused. -/
def rotateSuccessfully : UCircuitPuzzle → List Int → Option UCircuitPuzzle
  | s, [] => some s
  | s, i :: rest =>
    match s.RotateTile i with
    | none => none
    | some out => if out.Returned then rotateSuccessfully out.State rest else none

/-- The state `y` has the dimensions, configuration, `SolutionRotations` and number of
tiles of `x`, every tile keeps kind and locked flag, and the rotation `r` of tile `j`
has become `F j r`. -/
def RotRel (x y : UCircuitPuzzle) (F : Int → Int → Int) : Prop :=
  (y.Width = x.Width ∧ y.Height = x.Height ∧ y.Config = x.Config ∧
    y.SolutionRotations = x.SolutionRotations ∧ y.Tiles.length = x.Tiles.length) ∧
  ∀ j u, tileAt x.Tiles j = some u → ∃ u', tileAt y.Tiles j = some u' ∧
    u'.TileType = u.TileType ∧ u'.bLocked = u.bLocked ∧ u'.RotationSteps = F j u.RotationSteps

/-! ## Sample configurations and states -/

/-- A grid of 3 x 1 tiles: Source facing Right, horizontal Straight, Sink facing Left;
the powered flags are stale. -/
def lineGrid : UCircuitPuzzle :=
  UCircuitPuzzle.mk 3 1 (FCircuitPuzzleConfig.mk 3 1 0 false false 0 0 1)
    [FCircuitTile.mk ECircuitTileType.Source 1 false false,
     FCircuitTile.mk ECircuitTileType.Straight 1 false true,
     FCircuitTile.mk ECircuitTileType.Sink 3 false false]
    [1, 1, 3]

/-- A grid of 2 x 1 tiles with neither a Source nor a Sink tile; the powered flags are
stale. -/
def darkGrid : UCircuitPuzzle :=
  UCircuitPuzzle.mk 2 1 (FCircuitPuzzleConfig.mk 2 1 0 false false 0 0 1)
    [FCircuitTile.mk ECircuitTileType.Cross 0 false true,
     FCircuitTile.mk ECircuitTileType.Straight 1 false true]
    [0, 1]

/-- A configuration of 4 x 1 tiles with no locks and no minimum scramble. -/
def rowConfig : FCircuitPuzzleConfig := FCircuitPuzzleConfig.mk 4 1 0 false false 0 0 7

/-- Draws for `rowConfig`: Source at 0, Sink at 2, two greedy path steps, tile 3
filled as a Straight with rotation 2, and both scramble operations on tile 3. -/
def rowDraws : List Nat := [0, 2, 0, 0, 17, 2, 3, 1, 3, 3]

/-- The state that `StartNew` builds from `rowConfig` and `rowDraws`; it is solved. -/
def rowPuzzle : UCircuitPuzzle :=
  UCircuitPuzzle.mk 4 1 rowConfig
    [FCircuitTile.mk ECircuitTileType.Source 1 false true,
     FCircuitTile.mk ECircuitTileType.Straight 1 false true,
     FCircuitTile.mk ECircuitTileType.Sink 3 false true,
     FCircuitTile.mk ECircuitTileType.Straight 1 false false]
    [1, 1, 3, 2]

/-- A configuration of 3 x 1 tiles with one lock and no minimum scramble; Source and Sink
may not be rotated. -/
def lockConfig : FCircuitPuzzleConfig := FCircuitPuzzleConfig.mk 3 1 0 false false 1 0 7

/-- Draws for `lockConfig`: Source at 0, Sink at 2, two greedy path steps, one scramble
operation turning tile 1 by one step, and the lock on tile 1. -/
def lockDraws : List Nat := [0, 2, 0, 0, 1, 0, 1]

/-- The state that `StartNew` builds from `lockConfig` and `lockDraws`: the Straight tile
between Source and Sink is vertical and locked. -/
def lockedPuzzle : UCircuitPuzzle :=
  UCircuitPuzzle.mk 3 1 lockConfig
    [FCircuitTile.mk ECircuitTileType.Source 1 false true,
     FCircuitTile.mk ECircuitTileType.Straight 2 true false,
     FCircuitTile.mk ECircuitTileType.Sink 3 false false]
    [1, 1, 3]

/-- An engine whose grid is one tile wide and two tiles high (no tiles are needed for the
index arithmetic). -/
def columnGrid : UCircuitPuzzle :=
  UCircuitPuzzle.mk 1 2 (FCircuitPuzzleConfig.mk 1 2 0 false false 0 0 1) [] []

/-- A grid of 3 x 1 tiles: Source facing Right at index 0, a Straight tile with rotation
`r` at index 1, Sink facing Left at index 2; `p0`, `p1`, `p2` are the powered flags left
from before. -/
def straightRow (r : Int) (p0 p1 p2 : Bool) : UCircuitPuzzle :=
  UCircuitPuzzle.mk 3 1 (FCircuitPuzzleConfig.mk 3 1 0 false false 0 0 1)
    [FCircuitTile.mk ECircuitTileType.Source 1 false p0,
     FCircuitTile.mk ECircuitTileType.Straight r false p1,
     FCircuitTile.mk ECircuitTileType.Sink 3 false p2]
    [1, r, 3]

/-- The state `rowPuzzle` after the call `RotateTile(1)`: the Straight tile between Source
and Sink is vertical and only the Source is powered. -/
def rowPuzzleTurned : UCircuitPuzzle :=
  UCircuitPuzzle.mk 4 1 rowConfig
    [FCircuitTile.mk ECircuitTileType.Source 1 false true,
     FCircuitTile.mk ECircuitTileType.Straight 2 false false,
     FCircuitTile.mk ECircuitTileType.Sink 3 false false,
     FCircuitTile.mk ECircuitTileType.Straight 1 false false]
    [1, 1, 3, 2]

/-- A configuration of 3 x 3 tiles with no locks and no minimum scramble. -/
def squareConfig : FCircuitPuzzleConfig := FCircuitPuzzleConfig.mk 3 3 0 false false 0 0 7

/-- The configuration `rowConfig` with the lock count -1. -/
def negLockConfig : FCircuitPuzzleConfig := FCircuitPuzzleConfig.mk 4 1 0 false false (-1) 0 7

/-- A grid of 3 x 1 tiles as `StartNew` hands it to `GenerateSolutionPath`: Source at
index 0, Sink at index 2, an Empty tile between them. -/
def placedRow : UCircuitPuzzle :=
  UCircuitPuzzle.mk 3 1 (FCircuitPuzzleConfig.mk 3 1 0 false false 0 0 1)
    [FCircuitTile.mk ECircuitTileType.Source 0 false false,
     FCircuitTile.mk ECircuitTileType.Empty 0 false false,
     FCircuitTile.mk ECircuitTileType.Sink 0 false false]
    [0, 0, 0]

/-- The grid `placedRow` after `GenerateSolutionPath` from index 0 to index 2. -/
def carvedRow : UCircuitPuzzle :=
  UCircuitPuzzle.mk 3 1 (FCircuitPuzzleConfig.mk 3 1 0 false false 0 0 1)
    [FCircuitTile.mk ECircuitTileType.Source 1 false false,
     FCircuitTile.mk ECircuitTileType.Straight 1 false false,
     FCircuitTile.mk ECircuitTileType.Sink 3 false false]
    [0, 0, 0]

/-- A stream that delivers the listed draws and then the draws `rest 0`, `rest 1`, ... -/
def streamFrom (ds : List Nat) (rest : Nat → Nat) : FRandomStream :=
  FRandomStream.mk (fun n => if n < ds.length then ds.getD n 0 else rest (n - ds.length)) 0

/-- Draws for `squareConfig`: Source at 2, Sink at 0; at tile 2 a random step to 5; at
tile 5 a greedy step to 4; at tile 4 a random step to 3; at tile 3 a random step to 6. -/
def livelockDraws : List Nat := [2, 0, 700, 0, 0, 700, 2, 700, 1]

/-- An engine with the dimensions of `squareConfig` (the walk reads no tile). -/
def bareSquare : UCircuitPuzzle := UCircuitPuzzle.mk 3 3 squareConfig [] []

/-! # Properties -/

/-! ## Index arithmetic of the grid -/

theorem tdiv_tmod_coords (W c : Int) (hW : W ≠ 0) (hc : 0 ≤ c) :
    c = c.tdiv W * W + c.tmod W ∧ 0 ≤ c.tmod W ∧ c.tmod W < |W| ∧
      (0 < W → 0 ≤ c.tdiv W) ∧ (W < 0 → c.tdiv W ≤ 0) := by
  have h1 := Int.tmod_add_tdiv c W
  refine ⟨by rw [mul_comm]; omega, ?_, ?_, ?_, ?_⟩
  · exact Int.tmod_nonneg W hc
  · rcases lt_or_gt_of_ne hW with h | h
    · rw [abs_of_neg h, ← Int.tmod_neg]
      exact Int.tmod_lt_of_pos c (by omega)
    · rw [abs_of_pos h]
      exact Int.tmod_lt_of_pos c h
  · intro hpos
    exact Int.tdiv_nonneg hc (le_of_lt hpos)
  · intro hneg
    exact Int.tdiv_nonpos hc (le_of_lt hneg)

theorem tdiv_tmod_unique (W c q r : Int) (hc : 0 ≤ c) (h : c = q * W + r)
    (hr0 : 0 ≤ r) (hr1 : r < |W|) : c.tmod W = r ∧ c.tdiv W = q := by
  rcases lt_trichotomy W 0 with hW | hW | hW
  · have hW' : 0 < -W := by omega
    rw [abs_of_neg hW] at hr1
    have e1 : c.tmod W = c % (-W) := by
      rw [← Int.tmod_neg, Int.tmod_eq_emod hc (le_of_lt hW')]
    have e2 : c.tdiv W = -(c / (-W)) := by
      have : c.tdiv W = c.tdiv (-(-W)) := by rw [neg_neg]
      rw [this, Int.tdiv_neg, Int.tdiv_eq_ediv hc (le_of_lt hW')]
    have hc' : c = r + (-W) * (-q) := by rw [h]; ring
    constructor
    · rw [e1, hc', Int.add_mul_emod_self_left, Int.emod_eq_of_lt hr0 hr1]
    · rw [e2, hc', Int.add_mul_ediv_left _ _ (by omega : (-W) ≠ 0), Int.ediv_eq_zero_of_lt hr0 hr1]
      ring
  · subst hW; simp at hr1; omega
  · rw [abs_of_pos hW] at hr1
    have hc' : c = r + W * q := by rw [h]; ring
    rw [Int.tmod_eq_emod hc (le_of_lt hW), Int.tdiv_eq_ediv hc (le_of_lt hW)]
    constructor
    · rw [hc', Int.add_mul_emod_self_left, Int.emod_eq_of_lt hr0 hr1]
    · rw [hc', Int.add_mul_ediv_left _ _ (by omega : W ≠ 0), Int.ediv_eq_zero_of_lt hr0 hr1]
      ring

theorem grid_coords (W H c : Int) (hc0 : 0 ≤ c) (hc1 : c < W * H) :
    CellOK W H (c.tdiv W) (c.tmod W) ∧ c = c.tdiv W * W + c.tmod W := by
  have hpos : 0 < W * H := by omega
  have hW : W ≠ 0 := by rintro rfl; simp at hpos
  obtain ⟨e, x0, x1, yp, yn⟩ := tdiv_tmod_coords W c hW hc0
  refine ⟨⟨x0, ?_⟩, e⟩
  rcases lt_or_gt_of_ne hW with h | h
  · right
    have hH : H < 0 := by
      by_contra hH
      push_neg at hH
      have : W * H ≤ 0 := mul_nonpos_of_nonpos_of_nonneg (le_of_lt h) hH
      omega
    rw [abs_of_neg h] at x1
    refine ⟨h, hH, yn h, ?_, x1⟩
    by_contra hle
    push_neg at hle
    have : W * H ≤ W * c.tdiv W := by
      apply mul_le_mul_of_nonpos_left hle (le_of_lt h)
    have : c.tdiv W * W = W * c.tdiv W := mul_comm _ _
    omega
  · left
    have hH : 0 < H := by
      by_contra hH
      push_neg at hH
      have : W * H ≤ 0 := mul_nonpos_of_nonneg_of_nonpos (le_of_lt h) hH
      omega
    rw [abs_of_pos h] at x1
    refine ⟨h, hH, yp h, ?_, x1⟩
    by_contra hle
    push_neg at hle
    have : W * H ≤ W * c.tdiv W := mul_le_mul_of_nonneg_left hle (le_of_lt h)
    have : c.tdiv W * W = W * c.tdiv W := mul_comm _ _
    omega

theorem grid_cell (W H q r : Int) (h : CellOK W H q r) :
    0 ≤ q * W + r ∧ q * W + r < W * H ∧ (q * W + r).tmod W = r ∧ (q * W + r).tdiv W = q := by
  obtain ⟨r0, h⟩ := h
  have key : 0 ≤ q * W ∧ q * W + r < W * H ∧ r < |W| := by
    rcases h with ⟨hW, hH, q0, q1, r1⟩ | ⟨hW, hH, q0, q1, r1⟩
    · refine ⟨mul_nonneg q0 (le_of_lt hW), ?_, by rw [abs_of_pos hW]; exact r1⟩
      have : W * (q + 1) ≤ W * H := mul_le_mul_of_nonneg_left (by omega) (le_of_lt hW)
      have e : W * (q + 1) = q * W + W := by ring
      omega
    · refine ⟨mul_nonneg_of_nonpos_of_nonpos q0 (le_of_lt hW), ?_, by rw [abs_of_neg hW]; exact r1⟩
      have : W * (q - 1) ≤ W * H := mul_le_mul_of_nonpos_left (by omega) (le_of_lt hW)
      have e : W * (q - 1) = q * W - W := by ring
      omega
  obtain ⟨k0, k1, k2⟩ := key
  have hn0 : 0 ≤ q * W + r := by omega
  obtain ⟨u1, u2⟩ := tdiv_tmod_unique W (q * W + r) q r hn0 rfl r0 k2
  exact ⟨hn0, k1, u1, u2⟩

theorem gni_step (s : UCircuitPuzzle) (hs : GridShaped s) (c : Int) (hc0 : 0 ≤ c)
    (hc1 : c < s.Tiles.length) (d : ECircuitDir) (hne : s.GetNeighborIndex c d ≠ -1) :
    0 ≤ s.GetNeighborIndex c d ∧ s.GetNeighborIndex c d < s.Tiles.length ∧ d < 4 ∧
      s.GetDirectionTo c (s.GetNeighborIndex c d) = d ∧
      s.GetDirectionTo (s.GetNeighborIndex c d) c = GetOppositeDirection d := by
  unfold GridShaped at hs
  rw [hs] at hc1 ⊢
  obtain ⟨⟨x0, hcell⟩, hc⟩ := grid_coords s.Width s.Height c hc0 hc1
  generalize hX : c.tmod s.Width = X at *
  generalize hY : c.tdiv s.Width = Y at *
  have hgni : ∀ q r, CellOK s.Width s.Height q r →
      0 ≤ q * s.Width + r ∧ q * s.Width + r < s.Width * s.Height ∧
      (q * s.Width + r).tmod s.Width = r ∧ (q * s.Width + r).tdiv s.Width = q :=
    fun q r h => grid_cell _ _ q r h
  match d with
  | 0 =>
    have e0 : s.GetNeighborIndex c 0 = if Y > 0 then (Y - 1) * s.Width + X else -1 := by
      simp only [GetNeighborIndex, hX, hY]
    rw [e0] at hne ⊢
    by_cases hg : Y > 0
    · rw [if_pos hg]
      have hok : CellOK s.Width s.Height (Y - 1) X := ⟨x0, by omega⟩
      obtain ⟨n0, n1, nx, ny⟩ := hgni _ _ hok
      refine ⟨n0, n1, by decide, ?_, ?_⟩
      · simp only [GetDirectionTo, hX, hY, nx, ny]
        rw [if_pos (by omega)]
      · simp only [GetDirectionTo, hX, hY, nx, ny, GetOppositeDirection]
        rw [if_neg (by omega), if_neg (by omega), if_pos (by omega)]
    · rw [if_neg hg] at hne; exact absurd rfl hne
  | 1 =>
    have e0 : s.GetNeighborIndex c 1 =
        if X < s.Width - 1 then Y * s.Width + (X + 1) else -1 := by
      simp only [GetNeighborIndex, hX, hY]
    rw [e0] at hne ⊢
    by_cases hg : X < s.Width - 1
    · rw [if_pos hg]
      have hok : CellOK s.Width s.Height Y (X + 1) := ⟨by omega, by omega⟩
      obtain ⟨n0, n1, nx, ny⟩ := hgni _ _ hok
      refine ⟨n0, n1, by decide, ?_, ?_⟩
      · simp only [GetDirectionTo, hX, hY, nx, ny]
        rw [if_neg (by omega), if_pos (by omega)]
      · simp only [GetDirectionTo, hX, hY, nx, ny, GetOppositeDirection]
        rw [if_neg (by omega), if_neg (by omega), if_neg (by omega)]
    · rw [if_neg hg] at hne; exact absurd rfl hne
  | 2 =>
    have e0 : s.GetNeighborIndex c 2 =
        if Y < s.Height - 1 then (Y + 1) * s.Width + X else -1 := by
      simp only [GetNeighborIndex, hX, hY]
    rw [e0] at hne ⊢
    by_cases hg : Y < s.Height - 1
    · rw [if_pos hg]
      have hok : CellOK s.Width s.Height (Y + 1) X := ⟨x0, by omega⟩
      obtain ⟨n0, n1, nx, ny⟩ := hgni _ _ hok
      refine ⟨n0, n1, by decide, ?_, ?_⟩
      · simp only [GetDirectionTo, hX, hY, nx, ny]
        rw [if_neg (by omega), if_neg (by omega), if_pos (by omega)]
      · simp only [GetDirectionTo, hX, hY, nx, ny, GetOppositeDirection]
        rw [if_pos (by omega)]
    · rw [if_neg hg] at hne; exact absurd rfl hne
  | 3 =>
    have e0 : s.GetNeighborIndex c 3 = if X > 0 then Y * s.Width + (X - 1) else -1 := by
      simp only [GetNeighborIndex, hX, hY]
    rw [e0] at hne ⊢
    by_cases hg : X > 0
    · rw [if_pos hg]
      have hok : CellOK s.Width s.Height Y (X - 1) := ⟨by omega, by omega⟩
      obtain ⟨n0, n1, nx, ny⟩ := hgni _ _ hok
      refine ⟨n0, n1, by decide, ?_, ?_⟩
      · simp only [GetDirectionTo, hX, hY, nx, ny]
        rw [if_neg (by omega), if_neg (by omega), if_neg (by omega)]
      · simp only [GetDirectionTo, hX, hY, nx, ny, GetOppositeDirection]
        rw [if_neg (by omega), if_pos (by omega)]
    · rw [if_neg hg] at hne; exact absurd rfl hne
  | n + 4 =>
    exact absurd (by simp [GetNeighborIndex]) hne

/-! ## Array access -/

theorem tileAt_eq_some {l : List FCircuitTile} {i : Int} {t : FCircuitTile}
    (h : tileAt l i = some t) : 0 ≤ i ∧ i < l.length ∧ l[i.toNat]? = some t := by
  unfold tileAt at h
  split at h
  · rename_i h0
    have hlt := (List.getElem?_eq_some_iff.mp h).1
    exact ⟨h0, by omega, h⟩
  · cases h

theorem tileAt_isSome {l : List FCircuitTile} {i : Int} (h0 : 0 ≤ i) (h1 : i < l.length) :
    ∃ t, tileAt l i = some t := by
  unfold tileAt
  rw [if_pos h0]
  have : i.toNat < l.length := by omega
  exact ⟨l[i.toNat], List.getElem?_eq_getElem this⟩

theorem tileAt_set_self {l : List FCircuitTile} {i : Int} {t x : FCircuitTile}
    (h : tileAt l i = some t) : tileAt (l.set i.toNat x) i = some x := by
  obtain ⟨h0, h1, _⟩ := tileAt_eq_some h
  unfold tileAt
  rw [if_pos h0, List.getElem?_set]
  have : i.toNat < l.length := by omega
  simp [this]

theorem tileAt_set_ne {l : List FCircuitTile} {i j : Int} {x : FCircuitTile}
    (h0 : 0 ≤ i) (hne : j ≠ i) : tileAt (l.set i.toNat x) j = tileAt l j := by
  unfold tileAt
  split
  · rename_i hj
    rw [List.getElem?_set]
    have : i.toNat ≠ j.toNat := by omega
    simp [this]
  · rfl

/-! ## Frames -/

theorem SameButPower.refl (s : UCircuitPuzzle) : SameButPower s s := rfl

theorem SameButPower.trans {a b c : UCircuitPuzzle} (h1 : SameButPower a b)
    (h2 : SameButPower b c) : SameButPower a c := by
  unfold SameButPower at *; rw [h2, h1]

theorem SameButPower.symm {a b : UCircuitPuzzle} (h : SameButPower a b) : SameButPower b a := by
  unfold SameButPower at *; rw [h]

theorem SameButPower.width {a b : UCircuitPuzzle} (h : SameButPower a b) : b.Width = a.Width := by
  have e : RecomputePower.reset b = RecomputePower.reset a := h
  have := congrArg (fun s : UCircuitPuzzle => s.Width) e
  exact this

theorem SameButPower.height {a b : UCircuitPuzzle} (h : SameButPower a b) :
    b.Height = a.Height := by
  have e : RecomputePower.reset b = RecomputePower.reset a := h
  have := congrArg (fun s : UCircuitPuzzle => s.Height) e
  exact this

theorem SameButPower.config {a b : UCircuitPuzzle} (h : SameButPower a b) :
    b.Config = a.Config := by
  have e : RecomputePower.reset b = RecomputePower.reset a := h
  have := congrArg (fun s : UCircuitPuzzle => s.Config) e
  exact this

theorem SameButPower.solution {a b : UCircuitPuzzle} (h : SameButPower a b) :
    b.SolutionRotations = a.SolutionRotations := by
  have e : RecomputePower.reset b = RecomputePower.reset a := h
  have := congrArg (fun s : UCircuitPuzzle => s.SolutionRotations) e
  exact this

theorem SameButPower.tiles {a b : UCircuitPuzzle} (h : SameButPower a b) :
    b.Tiles.map (fun Tile => { Tile with bPowered := false }) =
      a.Tiles.map (fun Tile => { Tile with bPowered := false }) := by
  have e : RecomputePower.reset b = RecomputePower.reset a := h
  have := congrArg (fun s : UCircuitPuzzle => s.Tiles) e
  exact this

theorem SameButPower.length {a b : UCircuitPuzzle} (h : SameButPower a b) :
    b.Tiles.length = a.Tiles.length := by
  have := congrArg List.length h.tiles
  simpa using this

theorem SameButPower.tileAt {a b : UCircuitPuzzle} (h : SameButPower a b) {i : Int}
    {t : FCircuitTile} (ht : tileAt a.Tiles i = some t) :
    ∃ t', Greystone.tileAt b.Tiles i = some t' ∧ t'.TileType = t.TileType ∧
      t'.RotationSteps = t.RotationSteps ∧ t'.bLocked = t.bLocked := by
  obtain ⟨h0, h1, hg⟩ := tileAt_eq_some ht
  have hlen := h.length
  obtain ⟨t', ht'⟩ := tileAt_isSome (l := b.Tiles) h0 (by omega)
  refine ⟨t', ht', ?_⟩
  have hg' := (tileAt_eq_some ht').2.2
  have := congrArg (fun l => l[i.toNat]?) h.tiles
  simp only [List.getElem?_map, hg, hg', Option.map_some'] at this
  injection this with this
  injection this with e1 e2 e3 e4
  exact ⟨e1, e2, e3⟩

theorem tileConnections_congr {t t' : FCircuitTile} (h1 : t'.TileType = t.TileType)
    (h2 : t'.RotationSteps = t.RotationSteps) : tileConnections t' = tileConnections t := by
  unfold tileConnections; rw [h1, h2]

theorem SameButPower.of_tiles {a : UCircuitPuzzle} {l : List FCircuitTile}
    (h : l.map (fun Tile => { Tile with bPowered := false }) =
      a.Tiles.map (fun Tile => { Tile with bPowered := false })) :
    SameButPower a { a with Tiles := l } := by
  unfold SameButPower RecomputePower.reset
  simp [h]

theorem map_set_same {α β : Type} (f : α → β) (l : List α) (n : Nat) (x y : α)
    (hy : l[n]? = some y) (hxy : f x = f y) : (l.set n x).map f = l.map f := by
  apply List.ext_getElem?
  intro m
  simp only [List.getElem?_map, List.getElem?_set]
  by_cases hm : n = m
  · subst hm
    have hlt := (List.getElem?_eq_some_iff.mp hy).1
    simp [hlt, hy, hxy]
  · simp [hm]

theorem SameButPower.set_powered {a : UCircuitPuzzle} {k : Int} {nb : FCircuitTile} (p : Bool)
    (h : Greystone.tileAt a.Tiles k = some nb) :
    SameButPower a { a with Tiles := a.Tiles.set k.toNat { nb with bPowered := p } } := by
  apply SameButPower.of_tiles
  exact map_set_same _ _ _ _ _ (tileAt_eq_some h).2.2 rfl

theorem SameButPower.getNeighborIndex {a b : UCircuitPuzzle} (h : SameButPower a b) (i : Int)
    (d : ECircuitDir) : b.GetNeighborIndex i d = a.GetNeighborIndex i d := by
  unfold GetNeighborIndex; rw [h.width, h.height]

theorem SameButPower.getTileConnections {a b : UCircuitPuzzle} (h : SameButPower a b) (i : Int) :
    b.GetTileConnections i = a.GetTileConnections i := by
  unfold GetTileConnections
  cases ha : Greystone.tileAt a.Tiles i with
  | none =>
    cases hb : Greystone.tileAt b.Tiles i with
    | none => rfl
    | some t' =>
      obtain ⟨t, ht, _⟩ := h.symm.tileAt hb
      rw [ha] at ht; cases ht
  | some t =>
    obtain ⟨t', ht', e1, e2, _⟩ := h.tileAt ha
    rw [ht']
    simp only
    rw [tileConnections_congr e1 e2]

theorem SameButPower.conducts {a b : UCircuitPuzzle} (h : SameButPower a b) (j k : Int) :
    Conducts b j k ↔ Conducts a j k := by
  unfold Conducts
  simp only [h.getNeighborIndex, h.getTileConnections]

theorem SameButPower.neighborsInRange {a b : UCircuitPuzzle} (h : SameButPower a b)
    (hn : NeighborsInRange a) : NeighborsInRange b := by
  intro i d h0 h1 hne
  rw [h.getNeighborIndex] at hne ⊢
  rw [h.length] at h1 ⊢
  exact hn i d h0 h1 hne

/-! ## The breadth-first loop of `RecomputePower` -/

theorem getTileConnections_eq_some {s : UCircuitPuzzle} {i : Int} {c : List ECircuitDir}
    (h : s.GetTileConnections i = some c) :
    ∃ t, tileAt s.Tiles i = some t ∧ c = tileConnections t := by
  unfold GetTileConnections at h
  split at h
  · rename_i t ht
    injection h with h
    exact ⟨t, ht, h.symm⟩
  · cases h

theorem getTileConnections_of_tileAt {s : UCircuitPuzzle} {i : Int} {t : FCircuitTile}
    (h : tileAt s.Tiles i = some t) : s.GetTileConnections i = some (tileConnections t) := by
  unfold GetTileConnections; rw [h]

theorem conducts_iff (s : UCircuitPuzzle) (j k : Int) :
    Conducts s j k ↔ ∃ d, ConnectsAt s j d ∧ s.GetNeighborIndex j d = k ∧ k ≠ -1 ∧
      ConnectsAt s k (GetOppositeDirection d) := by
  constructor
  · rintro ⟨d, cj, ck, hj, hd, hg, hk, hck, ho⟩
    obtain ⟨tj, htj, rfl⟩ := getTileConnections_eq_some hj
    obtain ⟨tk, htk, rfl⟩ := getTileConnections_eq_some hck
    exact ⟨d, ⟨tj, htj, hd⟩, hg, hk, ⟨tk, htk, ho⟩⟩
  · rintro ⟨d, ⟨tj, htj, hd⟩, hg, hk, ⟨tk, htk, ho⟩⟩
    exact ⟨d, _, _, getTileConnections_of_tileAt htj, hd, hg, hk,
      getTileConnections_of_tileAt htk, ho⟩

theorem SameButPower.connectsAt {a b : UCircuitPuzzle} (h : SameButPower a b) (k : Int)
    (d : ECircuitDir) : ConnectsAt b k d ↔ ConnectsAt a k d := by
  constructor
  · rintro ⟨t, ht, hd⟩
    obtain ⟨t', ht', e1, e2, _⟩ := h.symm.tileAt ht
    exact ⟨t', ht', by rw [tileConnections_congr e1 e2]; exact hd⟩
  · rintro ⟨t, ht, hd⟩
    obtain ⟨t', ht', e1, e2, _⟩ := h.tileAt ht
    exact ⟨t', ht', by rw [tileConnections_congr e1 e2]; exact hd⟩

theorem countP_set_lt {α : Type} (p : α → Bool) :
    ∀ (l : List α) (n : Nat) (x y : α), l[n]? = some y → p y = true → p x = false →
      (l.set n x).countP p + 1 = l.countP p := by
  intro l
  induction l with
  | nil => intro n x y h; simp at h
  | cons a l ih =>
    intro n x y h hy hx
    cases n with
    | zero =>
      simp only [List.getElem?_cons_zero, Option.some.injEq] at h
      subst h
      simp [List.countP_cons, hy, hx]
    | succ n =>
      simp only [List.getElem?_cons_succ] at h
      have := ih n x y h hy hx
      simp only [List.set_cons_succ, List.countP_cons]
      omega

theorem visit_spec (s : UCircuitPuzzle) (Q : List Int) (cur : Int) (d : ECircuitDir)
    (hn : NeighborsInRange s) (hc0 : 0 ≤ cur) (hc1 : cur < s.Tiles.length) :
    ∃ s' new, RecomputePower.visit cur (s, Q) d = some (s', Q ++ new) ∧ SameButPower s s' ∧
      (∀ i, PoweredAt s i → PoweredAt s' i) ∧
      (∀ i, PoweredAt s' i → PoweredAt s i ∨ i ∈ new) ∧
      (∀ q ∈ new, PoweredAt s' q ∧ s.GetNeighborIndex cur d = q ∧ q ≠ -1 ∧
        ConnectsAt s q (GetOppositeDirection d)) ∧
      (s.GetNeighborIndex cur d ≠ -1 →
        ConnectsAt s (s.GetNeighborIndex cur d) (GetOppositeDirection d) →
        PoweredAt s' (s.GetNeighborIndex cur d)) ∧
      unpoweredCount s' + new.length = unpoweredCount s := by
  unfold RecomputePower.visit
  simp only
  by_cases hk : s.GetNeighborIndex cur d = -1
  · rw [if_pos hk]
    exact ⟨s, [], by simp, SameButPower.refl s, fun i h => h, fun i h => Or.inl h,
      by simp, fun h => absurd hk h, by simp⟩
  · rw [if_neg hk]
    obtain ⟨hk0, hk1⟩ := hn cur d hc0 hc1 hk
    obtain ⟨nb, hnb⟩ := tileAt_isSome hk0 hk1
    rw [hnb]
    simp only
    by_cases hp : nb.bPowered = true
    · rw [if_pos hp]
      exact ⟨s, [], by simp, SameButPower.refl s, fun i h => h, fun i h => Or.inl h,
        by simp, fun _ _ => ⟨nb, hnb, hp⟩, by simp⟩
    · rw [if_neg hp, getTileConnections_of_tileAt hnb]
      simp only
      by_cases ho : GetOppositeDirection d ∈ tileConnections nb
      · rw [if_pos ho]
        have hself := tileAt_set_self (x := { nb with bPowered := true }) hnb
        refine ⟨_, [s.GetNeighborIndex cur d], rfl, SameButPower.set_powered true hnb, ?_, ?_,
          ?_, ?_, ?_⟩
        · rintro i ⟨t, ht, htp⟩
          by_cases hi : i = s.GetNeighborIndex cur d
          · subst hi; exact ⟨_, hself, rfl⟩
          · exact ⟨t, by simp only; rw [tileAt_set_ne hk0 hi]; exact ht, htp⟩
        · rintro i ⟨t, ht, htp⟩
          by_cases hi : i = s.GetNeighborIndex cur d
          · right; simp [hi]
          · left
            simp only at ht
            rw [tileAt_set_ne hk0 hi] at ht
            exact ⟨t, ht, htp⟩
        · intro q hq
          simp only [List.mem_singleton] at hq
          subst hq
          exact ⟨⟨_, hself, rfl⟩, rfl, hk, ⟨nb, hnb, ho⟩⟩
        · intro _ _
          exact ⟨_, hself, rfl⟩
        · unfold unpoweredCount
          simp only [List.length_singleton]
          exact countP_set_lt _ _ _ _ _ (tileAt_eq_some hnb).2.2 (by simp [hp]) (by simp)
      · rw [if_neg ho]
        refine ⟨s, [], by simp, SameButPower.refl s, fun i h => h, fun i h => Or.inl h,
          by simp, ?_, by simp⟩
        rintro _ ⟨t, ht, hd⟩
        rw [hnb] at ht
        injection ht with ht
        subst ht
        exact absurd hd ho

theorem visit_fold_spec (cur : Int) (ds : List ECircuitDir) :
    ∀ (s : UCircuitPuzzle) (Q : List Int), NeighborsInRange s → 0 ≤ cur →
      cur < s.Tiles.length →
    ∃ s' new, ds.foldlM (RecomputePower.visit cur) (s, Q) = some (s', Q ++ new) ∧
      SameButPower s s' ∧
      (∀ i, PoweredAt s i → PoweredAt s' i) ∧
      (∀ i, PoweredAt s' i → PoweredAt s i ∨ i ∈ new) ∧
      (∀ q ∈ new, PoweredAt s' q ∧ ∃ d ∈ ds, s.GetNeighborIndex cur d = q ∧ q ≠ -1 ∧
        ConnectsAt s q (GetOppositeDirection d)) ∧
      (∀ d ∈ ds, s.GetNeighborIndex cur d ≠ -1 →
        ConnectsAt s (s.GetNeighborIndex cur d) (GetOppositeDirection d) →
        PoweredAt s' (s.GetNeighborIndex cur d)) ∧
      unpoweredCount s' + new.length = unpoweredCount s := by
  induction ds with
  | nil =>
    intro s Q _ _ _
    exact ⟨s, [], by simp, SameButPower.refl s, fun i h => h, fun i h => Or.inl h, by simp,
      by simp, by simp⟩
  | cons d ds ih =>
    intro s Q hn hc0 hc1
    obtain ⟨s1, new1, e1, f1, m1, o1, q1, c1, n1⟩ := visit_spec s Q cur d hn hc0 hc1
    obtain ⟨s2, new2, e2, f2, m2, o2, q2, c2, n2⟩ :=
      ih s1 (Q ++ new1) (f1.neighborsInRange hn) hc0 (by rw [f1.length]; exact hc1)
    refine ⟨s2, new1 ++ new2, ?_, f1.trans f2, fun i h => m2 i (m1 i h), ?_, ?_, ?_, ?_⟩
    · rw [List.foldlM_cons, e1]
      simp only [Option.bind_eq_bind, Option.some_bind]
      rw [e2, List.append_assoc]
    · intro i h
      rcases o2 i h with h | h
      · rcases o1 i h with h | h
        · exact Or.inl h
        · exact Or.inr (List.mem_append_left _ h)
      · exact Or.inr (List.mem_append_right _ h)
    · intro q hq
      rcases List.mem_append.mp hq with hq | hq
      · obtain ⟨hp, hg, hne, hco⟩ := q1 q hq
        exact ⟨m2 q hp, d, List.mem_cons_self _ _, hg, hne, hco⟩
      · obtain ⟨hp, d', hd', hg, hne, hco⟩ := q2 q hq
        rw [f1.getNeighborIndex] at hg
        rw [f1.connectsAt] at hco
        exact ⟨hp, d', List.mem_cons_of_mem _ hd', hg, hne, hco⟩
    · intro d' hd' hne hco
      rcases List.mem_cons.mp hd' with rfl | hd'
      · exact m2 _ (c1 hne hco)
      · have := c2 d' hd'
        rw [f1.getNeighborIndex] at this
        rw [f1.connectsAt] at this
        exact this hne hco
    · simp only [List.length_append]
      omega

theorem loop_nil (fuel : Nat) (s : UCircuitPuzzle) : RecomputePower.loop fuel s [] = some s := by
  cases fuel <;> rfl

theorem loop_spec (s0 : UCircuitPuzzle) (src : Int) (hn : NeighborsInRange s0) :
    ∀ (fuel : Nat) (s : UCircuitPuzzle) (Q : List Int), BfsInv s0 src s Q →
      unpoweredCount s + Q.length ≤ fuel →
      ∃ s', RecomputePower.loop fuel s Q = some s' ∧ BfsInv s0 src s' [] := by
  intro fuel
  induction fuel with
  | zero =>
    intro s Q hinv hle
    cases Q with
    | nil => exact ⟨s, loop_nil _ _, hinv⟩
    | cons c Q => simp at hle
  | succ fuel ih =>
    intro s Q hinv hle
    cases Q with
    | nil => exact ⟨s, loop_nil _ _, hinv⟩
    | cons cur Q =>
      obtain ⟨hf, hsrc, hsound, hclosed, hq⟩ := hinv
      obtain ⟨tc, htc, htcp⟩ := hq cur (List.mem_cons_self _ _)
      obtain ⟨hc0, hc1, _⟩ := tileAt_eq_some htc
      have hns : NeighborsInRange s := hf.neighborsInRange hn
      obtain ⟨s1, new, e1, f1, m1, o1, q1, c1, n1⟩ :=
        visit_fold_spec cur (tileConnections tc) s Q hns hc0 hc1
      have hinv1 : BfsInv s0 src s1 (Q ++ new) := by
        refine ⟨hf.trans f1, m1 _ hsrc, ?_, ?_, ?_⟩
        · intro i hi
          rcases o1 i hi with h | h
          · exact hsound i h
          · obtain ⟨_, d, hd, hg, hne, hco⟩ := q1 i h
            have hcond : Conducts s cur i :=
              (conducts_iff s cur i).mpr ⟨d, ⟨tc, htc, hd⟩, hg, hne, hco⟩
            exact Relation.ReflTransGen.tail (hsound cur ⟨tc, htc, htcp⟩)
              ((hf.conducts cur i).mp hcond)
        · intro j hj hjq k hjk
          have hjQ : j ∉ Q := fun h => hjq (List.mem_append_left _ h)
          have hjnew : j ∉ new := fun h => hjq (List.mem_append_right _ h)
          have hjs : PoweredAt s j := by
            rcases o1 j hj with h | h
            · exact h
            · exact absurd h hjnew
          by_cases hjc : j = cur
          · subst hjc
            obtain ⟨d, ⟨tj, htj, hd⟩, hg, hne, hco⟩ :=
              (conducts_iff s j k).mp ((hf.conducts j k).mpr hjk)
            rw [htc] at htj
            injection htj with htj
            subst htj
            have := c1 d hd (by rw [hg]; exact hne) (by rw [hg]; exact hco)
            rw [hg] at this
            exact this
          · have hjcq : j ∉ cur :: Q := by
              intro h
              rcases List.mem_cons.mp h with h | h
              · exact hjc h
              · exact hjQ h
            exact m1 k (hclosed j hjs hjcq k hjk)
        · intro q hq'
          rcases List.mem_append.mp hq' with h | h
          · exact m1 q (hq q (List.mem_cons_of_mem _ h))
          · exact (q1 q h).1
      have hle1 : unpoweredCount s1 + (Q ++ new).length ≤ fuel := by
        simp only [List.length_append, List.length_cons] at hle ⊢
        omega
      obtain ⟨s', hs', hinv'⟩ := ih s1 (Q ++ new) hinv1 hle1
      refine ⟨s', ?_, hinv'⟩
      rw [RecomputePower.loop, getTileConnections_of_tileAt htc]
      simp only
      rw [e1]
      exact hs'

/-! ### The search for the Source tile -/

theorem findSource_spec : ∀ (l : List FCircuitTile) (i : Int),
    (RecomputePower.findSource l i = -1 ∧ (0 ≤ i → ∀ t ∈ l, t.TileType ≠ ECircuitTileType.Source)) ∨
    (∃ (n : Nat) (t : FCircuitTile), l[n]? = some t ∧ t.TileType = ECircuitTileType.Source ∧
      RecomputePower.findSource l i = i + (n : Int) ∧
      ∀ (m : Nat) (u : FCircuitTile), m < n → l[m]? = some u → u.TileType ≠ ECircuitTileType.Source) := by
  intro l
  induction l with
  | nil => intro i; left; simp [RecomputePower.findSource]
  | cons a l ih =>
    intro i
    by_cases ha : a.TileType = ECircuitTileType.Source
    · right
      refine ⟨0, a, by simp, ha, ?_, ?_⟩
      · simp [RecomputePower.findSource, ha]
      · intro m u hm; omega
    · rcases ih (i + 1) with ⟨h1, h2⟩ | ⟨n, t, hn, ht, hf, hb⟩
      · by_cases hi : 0 ≤ i
        · left
          refine ⟨by simp [RecomputePower.findSource, ha, h1], ?_⟩
          intro _ t ht
          rcases List.mem_cons.mp ht with rfl | ht
          · exact ha
          · exact h2 (by omega) t ht
        · left
          refine ⟨by simp [RecomputePower.findSource, ha, h1], fun h => absurd h hi⟩
      · right
        refine ⟨n + 1, t, by simpa using hn, ht, ?_, ?_⟩
        · simp only [RecomputePower.findSource, ha, if_false, hf]
          push_cast; ring
        · intro m u hm hu
          cases m with
          | zero => simp at hu; subst hu; exact ha
          | succ m => exact hb m u (by omega) (by simpa using hu)

theorem poweredAt_reset (s : UCircuitPuzzle) (i : Int) : ¬ PoweredAt (RecomputePower.reset s) i := by
  rintro ⟨t, ht, hp⟩
  have hg := (tileAt_eq_some ht).2.2
  simp only [RecomputePower.reset, List.getElem?_map] at hg
  cases h : s.Tiles[i.toNat]? with
  | none => rw [h] at hg; cases hg
  | some u =>
    rw [h] at hg
    simp only [Option.map_some', Option.some.injEq] at hg
    subst hg
    cases hp

theorem sameButPower_reset (s : UCircuitPuzzle) : SameButPower s (RecomputePower.reset s) := by
  unfold SameButPower RecomputePower.reset
  simp

theorem unpoweredCount_reset (s : UCircuitPuzzle) :
    unpoweredCount (RecomputePower.reset s) = s.Tiles.length := by
  unfold unpoweredCount RecomputePower.reset
  simp only [List.countP_map]
  rw [List.countP_eq_length.mpr]
  intro t _
  rfl

theorem findSource_reset (s : UCircuitPuzzle) (i : Int) :
    RecomputePower.findSource (RecomputePower.reset s).Tiles i =
      RecomputePower.findSource s.Tiles i := by
  unfold RecomputePower.reset
  simp only
  generalize s.Tiles = l
  induction l generalizing i with
  | nil => rfl
  | cons a l ih => simp only [List.map_cons, RecomputePower.findSource, ih]

/-- The outcome of `RecomputePower` on a state whose neighbour indices stay in the array. -/
theorem recomputePower_spec (s : UCircuitPuzzle) (hn : NeighborsInRange s) :
    ∃ s', s.RecomputePower = some s' ∧ SameButPower s s' ∧
      ∀ i, PoweredAt s' i ↔
        (RecomputePower.findSource s.Tiles 0 ≠ -1 ∧
          Reach s (RecomputePower.findSource s.Tiles 0) i) := by
  unfold RecomputePower
  simp only
  rw [findSource_reset]
  by_cases hsrc : RecomputePower.findSource s.Tiles 0 = -1
  · rw [if_pos hsrc]
    refine ⟨_, rfl, sameButPower_reset s, ?_⟩
    intro i
    constructor
    · intro h; exact absurd h (poweredAt_reset s i)
    · rintro ⟨h, _⟩; exact absurd hsrc h
  · rw [if_neg hsrc]
    set src := RecomputePower.findSource s.Tiles 0 with hsrcdef
    have hfr := sameButPower_reset s
    rcases findSource_spec s.Tiles 0 with ⟨h1, _⟩ | ⟨n, t, hnt, htS, hf, _⟩
    · exact absurd h1 hsrc
    · have hsn : src = (n : Int) := by rw [hsrcdef, hf]; simp
      have hts : tileAt s.Tiles src = some t := by
        unfold tileAt
        rw [hsn]
        simp [hnt]
      obtain ⟨t', ht', _⟩ := hfr.tileAt hts
      unfold modifyTile
      rw [ht']
      simp only
      have hself := tileAt_set_self (x := { t' with bPowered := true }) ht'
      have hf1 : SameButPower (RecomputePower.reset s)
          { RecomputePower.reset s with
            Tiles := (RecomputePower.reset s).Tiles.set src.toNat { t' with bPowered := true } } :=
        SameButPower.set_powered true ht'
      have h0 := (tileAt_eq_some ht').1
      have honly : ∀ i, PoweredAt { RecomputePower.reset s with
            Tiles := (RecomputePower.reset s).Tiles.set src.toNat { t' with bPowered := true } } i →
            i = src := by
        rintro i ⟨u, hu, hup⟩
        by_contra hne
        simp only at hu
        rw [tileAt_set_ne h0 hne] at hu
        exact poweredAt_reset s i ⟨u, hu, hup⟩
      have hinv : BfsInv s src { RecomputePower.reset s with
            Tiles := (RecomputePower.reset s).Tiles.set src.toNat { t' with bPowered := true } }
            [src] := by
        refine ⟨hfr.trans hf1, ⟨_, hself, rfl⟩, ?_, ?_, ?_⟩
        · intro i hi
          rw [honly i hi]
          exact Relation.ReflTransGen.refl
        · intro j hj hjq
          exact absurd (by simp [honly j hj]) hjq
        · intro q hq
          simp only [List.mem_singleton] at hq
          subst hq
          exact ⟨_, hself, rfl⟩
      have hcount : unpoweredCount { RecomputePower.reset s with
            Tiles := (RecomputePower.reset s).Tiles.set src.toNat { t' with bPowered := true } }
            + [src].length ≤ (RecomputePower.reset s).Tiles.length := by
        have h1 := countP_set_lt (fun t : FCircuitTile => !t.bPowered)
          (RecomputePower.reset s).Tiles src.toNat { t' with bPowered := true } t'
          (tileAt_eq_some ht').2.2
          (by
            have : ¬ PoweredAt (RecomputePower.reset s) src := poweredAt_reset s src
            cases hb : t'.bPowered with
            | false => simp [hb]
            | true => exact absurd ⟨t', ht', hb⟩ this)
          (by rfl)
        have h2 := unpoweredCount_reset s
        have h3 : (RecomputePower.reset s).Tiles.length = s.Tiles.length := hfr.length
        unfold unpoweredCount at h2 ⊢
        simp only [List.length_singleton]
        omega
      obtain ⟨s', hs', hf', hsp, hsound, hclosed, _⟩ :=
        loop_spec s src hn _ _ _ hinv hcount
      refine ⟨s', hs', hf', ?_⟩
      intro i
      constructor
      · intro hi
        exact ⟨hsrc, hsound i hi⟩
      · rintro ⟨_, hr⟩
        induction hr with
        | refl => exact hsp
        | tail _ hjk ih => exact hclosed _ ih (by simp) _ hjk

/-! ## Grid shape -/

theorem neighborsInRange_of_gridShaped {s : UCircuitPuzzle} (hs : GridShaped s) :
    NeighborsInRange s := by
  intro i d h0 h1 hne
  have := gni_step s hs i h0 h1 d hne
  exact ⟨this.1, this.2.1⟩

theorem SameButPower.gridShaped {a b : UCircuitPuzzle} (h : SameButPower a b)
    (hs : GridShaped a) : GridShaped b := by
  unfold GridShaped at *
  rw [h.length, h.width, h.height]
  exact hs

theorem SameButPower.reach {a b : UCircuitPuzzle} (h : SameButPower a b) (j k : Int) :
    Reach b j k ↔ Reach a j k := by
  have : Conducts b = Conducts a := by
    funext x y
    exact propext (h.conducts x y)
  unfold Reach
  rw [this]

theorem firstSource_iff (s : UCircuitPuzzle) (src : Int) :
    FirstSource s src ↔
      (RecomputePower.findSource s.Tiles 0 ≠ -1 ∧ RecomputePower.findSource s.Tiles 0 = src) := by
  rcases findSource_spec s.Tiles 0 with ⟨h1, h2⟩ | ⟨n, t, hn, ht, hf, hb⟩
  · constructor
    · rintro ⟨⟨t, ht, hS⟩, _⟩
      have hg := (tileAt_eq_some ht).2.2
      exact absurd hS (h2 (le_refl 0) t (List.getElem?_mem hg))
    · rintro ⟨h, _⟩
      exact absurd h1 h
  · have hf' : RecomputePower.findSource s.Tiles 0 = (n : Int) := by rw [hf]; simp
    have htn : tileAt s.Tiles (n : Int) = some t := by
      unfold tileAt; simp [hn]
    constructor
    · rintro ⟨⟨u, hu, hS⟩, hlow⟩
      refine ⟨by rw [hf']; omega, ?_⟩
      rw [hf']
      obtain ⟨h0, _, hg⟩ := tileAt_eq_some hu
      rcases lt_trichotomy (n : Int) src with hlt | heq | hgt
      · exact absurd ht (hlow _ _ hlt htn)
      · exact heq
      · exact absurd hS (hb src.toNat u (by omega) hg)
    · rintro ⟨_, rfl⟩
      rw [hf']
      refine ⟨⟨t, htn, ht⟩, ?_⟩
      intro j u hj hu
      obtain ⟨h0, _, hg⟩ := tileAt_eq_some hu
      exact hb j.toNat u (by omega) hg

theorem no_source_findSource {s : UCircuitPuzzle}
    (h : ∀ i t, tileAt s.Tiles i = some t → t.TileType ≠ ECircuitTileType.Source) :
    RecomputePower.findSource s.Tiles 0 = -1 := by
  rcases findSource_spec s.Tiles 0 with ⟨h1, _⟩ | ⟨n, t, hn, ht, _, _⟩
  · exact h1
  · have htn : tileAt s.Tiles (n : Int) = some t := by
      unfold tileAt; simp [hn]
    exact absurd ht (h _ _ htn)

/-! ## `IsSolved` and `RotateTile` -/

theorem isSolved_iff (s : UCircuitPuzzle) :
    s.IsSolved = true ↔
      ∃ i t, tileAt s.Tiles i = some t ∧ t.TileType = ECircuitTileType.Sink ∧ t.bPowered = true := by
  unfold IsSolved
  rw [List.any_eq_true]
  constructor
  · rintro ⟨t, hmem, hp⟩
    obtain ⟨n, hn, hg⟩ := List.getElem_of_mem hmem
    refine ⟨(n : Int), t, ?_, ?_⟩
    · unfold tileAt
      simp [List.getElem?_eq_getElem hn, hg]
    · simpa using hp
  · rintro ⟨i, t, ht, hS, hp⟩
    exact ⟨t, List.getElem?_mem (tileAt_eq_some ht).2.2, by simp [hS, hp]⟩

theorem withRotated_sameShape (s : UCircuitPuzzle) (i : Int) (t : FCircuitTile)
    (hs : GridShaped s) : GridShaped (withRotated s i t) := by
  unfold GridShaped withRotated at *
  simpa using hs

theorem rotateTile_refused {s : UCircuitPuzzle} {i : Int} (h : RotateRefused s i) :
    s.RotateTile i = some (RotateOutcome.mk false false s) := by
  unfold RotateTile
  by_cases hr : i < 0 ∨ i ≥ (s.Tiles.length : Int)
  · rw [if_pos hr]
  · rw [if_neg hr]
    rcases h with h | h | ⟨t, ht, h⟩
    · exact absurd (Or.inl h) hr
    · exact absurd (Or.inr h) hr
    · rw [ht]
      simp only
      by_cases hl : t.bLocked = true
      · rw [if_pos hl]
      · rw [if_neg hl]
        rcases h with h | ⟨h1, h2⟩ | ⟨h1, h2⟩
        · exact absurd h hl
        · rw [if_pos ⟨h1, by simp [h2]⟩]
        · by_cases hsrc : t.TileType = ECircuitTileType.Source ∧ ¬ s.Config.bAllowRotateSource = true
          · rw [if_pos hsrc]
          · rw [if_neg hsrc, if_pos ⟨h1, by simp [h2]⟩]

theorem rotateTile_accepted {s : UCircuitPuzzle} {i : Int} (h : ¬ RotateRefused s i) :
    ∃ t, tileAt s.Tiles i = some t ∧
      s.RotateTile i =
        match (withRotated s i t).RecomputePower with
        | none => none
        | some powered => some (RotateOutcome.mk true powered.IsSolved powered) := by
  unfold RotateRefused at h
  push_neg at h
  obtain ⟨h0, h1, h2⟩ := h
  obtain ⟨t, ht⟩ := tileAt_isSome (l := s.Tiles) h0 h1
  obtain ⟨hl, hsrc, hsnk⟩ := h2 t ht
  refine ⟨t, ht, ?_⟩
  unfold RotateTile
  rw [if_neg (by omega), ht]
  simp only
  rw [if_neg hl, if_neg (by intro hh; exact hsrc hh.1 (by simpa using hh.2)),
    if_neg (by intro hh; exact hsnk hh.1 (by simpa using hh.2))]
  rfl

theorem rotateTile_accepted_some {s : UCircuitPuzzle} {i : Int} (hs : GridShaped s)
    (h : ¬ RotateRefused s i) :
    ∃ t powered, tileAt s.Tiles i = some t ∧
      (withRotated s i t).RecomputePower = some powered ∧
      SameButPower (withRotated s i t) powered ∧
      s.RotateTile i = some (RotateOutcome.mk true powered.IsSolved powered) := by
  obtain ⟨t, ht, e⟩ := rotateTile_accepted h
  obtain ⟨p, hp, hf, _⟩ := recomputePower_spec (withRotated s i t)
    (neighborsInRange_of_gridShaped (withRotated_sameShape s i t hs))
  refine ⟨t, p, ht, hp, hf, ?_⟩
  rw [e, hp]

/-! ## The walk of `GenerateSolutionPath` -/

theorem intAt_natCast (xs : List Int) (n : Nat) : intAt xs (n : Int) = xs[n]? := by
  unfold intAt
  simp

theorem intAt_eq_some {xs : List Int} {i v : Int} (h : intAt xs i = some v) :
    0 ≤ i ∧ xs[i.toNat]? = some v := by
  unfold intAt at h
  split at h
  · exact ⟨by assumption, h⟩
  · cases h

theorem getUnvisitedNeighbors_cases {s : UCircuitPuzzle} {c : Int} {V : List Int} {n : Int}
    (hn : n ∈ s.GetUnvisitedNeighbors c V) :
    n ∉ V ∧
    ((c.tdiv s.Width > 0 ∧ n = (c.tdiv s.Width - 1) * s.Width + c.tmod s.Width) ∨
     (c.tmod s.Width < s.Width - 1 ∧ n = c.tdiv s.Width * s.Width + (c.tmod s.Width + 1)) ∨
     (c.tdiv s.Width < s.Height - 1 ∧ n = (c.tdiv s.Width + 1) * s.Width + c.tmod s.Width) ∨
     (c.tmod s.Width > 0 ∧ n = c.tdiv s.Width * s.Width + (c.tmod s.Width - 1))) := by
  unfold GetUnvisitedNeighbors at hn
  simp only [List.nil_append] at hn
  split_ifs at hn <;>
    simp only [List.mem_append, List.mem_singleton, List.not_mem_nil, or_false, false_or] at hn <;>
    aesop

theorem getUnvisitedNeighbors_mem {s : UCircuitPuzzle} (hs : GridShaped s) {c : Int}
    (hc0 : 0 ≤ c) (hc1 : c < s.Tiles.length) {V : List Int} {n : Int}
    (hn : n ∈ s.GetUnvisitedNeighbors c V) : n ∉ V ∧ Step s c n := by
  have hc1' : c < s.Width * s.Height := by
    have : (s.Tiles.length : Int) = s.Width * s.Height := hs
    omega
  obtain ⟨⟨x0, hcell⟩, hc⟩ := grid_coords s.Width s.Height c hc0 hc1'
  obtain ⟨hV, hcases⟩ := getUnvisitedNeighbors_cases hn
  refine ⟨hV, ?_⟩
  have key : ∀ (d : ECircuitDir) (q r : Int), CellOK s.Width s.Height q r →
      s.GetNeighborIndex c d = q * s.Width + r → n = q * s.Width + r → Step s c n := by
    intro d q r hok hg hn'
    have := (grid_cell _ _ q r hok).1
    exact ⟨d, by rw [hg, hn'], by omega⟩
  rcases hcases with ⟨g, e⟩ | ⟨g, e⟩ | ⟨g, e⟩ | ⟨g, e⟩
  · exact key 0 _ _ ⟨x0, by omega⟩ (by simp [GetNeighborIndex, g]) e
  · exact key 1 _ _ ⟨by omega, by omega⟩ (by simp [GetNeighborIndex, g]) e
  · exact key 2 _ _ ⟨x0, by omega⟩ (by simp [GetNeighborIndex, g]) e
  · exact key 3 _ _ ⟨by omega, by omega⟩ (by simp [GetNeighborIndex, g]) e

theorem step_inRange {s : UCircuitPuzzle} (hs : GridShaped s) {a b : Int} (ha0 : 0 ≤ a)
    (ha1 : a < s.Tiles.length) (h : Step s a b) : 0 ≤ b ∧ b < s.Tiles.length := by
  obtain ⟨d, hg, hne⟩ := h
  have := gni_step s hs a ha0 ha1 d (by rw [hg]; exact hne)
  rw [hg] at this
  exact ⟨this.1, this.2.1⟩

theorem chooseNextTile_best_mem (s : UCircuitPuzzle) (tx ty : Int) :
    ∀ (l : List Int) (acc : Int × Option Int),
      (ChooseNextTile.best s tx ty l acc).1 = acc.1 ∨ (ChooseNextTile.best s tx ty l acc).1 ∈ l := by
  intro l
  induction l with
  | nil => intro acc; left; rfl
  | cons a l ih =>
    intro acc
    obtain ⟨b, bd⟩ := acc
    unfold ChooseNextTile.best
    simp only
    split
    · rcases ih (a, some ((tx - a.tmod s.Width) * (tx - a.tmod s.Width) +
          (ty - a.tdiv s.Width) * (ty - a.tdiv s.Width))) with h | h
      · right; rw [h]; exact List.mem_cons_self _ _
      · right; exact List.mem_cons_of_mem _ h
    · rcases ih (b, bd) with h | h
      · left; exact h
      · right; exact List.mem_cons_of_mem _ h

theorem chooseNextTile_mem {s : UCircuitPuzzle} {cur tgt : Int} {Neighbors : List Int}
    {rs rs' : FRandomStream} {n : Int}
    (h : s.ChooseNextTile cur tgt Neighbors rs = some (n, rs')) : n ∈ Neighbors := by
  unfold ChooseNextTile at h
  simp only at h
  split at h
  · split at h
    · cases h
    · rename_i first hfirst
      injection h with h
      injection h with h1 h2
      subst h1
      have hf := List.getElem?_mem (intAt_eq_some hfirst).2
      rcases chooseNextTile_best_mem s (tgt.tmod s.Width) (tgt.tdiv s.Width) Neighbors
        (first, none) with h | h
      · rw [h]; exact hf
      · exact h
  · split at h
    · cases h
    · rename_i m hm
      injection h with h
      injection h with h1 h2
      subst h1
      exact List.getElem?_mem (intAt_eq_some hm).2

/-! ### Path invariant -/

theorem pathInv_single {s : UCircuitPuzzle} {src : Int} (h0 : 0 ≤ src)
    (h1 : src < s.Tiles.length) : PathInv s src [src] src := by
  refine ⟨rfl, rfl, List.nodup_singleton _, ?_, ?_⟩
  · intro p hp
    simp only [List.mem_singleton] at hp
    subst hp
    exact ⟨h0, h1⟩
  · intro k a b _ hb
    simp at hb

theorem pathInv_push {s : UCircuitPuzzle} {src cur n : Int} {P : List Int}
    (h : PathInv s src P cur) (hn : n ∉ P) (hstep : Step s cur n)
    (hr : 0 ≤ n ∧ n < (s.Tiles.length : Int)) : PathInv s src (P ++ [n]) n := by
  obtain ⟨hh, hl, hnd, hrange, hchain⟩ := h
  have hlen : 0 < P.length := by
    rcases Nat.eq_zero_or_pos P.length with h0 | h0
    · rw [List.length_eq_zero] at h0; subst h0; simp at hh
    · exact h0
  refine ⟨?_, ?_, ?_, ?_, ?_⟩
  · rw [List.getElem?_append_left hlen]; exact hh
  · simp
  · rw [List.nodup_append]
    refine ⟨hnd, List.nodup_singleton _, ?_⟩
    intro x hx hx'
    simp only [List.mem_singleton] at hx'
    subst hx'
    exact hn hx
  · intro p hp
    rcases List.mem_append.mp hp with hp | hp
    · exact hrange p hp
    · simp only [List.mem_singleton] at hp
      subst hp
      exact hr
  · intro k a b ha hb
    by_cases hk : k + 1 < P.length
    · rw [List.getElem?_append_left (by omega)] at ha
      rw [List.getElem?_append_left hk] at hb
      exact hchain k a b ha hb
    · by_cases hk' : k + 1 = P.length
      · rw [List.getElem?_append_left (by omega)] at ha
        have hka : k = P.length - 1 := by omega
        rw [hka, hl] at ha
        injection ha with ha
        rw [List.getElem?_append_right (by omega)] at hb
        have : k + 1 - P.length = 0 := by omega
        rw [this] at hb
        simp only [List.getElem?_cons_zero, Option.some.injEq] at hb
        subst ha hb
        exact hstep
      · have : (P ++ [n]).length ≤ k + 1 := by simp; omega
        rw [List.getElem?_eq_none this] at hb
        cases hb

theorem pathInv_pop {s : UCircuitPuzzle} {src cur last : Int} {P : List Int}
    (h : PathInv s src P cur) (hlen : P.length > 1) (hlast : P.dropLast.getLast? = some last) :
    PathInv s src P.dropLast last := by
  obtain ⟨hh, hl, hnd, hrange, hchain⟩ := h
  refine ⟨?_, ?_, ?_, ?_, ?_⟩
  · rw [List.getElem?_dropLast, if_pos (by omega)]; exact hh
  · rw [← List.getLast?_eq_getElem?]; exact hlast
  · exact hnd.sublist (List.dropLast_sublist P)
  · intro p hp
    exact hrange p ((List.dropLast_sublist P).subset hp)
  · intro k a b ha hb
    rw [List.getElem?_dropLast] at ha hb
    split at hb
    · split at ha
      · exact hchain k a b ha hb
      · cases ha
    · cases hb

theorem walk_spec {s : UCircuitPuzzle} (hs : GridShaped s) {src snk : Int} (h0 : 0 ≤ src)
    (h1 : src < s.Tiles.length) :
    ∀ (fuel : Nat) (P : List Int) (cur : Int) (rs : FRandomStream) (P' : List Int)
      (rs' : FRandomStream), PathInv s src P cur →
      GenerateSolutionPath.walk s src snk fuel P cur rs = some (P', rs') →
      PathInv s src P' snk := by
  intro fuel
  induction fuel with
  | zero =>
    intro P cur rs P' rs' hinv hw
    unfold GenerateSolutionPath.walk at hw
    split at hw
    · rename_i hcur
      injection hw with hw
      injection hw with e1 e2
      subst e1 hcur
      exact hinv
    · cases hw
  | succ fuel ih =>
    intro P cur rs P' rs' hinv hw
    unfold GenerateSolutionPath.walk at hw
    split at hw
    · rename_i hcur
      injection hw with hw
      injection hw with e1 e2
      subst e1 hcur
      exact hinv
    · simp only at hw
      have hcur : 0 ≤ cur ∧ cur < (s.Tiles.length : Int) :=
        hinv.2.2.2.1 cur (List.getElem?_mem hinv.2.1)
      split at hw
      · split at hw
        · rename_i hlen
          split at hw
          · cases hw
          · rename_i last hlast
            exact ih _ _ _ _ _ (pathInv_pop hinv hlen hlast) hw
        · exact ih _ _ _ _ _ (pathInv_single h0 h1) hw
      · split at hw
        · cases hw
        · rename_i n rs1 hchoose
          have hmem := chooseNextTile_mem hchoose
          obtain ⟨hnv, hstep⟩ := getUnvisitedNeighbors_mem hs hcur.1 hcur.2 hmem
          exact ih _ _ _ _ _
            (pathInv_push hinv hnv hstep (step_inRange hs hcur.1 hcur.2 hstep)) hw

/-! ## The duplicate filter and the conversion loop of `GenerateSolutionPath` -/

theorem clean_of_nodup : ∀ (rest acc : List Int), (acc ++ rest).Nodup →
    GenerateSolutionPath.clean rest acc = acc ++ rest := by
  intro rest
  induction rest with
  | nil => intro acc _; simp [GenerateSolutionPath.clean]
  | cons x rest ih =>
    intro acc hnd
    have hx : x ∉ acc := by
      intro hx
      rw [List.nodup_append] at hnd
      exact hnd.2.2 hx (List.mem_cons_self _ _)
    unfold GenerateSolutionPath.clean
    rw [if_neg hx, ih (acc ++ [x]) (by simpa using hnd)]
    simp

theorem getDirectionTo_lt (s : UCircuitPuzzle) (a b : Int) : s.GetDirectionTo a b < 4 := by
  unfold GetDirectionTo
  simp only
  split_ifs <;> decide

theorem source_connects (t0 : FCircuitTile) (d : Nat) (hd : d < 4)
    (hk : t0.TileType = ECircuitTileType.Source ∨ t0.TileType = ECircuitTileType.Sink) :
    d ∈ tileConnections { t0 with RotationSteps := dirToInt d } ∧
      0 ≤ dirToInt d ∧ dirToInt d ≤ 3 := by
  have hd' : d = 0 ∨ d = 1 ∨ d = 2 ∨ d = 3 := by omega
  rcases hk with hk | hk <;> rcases hd' with rfl | rfl | rfl | rfl <;>
    simp [tileConnections, hk, dirToInt, castDir, Int.tmod]

/-- The rotation that the conversion loop gives a Straight tile. -/
theorem straightRotation_range (d1 : Nat) :
    (0 : Int) ≤ (if dirToInt d1 = 0 ∨ dirToInt d1 = 2 then 0 else 1) ∧
      (if dirToInt d1 = 0 ∨ dirToInt d1 = 2 then 0 else 1) ≤ (3 : Int) := by
  split_ifs <;> constructor <;> decide

theorem middle_connects (t0 : FCircuitTile) (d1 d2 : Nat) (h1 : d1 < 4) (h2 : d2 < 4) :
    (((dirToInt d1 - dirToInt d2).natAbs : Int) = 2 →
      d1 ∈ tileConnections (FCircuitTile.mk ECircuitTileType.Straight
          (if dirToInt d1 = 0 ∨ dirToInt d1 = 2 then 0 else 1) t0.bLocked t0.bPowered) ∧
      d2 ∈ tileConnections (FCircuitTile.mk ECircuitTileType.Straight
          (if dirToInt d1 = 0 ∨ dirToInt d1 = 2 then 0 else 1) t0.bLocked t0.bPowered)) ∧
    (((dirToInt d1 - dirToInt d2).natAbs : Int) ≠ 2 →
      d1 ∈ tileConnections (FCircuitTile.mk ECircuitTileType.Elbow
          (if dirToInt d2 = (dirToInt d1 + 1).tmod 4 then dirToInt d1
            else if dirToInt d1 = (dirToInt d2 + 1).tmod 4 then dirToInt d2
            else min (dirToInt d1) (dirToInt d2)) t0.bLocked t0.bPowered) ∧
      d2 ∈ tileConnections (FCircuitTile.mk ECircuitTileType.Elbow
          (if dirToInt d2 = (dirToInt d1 + 1).tmod 4 then dirToInt d1
            else if dirToInt d1 = (dirToInt d2 + 1).tmod 4 then dirToInt d2
            else min (dirToInt d1) (dirToInt d2)) t0.bLocked t0.bPowered) ∧
      (0 : Int) ≤ (if dirToInt d2 = (dirToInt d1 + 1).tmod 4 then dirToInt d1
            else if dirToInt d1 = (dirToInt d2 + 1).tmod 4 then dirToInt d2
            else min (dirToInt d1) (dirToInt d2)) ∧
      (if dirToInt d2 = (dirToInt d1 + 1).tmod 4 then dirToInt d1
            else if dirToInt d1 = (dirToInt d2 + 1).tmod 4 then dirToInt d2
            else min (dirToInt d1) (dirToInt d2)) ≤ (3 : Int)) := by
  have hd1 : d1 = 0 ∨ d1 = 1 ∨ d1 = 2 ∨ d1 = 3 := by omega
  have hd2 : d2 = 0 ∨ d2 = 1 ∨ d2 = 2 ∨ d2 = 3 := by omega
  rcases hd1 with rfl | rfl | rfl | rfl <;> rcases hd2 with rfl | rfl | rfl | rfl <;>
    simp [tileConnections, dirToInt, castDir, Int.tmod]

theorem getDirectionTo_congr {a b : UCircuitPuzzle} (h : a.Width = b.Width) (i j : Int) :
    a.GetDirectionTo i j = b.GetDirectionTo i j := by
  unfold GetDirectionTo; rw [h]

theorem pathInv_length {s : UCircuitPuzzle} {src snk : Int} {P : List Int}
    (hP : PathInv s src P snk) (hne : src ≠ snk) : 2 ≤ P.length := by
  obtain ⟨hh, hl, _⟩ := hP
  by_contra hlt
  have : P.length - 1 = 0 := by omega
  rw [this, hh] at hl
  injection hl with hl
  exact hne hl

theorem nodup_getElem?_ne {P : List Int} (hnd : P.Nodup) {i k : Nat} {a : Int}
    (hi : P[i]? = some a) (hk : k ≠ i) : P[k]? ≠ some a := by
  intro hka
  have hilt := (List.getElem?_eq_some_iff.mp hi).1
  have hklt := (List.getElem?_eq_some_iff.mp hka).1
  rcases Nat.lt_or_gt_of_ne hk with h | h
  · exact (List.nodup_iff_getElem?_ne_getElem?.mp hnd) k i h hilt (by rw [hi, hka])
  · exact (List.nodup_iff_getElem?_ne_getElem?.mp hnd) i k h hklt (by rw [hi, hka])

theorem convInv_set {s1 s : UCircuitPuzzle} {P : List Int} {i : Nat} {a : Int}
    {t0 newt : FCircuitTile} (hinv : ConvInv s1 P i s) (hnd : P.Nodup)
    (hPi : P[i]? = some a) (ht0 : tileAt s1.Tiles a = some t0)
    (hts : tileAt s.Tiles a = some t0) (hconv : Converted s1 P i a t0 newt) :
    ConvInv s1 P (i + 1) { s with Tiles := s.Tiles.set a.toNat newt } := by
  obtain ⟨⟨hw, hh, hc, hsol, hlen⟩, hb, hcv⟩ := hinv
  have ha0 := (tileAt_eq_some hts).1
  refine ⟨⟨hw, hh, hc, hsol, by simpa using hlen⟩, ?_, ?_⟩
  · intro j hj
    have hja : j ≠ a := by
      intro e
      subst e
      exact hj i (Nat.lt_succ_self i) hPi
    simp only
    rw [tileAt_set_ne ha0 hja]
    exact hb j (fun k hk => hj k (Nat.lt_succ_of_lt hk))
  · intro k b hk hPk
    by_cases hki : k = i
    · subst hki
      rw [hPi] at hPk
      injection hPk with hPk
      subst hPk
      exact ⟨t0, newt, ht0, tileAt_set_self hts, hconv⟩
    · have hba : b ≠ a := by
        intro e
        subst e
        exact nodup_getElem?_ne hnd hPi hki hPk
      obtain ⟨u0, u, hu0, hu, hcu⟩ := hcv k b (by omega) hPk
      refine ⟨u0, u, hu0, ?_, hcu⟩
      simp only
      rw [tileAt_set_ne ha0 hba]
      exact hu

theorem convert_step {s1 : UCircuitPuzzle} {P : List Int} {src snk : Int}
    (hP : PathInv s1 src P snk) (hne : src ≠ snk) (hlay : OnlySourceSink s1 src snk)
    {i : Nat} (hi : i < P.length) {s : UCircuitPuzzle} (hinv : ConvInv s1 P i s) :
    ∃ s', GenerateSolutionPath.convert P s i = some s' ∧ ConvInv s1 P (i + 1) s' := by
  have hlen2 := pathInv_length hP hne
  obtain ⟨hh, hl, hnd, hrange, _⟩ := hP
  have hPi : P[i]? = some P[i] := List.getElem?_eq_getElem hi
  generalize P[i] = a at hPi
  obtain ⟨ha0, ha1⟩ := hrange a (List.getElem?_mem hPi)
  obtain ⟨t0, ht0⟩ := tileAt_isSome (l := s1.Tiles) ha0 ha1
  have hts : tileAt s.Tiles a = some t0 := by
    rw [hinv.2.1 a (fun k hk => nodup_getElem?_ne hnd hPi (by omega))]
    exact ht0
  obtain ⟨hsrcT, hsnkT, hmidT⟩ := hlay a t0 ht0
  have hw : s.Width = s1.Width := hinv.1.1
  unfold GenerateSolutionPath.convert
  rw [intAt_natCast, hPi]
  simp only
  rw [hts]
  simp only
  by_cases hi0 : i = 0
  · -- the Source end of the path
    subst hi0
    rw [hh] at hPi
    injection hPi with hPi
    have hT : t0.TileType = ECircuitTileType.Source := hsrcT hPi.symm
    obtain ⟨q, hq⟩ : ∃ q, P[1]? = some q := ⟨P[1], List.getElem?_eq_getElem (by omega)⟩
    have e1 : ((0 : Nat) : Int) + 1 = ((1 : Nat) : Int) := by norm_num
    rw [if_neg (by simp), if_pos rfl, if_pos (by omega), e1, intAt_natCast, hq]
    simp only
    refine ⟨_, rfl, convInv_set hinv hnd (by rw [hh, hPi]) ht0 hts ?_⟩
    have hc := source_connects t0 (s.GetDirectionTo a q) (getDirectionTo_lt s a q) (Or.inl hT)
    refine ⟨rfl, rfl, hc.2.1, hc.2.2, ?_, fun _ => rfl, ?_, ?_⟩
    · intro hE; rw [hT] at hE; cases hE
    · intro p h1; omega
    · intro q' hq'
      rw [hq] at hq'
      injection hq' with hq'
      subst hq'
      rw [← getDirectionTo_congr hw]
      exact hc.1
  · by_cases hin : i = P.length - 1
    · -- the Sink end of the path
      rw [hin, hl] at hPi
      injection hPi with hPi
      have hT : t0.TileType = ECircuitTileType.Sink := hsnkT hPi.symm
      obtain ⟨p, hp⟩ : ∃ p, P[i - 1]? = some p :=
        ⟨P[i - 1], List.getElem?_eq_getElem (by omega)⟩
      have e1 : (i : Int) - 1 = ((i - 1 : Nat) : Int) := by omega
      have e2 : (i : Int) = (P.length : Int) - 1 := by omega
      rw [if_neg (by intro hh'; exact hh'.1.2 e2), if_neg hi0, if_pos e2, if_pos (by omega), e1,
        intAt_natCast, hp]
      simp only
      refine ⟨_, rfl, convInv_set hinv hnd (by rw [hin, hl, hPi]) ht0 hts ?_⟩
      have hc := source_connects t0 (s.GetDirectionTo a p) (getDirectionTo_lt s a p) (Or.inr hT)
      refine ⟨rfl, rfl, hc.2.1, hc.2.2, ?_, fun _ => rfl, ?_, ?_⟩
      · intro hE; rw [hT] at hE; cases hE
      · intro p' _ hp'
        rw [hp] at hp'
        injection hp' with hp'
        subst hp'
        rw [← getDirectionTo_congr hw]
        exact hc.1
      · intro q' hq'
        have : P.length ≤ i + 1 := by omega
        rw [List.getElem?_eq_none this] at hq'
        cases hq'
    · -- an interior tile of the path
      have hasrc : a ≠ src := by
        intro e
        subst e
        exact nodup_getElem?_ne hnd hPi (Ne.symm hi0) hh
      have hasnk : a ≠ snk := by
        intro e
        subst e
        exact nodup_getElem?_ne hnd hPi (Ne.symm hin) hl
      have hT : t0.TileType = ECircuitTileType.Empty := hmidT hasrc hasnk
      obtain ⟨p, hp⟩ : ∃ p, P[i - 1]? = some p :=
        ⟨P[i - 1], List.getElem?_eq_getElem (by omega)⟩
      obtain ⟨q, hq⟩ : ∃ q, P[i + 1]? = some q :=
        ⟨P[i + 1], List.getElem?_eq_getElem (by omega)⟩
      have e1 : (i : Int) - 1 = ((i - 1 : Nat) : Int) := by omega
      have e2 : (i : Int) + 1 = ((i + 1 : Nat) : Int) := by omega
      have e3 : ¬ (i : Int) = (P.length : Int) - 1 := by omega
      rw [if_neg (by intro hh'; exact hh'.2 hT), if_neg hi0, if_neg e3, e1, e2, intAt_natCast,
        intAt_natCast, hp, hq]
      simp only
      have hm := middle_connects t0 (s.GetDirectionTo a p) (s.GetDirectionTo a q)
        (getDirectionTo_lt s a p) (getDirectionTo_lt s a q)
      have hsr := straightRotation_range (s.GetDirectionTo a p)
      rw [getDirectionTo_congr hw a p, getDirectionTo_congr hw a q] at hm ⊢
      rw [getDirectionTo_congr hw a p] at hsr
      by_cases hdiff : (((dirToInt (s1.GetDirectionTo a p) -
          dirToInt (s1.GetDirectionTo a q)).natAbs : Nat) : Int) = 2
      · rw [if_pos hdiff]
        obtain ⟨c1, c2⟩ := hm.1 hdiff
        refine ⟨_, rfl, convInv_set hinv hnd hPi ht0 hts ?_⟩
        refine ⟨rfl, rfl, hsr.1, hsr.2, fun _ => Or.inl rfl, ?_, ?_, ?_⟩
        · intro hE; exact absurd hT hE
        · intro p' _ hp'
          rw [hp] at hp'
          injection hp' with hp'
          subst hp'
          exact c1
        · intro q' hq'
          rw [hq] at hq'
          injection hq' with hq'
          subst hq'
          exact c2
      · rw [if_neg hdiff]
        obtain ⟨c1, c2, c3, c4⟩ := hm.2 hdiff
        refine ⟨_, rfl, convInv_set hinv hnd hPi ht0 hts ?_⟩
        refine ⟨rfl, rfl, c3, c4, fun _ => Or.inr rfl, ?_, ?_, ?_⟩
        · intro hE; exact absurd hT hE
        · intro p' _ hp'
          rw [hp] at hp'
          injection hp' with hp'
          subst hp'
          exact c1
        · intro q' hq'
          rw [hq] at hq'
          injection hq' with hq'
          subst hq'
          exact c2

theorem convert_fold {s1 : UCircuitPuzzle} {P : List Int} {src snk : Int}
    (hP : PathInv s1 src P snk) (hne : src ≠ snk) (hlay : OnlySourceSink s1 src snk) :
    ∀ i, i ≤ P.length →
      ∃ s, (List.range i).foldlM (GenerateSolutionPath.convert P) s1 = some s ∧
        ConvInv s1 P i s := by
  intro i
  induction i with
  | zero =>
    intro _
    refine ⟨s1, rfl, ⟨rfl, rfl, rfl, rfl, rfl⟩, fun j _ => rfl, ?_⟩
    intro k a hk
    omega
  | succ i ih =>
    intro hi
    obtain ⟨s, hs, hinv⟩ := ih (by omega)
    obtain ⟨s', hs', hinv'⟩ := convert_step hP hne hlay (by omega) hinv
    refine ⟨s', ?_, hinv'⟩
    rw [List.range_succ, List.foldlM_append, hs]
    simp only [Option.bind_eq_bind, Option.some_bind, List.foldlM_cons, List.foldlM_nil, hs']
    rfl

theorem generateSolutionPath_spec {s1 : UCircuitPuzzle} (hs : GridShaped s1) {src snk : Int}
    (h0 : 0 ≤ src) (h1 : src < s1.Tiles.length) (hne : src ≠ snk)
    (hlay : OnlySourceSink s1 src snk) {rs rs' : FRandomStream} {fuel : Nat}
    {s2 : UCircuitPuzzle}
    (h : s1.GenerateSolutionPath src snk rs fuel = some (s2, rs')) :
    ∃ P, PathInv s1 src P snk ∧ ConvInv s1 P P.length s2 := by
  unfold GenerateSolutionPath at h
  split at h
  · cases h
  · rename_i P rs1 hwalk
    have hP := walk_spec hs h0 h1 fuel [src] src rs P rs1 (pathInv_single h0 h1) hwalk
    have hlen := pathInv_length hP hne
    have hfirst : intAt P 0 = some src := by
      have := intAt_natCast P 0
      simp only [Nat.cast_zero] at this
      rw [this]
      exact hP.1
    have hlast : intAt P ((P.length : Int) - 1) = some snk := by
      have e : (P.length : Int) - 1 = ((P.length - 1 : Nat) : Int) := by omega
      rw [e, intAt_natCast]
      exact hP.2.1
    simp only at h
    rw [if_neg (by omega), hfirst, hlast] at h
    simp only [ne_eq, not_true_eq_false, if_false] at h
    have hclean : GenerateSolutionPath.clean P [] = P := by
      rw [clean_of_nodup P [] (by simpa using hP.2.2.1)]
      simp
    rw [hclean] at h
    obtain ⟨s, hfold, hinv⟩ := convert_fold hP hne hlay P.length (le_refl _)
    rw [hfold] at h
    simp only at h
    injection h with h
    injection h with e1 e2
    subst e1
    exact ⟨P, hP, hinv⟩

theorem convInv_getNeighborIndex {s1 s : UCircuitPuzzle} {P : List Int} {i : Nat}
    (h : ConvInv s1 P i s) (a : Int) (d : ECircuitDir) :
    s.GetNeighborIndex a d = s1.GetNeighborIndex a d := by
  unfold GetNeighborIndex
  rw [h.1.1, h.1.2.1]

theorem convInv_reach {s1 s2 : UCircuitPuzzle} (hs : GridShaped s1) {src snk : Int}
    {P : List Int} (hP : PathInv s1 src P snk) (hinv : ConvInv s1 P P.length s2) :
    Reach s2 src snk := by
  have key : ∀ (k : Nat) (a : Int), P[k]? = some a → Reach s2 src a := by
    intro k
    induction k with
    | zero =>
      intro a ha
      rw [hP.1] at ha
      injection ha with ha
      subst ha
      exact Relation.ReflTransGen.refl
    | succ k ih =>
      intro b hb
      have hklt := (List.getElem?_eq_some_iff.mp hb).1
      obtain ⟨a, ha⟩ : ∃ a, P[k]? = some a := ⟨P[k], List.getElem?_eq_getElem (by omega)⟩
      obtain ⟨d, hg, hbne⟩ := hP.2.2.2.2 k a b ha hb
      obtain ⟨ha0, ha1⟩ := hP.2.2.2.1 a (List.getElem?_mem ha)
      have hstep := gni_step s1 hs a ha0 ha1 d (by rw [hg]; exact hbne)
      rw [hg] at hstep
      obtain ⟨_, _, _, hd1, hd2⟩ := hstep
      obtain ⟨ta0, ta, _, hta, hca⟩ := hinv.2.2 k a (by omega) ha
      obtain ⟨tb0, tb, _, htb, hcb⟩ := hinv.2.2 (k + 1) b hklt hb
      have c1 : d ∈ tileConnections ta := by
        have := hca.2.2.2.2.2.2.2 b hb
        rw [hd1] at this
        exact this
      have c2 : GetOppositeDirection d ∈ tileConnections tb := by
        have := hcb.2.2.2.2.2.2.1 a (by omega) (by simpa using ha)
        rw [hd2] at this
        exact this
      have hcond : Conducts s2 a b :=
        (conducts_iff s2 a b).mpr
          ⟨d, ⟨ta, hta, c1⟩, by rw [convInv_getNeighborIndex hinv]; exact hg, hbne, ⟨tb, htb, c2⟩⟩
      exact Relation.ReflTransGen.tail (ih a ha) hcond
  exact key (P.length - 1) snk hP.2.1

/-! ## Relations between tile arrays -/

theorem TilesRel.same {R : FCircuitTile → FCircuitTile → Prop} (hR : ∀ t, R t t)
    (a : List FCircuitTile) : TilesRel R a a := by
  refine ⟨rfl, ?_⟩
  intro n ta tb ha hb
  rw [ha] at hb
  injection hb with hb
  subst hb
  exact hR ta

theorem TilesRel.comp {R1 R2 R3 : FCircuitTile → FCircuitTile → Prop}
    (hR : ∀ x y z, R1 x y → R2 y z → R3 x z) {a b c : List FCircuitTile}
    (h1 : TilesRel R1 a b) (h2 : TilesRel R2 b c) : TilesRel R3 a c := by
  refine ⟨h1.1.trans h2.1, ?_⟩
  intro n ta tc ha hc
  have hlt := (List.getElem?_eq_some_iff.mp ha).1
  have hltb : n < b.length := by rw [← h1.1]; exact hlt
  have hb : b[n]? = some b[n] := List.getElem?_eq_getElem hltb
  exact hR _ _ _ (h1.2 n ta _ ha hb) (h2.2 n _ tc hb hc)

theorem TilesRel.mono {R1 R2 : FCircuitTile → FCircuitTile → Prop}
    (hR : ∀ x y, R1 x y → R2 x y) {a b : List FCircuitTile} (h : TilesRel R1 a b) :
    TilesRel R2 a b :=
  ⟨h.1, fun n ta tb ha hb => hR _ _ (h.2 n ta tb ha hb)⟩

theorem TilesRel.set {R : FCircuitTile → FCircuitTile → Prop} (hR : ∀ t, R t t)
    {a : List FCircuitTile} {n : Nat} {t x : FCircuitTile} (ht : a[n]? = some t)
    (hx : R t x) : TilesRel R a (a.set n x) := by
  refine ⟨by simp, ?_⟩
  intro m ta tb ha hb
  rw [List.getElem?_set] at hb
  by_cases hm : n = m
  · subst hm
    rw [ht] at ha
    injection ha with ha
    subst ha
    have hlt := (List.getElem?_eq_some_iff.mp ht).1
    simp only [if_true, hlt] at hb
    injection hb with hb
    subst hb
    exact hx
  · rw [if_neg hm, ha] at hb
    injection hb with hb
    subst hb
    exact hR ta

theorem TilesRel.tileAt_fwd {R : FCircuitTile → FCircuitTile → Prop} {a b : List FCircuitTile}
    (h : TilesRel R a b) {i : Int} {t : FCircuitTile} (ht : tileAt a i = some t) :
    ∃ t', Greystone.tileAt b i = some t' ∧ R t t' := by
  obtain ⟨h0, h1, hg⟩ := tileAt_eq_some ht
  obtain ⟨t', ht'⟩ := tileAt_isSome (l := b) h0 (by rw [← h.1]; exact h1)
  exact ⟨t', ht', h.2 _ _ _ hg (tileAt_eq_some ht').2.2⟩

theorem TilesRel.tileAt_back {R : FCircuitTile → FCircuitTile → Prop}
    {a b : List FCircuitTile} (h : TilesRel R a b) {i : Int} {t' : FCircuitTile}
    (ht : Greystone.tileAt b i = some t') :
    ∃ t, Greystone.tileAt a i = some t ∧ R t t' := by
  obtain ⟨h0, h1, hg⟩ := tileAt_eq_some ht
  obtain ⟨t, ht0⟩ := tileAt_isSome (l := a) h0 (by rw [h.1]; exact h1)
  exact ⟨t, ht0, h.2 _ _ _ (tileAt_eq_some ht0).2.2 hg⟩

/-! ## Random draws -/

theorem randRange_mem (rs : FRandomStream) (lo hi : Int) (h : lo ≤ hi) :
    lo ≤ (rs.RandRange lo hi).1 ∧ (rs.RandRange lo hi).1 ≤ hi := by
  unfold FRandomStream.RandRange
  simp only
  have hpos : 0 < hi - lo + 1 := by omega
  rw [if_pos hpos]
  have h1 := Int.emod_nonneg ((rs.draws rs.pos : Nat) : Int) (by omega : hi - lo + 1 ≠ 0)
  have h2 := Int.emod_lt_of_pos ((rs.draws rs.pos : Nat) : Int) hpos
  omega

/-! ## `ScramblePuzzle` and `ApplyLocks` -/

theorem scrambleRel_refl (cfg : FCircuitPuzzleConfig) (t : FCircuitTile) :
    ScrambleRel cfg t t :=
  ⟨rfl, rfl, rfl, fun h => h, fun _ _ => rfl, fun _ _ => rfl⟩

theorem scrambleRel_trans (cfg : FCircuitPuzzleConfig) (x y z : FCircuitTile)
    (h1 : ScrambleRel cfg x y) (h2 : ScrambleRel cfg y z) : ScrambleRel cfg x z := by
  obtain ⟨a1, a2, a3, a4, a5, a6⟩ := h1
  obtain ⟨b1, b2, b3, b4, b5, b6⟩ := h2
  refine ⟨b1.trans a1, b2.trans a2, b3.trans a3, fun h => b4 (a4 h), ?_, ?_⟩
  · intro hT hc
    rw [b5 (a1.trans hT) hc, a5 hT hc]
  · intro hT hc
    rw [b6 (a1.trans hT) hc, a6 hT hc]

theorem lockRel_refl (t : FCircuitTile) : LockRel t t :=
  ⟨rfl, rfl, rfl, fun h => h, fun _ => rfl⟩

theorem lockRel_trans (x y z : FCircuitTile) (h1 : LockRel x y) (h2 : LockRel y z) :
    LockRel x z := by
  obtain ⟨a1, a2, a3, a4, a5⟩ := h1
  obtain ⟨b1, b2, b3, b4, b5⟩ := h2
  refine ⟨b1.trans a1, b2.trans a2, b3.trans a3, fun h => b4 (a4 h), ?_⟩
  intro hT
  rw [b5 (by rw [a1]; exact hT), a5 hT]

theorem tmod_four_range (r : Int) (h : 0 ≤ r) : 0 ≤ r.tmod 4 ∧ r.tmod 4 ≤ 3 := by
  rw [Int.tmod_eq_emod h (by omega)]
  omega

theorem scramble_loop_spec : ∀ (n : Nat) (s : UCircuitPuzzle) (rs : FRandomStream)
    (s' : UCircuitPuzzle) (rs' : FRandomStream),
    ScramblePuzzle.loop n s rs = some (s', rs') →
    s'.Width = s.Width ∧ s'.Height = s.Height ∧ s'.Config = s.Config ∧
      s'.SolutionRotations = s.SolutionRotations ∧
      TilesRel (ScrambleRel s.Config) s.Tiles s'.Tiles := by
  intro n
  induction n with
  | zero =>
    intro s rs s' rs' h
    unfold ScramblePuzzle.loop at h
    injection h with h
    injection h with e1 e2
    subst e1
    exact ⟨rfl, rfl, rfl, rfl, TilesRel.same (scrambleRel_refl _) _⟩
  | succ n ih =>
    intro s rs s' rs' h
    unfold ScramblePuzzle.loop at h
    simp only at h
    split at h
    · cases h
    · rename_i t ht
      split at h
      · exact ih _ _ _ _ h
      · rename_i hsrc
        split at h
        · exact ih _ _ _ _ h
        · rename_i hsnk
          obtain ⟨e1, e2, e3, e4, e5⟩ := ih _ _ _ _ h
          refine ⟨e1, e2, e3, e4, ?_⟩
          refine TilesRel.comp (scrambleRel_trans s.Config) ?_ e5
          refine TilesRel.set (scrambleRel_refl _) (tileAt_eq_some ht).2.2 ?_
          refine ⟨rfl, rfl, rfl, ?_, ?_, ?_⟩
          · intro hr
            have ha := randRange_mem (rs.RandRange 0 ((s.Tiles.length : Int) - 1)).2 1 3
              (by omega)
            exact tmod_four_range _ (by have := hr.1; omega)
          · intro hT hc
            exact absurd ⟨hT, by simp [hc]⟩ hsrc
          · intro hT hc
            exact absurd ⟨hT, by simp [hc]⟩ hsnk

theorem applyLocks_loop_spec : ∀ (n : Nat) (s : UCircuitPuzzle) (rs : FRandomStream)
    (s' : UCircuitPuzzle) (rs' : FRandomStream),
    ApplyLocks.loop n s rs = some (s', rs') →
    s'.Width = s.Width ∧ s'.Height = s.Height ∧ s'.Config = s.Config ∧
      s'.SolutionRotations = s.SolutionRotations ∧ TilesRel LockRel s.Tiles s'.Tiles := by
  intro n
  induction n with
  | zero =>
    intro s rs s' rs' h
    unfold ApplyLocks.loop at h
    injection h with h
    injection h with e1 e2
    subst e1
    exact ⟨rfl, rfl, rfl, rfl, TilesRel.same lockRel_refl _⟩
  | succ n ih =>
    intro s rs s' rs' h
    unfold ApplyLocks.loop at h
    simp only at h
    split at h
    · cases h
    · rename_i t ht
      split at h
      · exact ih _ _ _ _ h
      · rename_i hss
        obtain ⟨e1, e2, e3, e4, e5⟩ := ih _ _ _ _ h
        refine ⟨e1, e2, e3, e4, ?_⟩
        refine TilesRel.comp lockRel_trans ?_ e5
        refine TilesRel.set lockRel_refl (tileAt_eq_some ht).2.2 ?_
        exact ⟨rfl, rfl, rfl, fun _ => rfl, fun hT => absurd hT hss⟩

/-! ## The fill loop of `StartNew` -/

theorem fillRel_refl (t : FCircuitTile) : FillRel t t :=
  ⟨fun _ => rfl, fun _ => Or.inl rfl⟩

theorem rolledKind (Roll : Int) :
    let k := if Roll < 40 then ECircuitTileType.Straight
      else if Roll < 80 then ECircuitTileType.Elbow
      else if Roll < 95 then ECircuitTileType.Tee
      else ECircuitTileType.Cross
    k = ECircuitTileType.Straight ∨ k = ECircuitTileType.Elbow ∨ k = ECircuitTileType.Tee ∨
      k = ECircuitTileType.Cross := by
  simp only
  split_ifs <;> simp

theorem fill_step {s2 s : UCircuitPuzzle} (rs : FRandomStream) {i : Nat}
    (hlenT : i < s2.Tiles.length)
    (hlenS : s2.SolutionRotations.length = s2.Tiles.length) (hinv : FillInv s2 i s) :
    ∃ s' rs', StartNew.fill (s, rs) i = some (s', rs') ∧ FillInv s2 (i + 1) s' := by
  obtain ⟨⟨hw, hh, hc, hsl⟩, hrel, hrest, hdone⟩ := hinv
  have hti : s.Tiles[i]? = some s2.Tiles[i] := by
    rw [hrest i (le_refl i)]
    exact List.getElem?_eq_getElem hlenT
  generalize s2.Tiles[i] = t at hti
  have hilt : i < s.Tiles.length := (List.getElem?_eq_some_iff.mp hti).1
  have hs2i : s2.Tiles[i]? = some t := by rw [← hrest i (le_refl i)]; exact hti
  have htile : tileAt s.Tiles (i : Int) = some t := by
    unfold tileAt
    simp [hti]
  have hsi : i < s.SolutionRotations.length := by omega
  have hsol : intAt s.SolutionRotations (i : Int) = some s.SolutionRotations[i] := by
    rw [intAt_natCast]
    exact List.getElem?_eq_getElem hsi
  unfold StartNew.fill
  simp only
  rw [htile, hsol]
  simp only
  by_cases hE : t.TileType = ECircuitTileType.Empty
  · rw [if_pos hE]
    refine ⟨_, _, rfl, ⟨hw, hh, hc, by simpa using hsl⟩, ?_, ?_, ?_⟩
    · refine ⟨by simpa using hrel.1, ?_⟩
      intro n ta tb ha hb
      simp only at hb
      rw [List.getElem?_set] at hb
      by_cases hn : i = n
      · subst hn
        rw [hs2i] at ha
        injection ha with ha
        subst ha
        simp only [if_true, hilt] at hb
        injection hb with hb
        subst hb
        refine ⟨fun h => absurd hE h, fun _ => Or.inr ⟨?_, ?_, rfl, rfl⟩⟩
        · exact rolledKind _
        · exact randRange_mem _ 0 3 (by omega)
      · rw [if_neg hn] at hb
        exact hrel.2 n ta tb ha hb
    · intro n hn
      simp only
      rw [List.getElem?_set, if_neg (by omega)]
      exact hrest n (by omega)
    · intro n u hn hu
      simp only at hu ⊢
      rw [List.getElem?_set] at hu ⊢
      by_cases hni : i = n
      · subst hni
        simp only [if_true, hilt] at hu
        injection hu with hu
        subst hu
        simp only [if_true, hsi, and_true]
        have := rolledKind (rs.RandRange 0 99).1
        simp only at this ⊢
        rcases this with h | h | h | h <;> rw [h] <;> decide
      · rw [if_neg hni] at hu ⊢
        exact hdone n u (by omega) hu
  · rw [if_neg hE]
    refine ⟨_, _, rfl, ⟨hw, hh, hc, by simpa using hsl⟩, hrel, fun n hn => hrest n (by omega), ?_⟩
    intro n u hn hu
    simp only at hu ⊢
    rw [List.getElem?_set]
    by_cases hni : i = n
    · subst hni
      rw [hti] at hu
      injection hu with hu
      subst hu
      simp only [if_true, hsi, and_true]
      exact hE
    · rw [if_neg hni]
      exact hdone n u (by omega) hu

theorem fill_fold {s2 : UCircuitPuzzle} (hlenS : s2.SolutionRotations.length = s2.Tiles.length)
    (rs : FRandomStream) :
    ∀ i, i ≤ s2.Tiles.length →
      ∃ s rs', (List.range i).foldlM StartNew.fill (s2, rs) = some (s, rs') ∧
        FillInv s2 i s := by
  intro i
  induction i with
  | zero =>
    intro _
    refine ⟨s2, rs, rfl, ⟨rfl, rfl, rfl, rfl⟩, TilesRel.same fillRel_refl _, fun n _ => rfl, ?_⟩
    intro n t hn
    omega
  | succ i ih =>
    intro hi
    obtain ⟨s, rs1, hs, hinv⟩ := ih (by omega)
    obtain ⟨s', rs', hs', hinv'⟩ := fill_step rs1 (by omega) hlenS hinv
    refine ⟨s', rs', ?_, hinv'⟩
    rw [List.range_succ, List.foldlM_append, hs]
    simp only [Option.bind_eq_bind, Option.some_bind, List.foldlM_cons, List.foldlM_nil, hs']
    rfl

/-! ## The sink placement loop of `StartNew` -/

theorem placeSink_spec (s : UCircuitPuzzle) (src n : Int) :
    ∀ (fuel : Nat) (snk : Int) (rs : FRandomStream) (snk' : Int) (rs' : FRandomStream),
      StartNew.placeSink s src n fuel snk rs = some (snk', rs') →
      snk' ≠ src ∧ s.AreAdjacent src snk' = false := by
  intro fuel
  induction fuel with
  | zero =>
    intro snk rs snk' rs' h
    unfold StartNew.placeSink at h
    split at h
    · cases h
    · rename_i hc
      injection h with h
      injection h with e1 e2
      subst e1
      push_neg at hc
      exact ⟨hc.1, by simpa using hc.2⟩
  | succ fuel ih =>
    intro snk rs snk' rs' h
    unfold StartNew.placeSink at h
    split at h
    · exact ih _ _ _ _ h
    · rename_i hc
      injection h with h
      injection h with e1 e2
      subst e1
      push_neg at hc
      exact ⟨hc.1, by simpa using hc.2⟩

/-! ## `StartNew` -/

theorem modifyTile_eq_some {l l' : List FCircuitTile} {i : Int}
    {f : FCircuitTile → FCircuitTile} (h : modifyTile l i f = some l') :
    ∃ t, tileAt l i = some t ∧ l' = l.set i.toNat (f t) := by
  unfold modifyTile at h
  split at h
  · rename_i t ht
    injection h with h
    exact ⟨t, ht, h.symm⟩
  · cases h

theorem tileAt_replicate {n : Nat} {x t : FCircuitTile} {i : Int}
    (h : tileAt (List.replicate n x) i = some t) : t = x := by
  have hg := (tileAt_eq_some h).2.2
  rw [List.getElem?_replicate] at hg
  split at hg
  · injection hg with hg; exact hg.symm
  · cases hg

theorem startTiles_spec {n : Nat} {src snk : Int} {T1 T2 : List FCircuitTile}
    (hne : snk ≠ src)
    (hT1 : modifyTile (List.replicate n (FCircuitTile.mk ECircuitTileType.Empty 0 false false))
      src (fun Tile => { Tile with TileType := ECircuitTileType.Source }) = some T1)
    (hT2 : modifyTile T1 snk (fun Tile => { Tile with TileType := ECircuitTileType.Sink })
      = some T2) :
    (0 ≤ src ∧ src < (n : Int)) ∧ (0 ≤ snk ∧ snk < (n : Int)) ∧ T2.length = n ∧
    ∀ j t, tileAt T2 j = some t →
      t = FCircuitTile.mk
        (if j = src then ECircuitTileType.Source
         else if j = snk then ECircuitTileType.Sink else ECircuitTileType.Empty) 0 false false := by
  obtain ⟨t1, ht1, e1⟩ := modifyTile_eq_some hT1
  obtain ⟨t2, ht2, e2⟩ := modifyTile_eq_some hT2
  have hx1 := tileAt_replicate ht1
  subst hx1
  obtain ⟨a0, a1, _⟩ := tileAt_eq_some ht1
  obtain ⟨b0, b1, _⟩ := tileAt_eq_some ht2
  have hlen1 : T1.length = n := by rw [e1]; simp
  have hx2 : t2 = FCircuitTile.mk ECircuitTileType.Empty 0 false false := by
    rw [e1, tileAt_set_ne a0 hne] at ht2
    exact tileAt_replicate ht2
  subst hx2
  simp only [List.length_replicate] at a1
  refine ⟨⟨a0, a1⟩, ⟨b0, by omega⟩, by rw [e2]; simpa using hlen1, ?_⟩
  intro j t ht
  rw [e2] at ht
  by_cases hjk : j = snk
  · subst hjk
    rw [tileAt_set_self ht2] at ht
    injection ht with ht
    rw [if_neg hne, if_pos rfl]
    exact ht.symm
  · rw [tileAt_set_ne b0 hjk, e1] at ht
    by_cases hjs : j = src
    · subst hjs
      rw [tileAt_set_self ht1] at ht
      injection ht with ht
      rw [if_pos rfl]
      exact ht.symm
    · rw [tileAt_set_ne a0 hjs] at ht
      rw [if_neg hjs, if_neg hjk]
      exact tileAt_replicate ht

theorem areAdjacent_congr {a b : UCircuitPuzzle} (h : a.Width = b.Width) (i j : Int) :
    a.AreAdjacent i j = b.AreAdjacent i j := by
  unfold AreAdjacent; rw [h]

theorem framed_sameButPower {cfg : FCircuitPuzzleConfig} {a b : UCircuitPuzzle}
    (h : SameButPower a b) (hf : Framed cfg a) : Framed cfg b :=
  ⟨h.width.trans hf.1, h.height.trans hf.2.1, h.config.trans hf.2.2.1, h.gridShaped hf.2.2.2⟩

theorem framed_of_length {cfg : FCircuitPuzzleConfig} {a b : UCircuitPuzzle}
    (hf : Framed cfg a) (hw : b.Width = a.Width) (hh : b.Height = a.Height)
    (hc : b.Config = a.Config) (hl : b.Tiles.length = a.Tiles.length) : Framed cfg b := by
  refine ⟨hw.trans hf.1, hh.trans hf.2.1, hc.trans hf.2.2.1, ?_⟩
  have := hf.2.2.2
  unfold GridShaped at *
  rw [hl, hw, hh]
  exact this

/-- The stages of a run of `StartNew` that returns. -/
theorem startNew_run {prior : UCircuitPuzzle} {cfg : FCircuitPuzzleConfig}
    {rs : FRandomStream} {fuel : Nat} {s : UCircuitPuzzle}
    (h : StartNew prior cfg rs fuel = some s) :
    ∃ src snk s1 s2 s3 s4 s6, StartNewRun cfg src snk s1 s2 s3 s4 s6 s := by
  unfold StartNew at h
  simp only at h
  split at h
  · cases h
  · rename_i hcount
    split at h
    · cases h
    · rename_i snk rs1 hplace
      split at h
      · cases h
      · rename_i T1 hT1
        split at h
        · cases h
        · rename_i T2 hT2
          split at h
          · cases h
          · rename_i s2 rs2 hgen
            split at h
            · cases h
            · rename_i s3 rs3 hfill
              split at h
              · cases h
              · rename_i s4 rs4 hscr
                split at h
                · cases h
                · rename_i s6 rs6 hlock
                  generalize hsrc : (rs.RandRange 0 (cfg.Width * cfg.Height - 1)).1 = src at *
                  obtain ⟨hne, hadj⟩ := placeSink_spec _ _ _ _ _ _ _ _ hplace
                  obtain ⟨hsr, hkr, hlen2, hstart⟩ := startTiles_spec hne hT1 hT2
                  have hN : ((cfg.Width * cfg.Height).toNat : Int) = cfg.Width * cfg.Height := by
                    omega
                  have hf1 : Framed cfg (UCircuitPuzzle.mk cfg.Width cfg.Height cfg T2
                      (List.replicate (cfg.Width * cfg.Height).toNat 0)) := by
                    refine ⟨rfl, rfl, rfl, ?_⟩
                    unfold GridShaped
                    simp only
                    rw [hlen2, hN]
                  have hlay : OnlySourceSink (UCircuitPuzzle.mk cfg.Width cfg.Height cfg T2
                      (List.replicate (cfg.Width * cfg.Height).toNat 0)) src snk := by
                    intro j t ht
                    have := hstart j t ht
                    subst this
                    refine ⟨fun e => by simp [e], fun e => ?_, fun e1 e2 => by simp [e1, e2]⟩
                    subst e
                    simp [hne]
                  obtain ⟨P, hP, hconv⟩ := generateSolutionPath_spec hf1.2.2.2 hsr.1
                    (by simp only; rw [hlen2]; exact hsr.2) (Ne.symm hne) hlay hgen
                  obtain ⟨⟨c1, c2, c3, c4, c5⟩, _, _⟩ := hconv
                  have hf2 : Framed cfg s2 := framed_of_length hf1 c1 c2 c3 c5
                  have hsl2 : s2.SolutionRotations.length = s2.Tiles.length := by
                    rw [c4, c5]
                    simp only [List.length_replicate]
                    exact hlen2.symm
                  have hNs2 : (cfg.Width * cfg.Height).toNat = s2.Tiles.length := by
                    rw [c5]; exact hlen2.symm
                  obtain ⟨s3', rs3', hfill', hfinv⟩ := fill_fold hsl2 rs2 s2.Tiles.length (le_refl _)
                  rw [hNs2, hfill'] at hfill
                  injection hfill with hfill
                  injection hfill with e1 e2
                  subst e1
                  obtain ⟨⟨d1, d2, d3, d4⟩, drel, _, _⟩ := hfinv
                  have hf3 : Framed cfg s3' := framed_of_length hf2 d1 d2 d3 drel.1.symm
                  have hscr' := scramble_loop_spec _ _ _ _ _ hscr
                  obtain ⟨g1, g2, g3, g4, g5⟩ := hscr'
                  have hf4 : Framed cfg s4 := framed_of_length hf3 g1 g2 g3 g5.1.symm
                  have hlock' := applyLocks_loop_spec _ _ _ _ _ hlock
                  obtain ⟨k1, k2, k3, k4, k5⟩ := hlock'
                  have hf6 : Framed cfg s6 := framed_of_length hf4 k1 k2 k3 k5.1.symm
                  obtain ⟨s', hs', hsame, _⟩ := recomputePower_spec s6
                    (neighborsInRange_of_gridShaped hf6.2.2.2)
                  rw [h] at hs'
                  injection hs' with hs'
                  subst hs'
                  refine ⟨src, snk, UCircuitPuzzle.mk cfg.Width cfg.Height cfg T2
                    (List.replicate (cfg.Width * cfg.Height).toNat 0), s2, s3', s4, s6, ?_⟩
                  exact {
                    srcRange := by simp only; rw [hlen2]; exact hsr
                    snkRange := by simp only; rw [hlen2]; exact hkr
                    distinct := hne
                    apart := hadj
                    framed1 := hf1
                    framed2 := hf2
                    framed3 := hf3
                    framed4 := hf4
                    framed6 := hf6
                    framed := framed_sameButPower hsame hf6
                    start := hstart
                    path := ⟨P, hP, ⟨c1, c2, c3, c4, c5⟩, by assumption, by assumption⟩
                    filled := ⟨⟨d1, d2, d3, d4⟩, drel, by assumption, by assumption⟩
                    solutionLength := by rw [d4, hsl2]; exact drel.1
                    scrambled := ⟨by rw [← hf3.2.2.1]; exact g5, g4⟩
                    locked := ⟨k5, k4⟩
                    lockRun := ⟨rs4, rs6, hlock⟩
                    powered := ⟨h, hsame⟩ }

/-! ## Consequences of a run of `StartNew` -/

theorem tileAt_natCast (l : List FCircuitTile) (n : Nat) : tileAt l (n : Int) = l[n]? := by
  unfold tileAt
  simp

theorem genRel_refl (t : FCircuitTile) : GenRel t t :=
  ⟨rfl, rfl, fun _ => rfl, fun h => by rw [h]; decide, fun h => h⟩

theorem genRel_trans (x y z : FCircuitTile) (h1 : GenRel x y) (h2 : GenRel y z) :
    GenRel x z := by
  obtain ⟨a1, a2, a3, a4, a5⟩ := h1
  obtain ⟨b1, b2, b3, b4, b5⟩ := h2
  refine ⟨b1.trans a1, b2.trans a2, ?_, ?_, fun h => b5 (a5 h)⟩
  · intro hx
    have hy : y.TileType ≠ ECircuitTileType.Empty := by rw [a3 hx]; exact hx
    rw [b3 hy, a3 hx]
  · intro hx
    by_cases hy : y.TileType = ECircuitTileType.Empty
    · exact b4 hy
    · rw [b3 hy]
      exact a4 hx

theorem fillRel_genRel (t t' : FCircuitTile) (h : FillRel t t') : GenRel t t' := by
  by_cases hE : t.TileType = ECircuitTileType.Empty
  · rcases h.2 hE with e | ⟨hk, hr, hl, hp⟩
    · subst e; exact genRel_refl _
    · refine ⟨hl, hp, fun hne => absurd hE hne, fun _ => ?_, fun _ => hr⟩
      rcases hk with hk | hk | hk | hk <;> rw [hk] <;> decide
  · rw [h.1 hE]
    exact genRel_refl _

theorem convInv_genRel {s1 s2 : UCircuitPuzzle} {P : List Int}
    (hinv : ConvInv s1 P P.length s2) : TilesRel GenRel s1.Tiles s2.Tiles := by
  refine ⟨hinv.1.2.2.2.2.symm, ?_⟩
  intro n ta tb ha hb
  rw [← tileAt_natCast] at ha hb
  rcases Classical.em (∃ k : Nat, P[k]? = some (n : Int)) with hex | hex
  · obtain ⟨k, hk⟩ := hex
    have hklt := (List.getElem?_eq_some_iff.mp hk).1
    obtain ⟨t0, t, h0, ht, hc⟩ := hinv.2.2 k n hklt hk
    rw [ha] at h0
    rw [hb] at ht
    injection h0 with h0
    injection ht with ht
    subst h0 ht
    obtain ⟨c1, c2, c3, c4, c5, c6, _, _⟩ := hc
    refine ⟨c1, c2, c6, ?_, fun _ => ⟨c3, c4⟩⟩
    intro hE
    rcases c5 hE with h | h <;> rw [h] <;> decide
  · push_neg at hex
    have := hinv.2.1 (n : Int) (fun k _ => hex k)
    rw [ha, hb] at this
    injection this with this
    subst this
    exact genRel_refl _

theorem tileConnections_empty {t : FCircuitTile} (h : t.TileType = ECircuitTileType.Empty) :
    tileConnections t = [] := by
  unfold tileConnections
  rw [h]

theorem conducts_mono {a b : UCircuitPuzzle} (hw : b.Width = a.Width)
    (hh : b.Height = a.Height)
    (hrel : TilesRel (fun t t' => ∀ d ∈ tileConnections t, d ∈ tileConnections t')
      a.Tiles b.Tiles) {j k : Int} (h : Conducts a j k) : Conducts b j k := by
  rw [conducts_iff] at h ⊢
  obtain ⟨d, ⟨tj, htj, hdj⟩, hg, hne, ⟨tk, htk, hdk⟩⟩ := h
  obtain ⟨tj', htj', hj'⟩ := hrel.tileAt_fwd htj
  obtain ⟨tk', htk', hk'⟩ := hrel.tileAt_fwd htk
  refine ⟨d, ⟨tj', htj', hj' d hdj⟩, ?_, hne, ⟨tk', htk', hk' _ hdk⟩⟩
  unfold GetNeighborIndex at hg ⊢
  rw [hw, hh]
  exact hg

theorem reach_mono {a b : UCircuitPuzzle} (hw : b.Width = a.Width) (hh : b.Height = a.Height)
    (hrel : TilesRel (fun t t' => ∀ d ∈ tileConnections t, d ∈ tileConnections t')
      a.Tiles b.Tiles) {j k : Int} (h : Reach a j k) : Reach b j k := by
  induction h with
  | refl => exact Relation.ReflTransGen.refl
  | tail _ hstep ih => exact Relation.ReflTransGen.tail ih (conducts_mono hw hh hrel hstep)

theorem fillRel_connections (t t' : FCircuitTile) (h : FillRel t t') :
    ∀ d ∈ tileConnections t, d ∈ tileConnections t' := by
  intro d hd
  by_cases hE : t.TileType = ECircuitTileType.Empty
  · rw [tileConnections_empty hE] at hd
    cases hd
  · rw [h.1 hE]
    exact hd

theorem sameConnector_connections (t t' : FCircuitTile) (h : SameConnector t t') :
    ∀ d ∈ tileConnections t, d ∈ tileConnections t' := by
  intro d hd
  rw [tileConnections_congr h.1 h.2]
  exact hd

theorem SameButPower.tilesRel {a b : UCircuitPuzzle} (h : SameButPower a b) :
    TilesRel (fun t t' => t'.TileType = t.TileType ∧ t'.RotationSteps = t.RotationSteps ∧
      t'.bLocked = t.bLocked) a.Tiles b.Tiles := by
  refine ⟨h.length.symm, ?_⟩
  intro n ta tb ha hb
  rw [← tileAt_natCast] at ha hb
  obtain ⟨t', ht', e⟩ := h.tileAt ha
  rw [hb] at ht'
  injection ht' with ht'
  subst ht'
  exact e

/-- From the solved layout `s3` to the returned state every tile keeps its kind. -/
theorem StartNewRun.keep {cfg : FCircuitPuzzleConfig} {src snk : Int}
    {s1 s2 s3 s4 s6 s : UCircuitPuzzle} (r : StartNewRun cfg src snk s1 s2 s3 s4 s6 s) :
    TilesRel KeepRel s3.Tiles s.Tiles := by
  have h34 : TilesRel KeepRel s3.Tiles s4.Tiles :=
    r.scrambled.1.mono (fun x y hxy => ⟨hxy.1, hxy.2.2.2.1⟩)
  have h46 : TilesRel KeepRel s4.Tiles s6.Tiles :=
    r.locked.1.mono (fun x y hxy => ⟨hxy.1, fun hr => by
      unfold RotInRange at *; rw [hxy.2.1]; exact hr⟩)
  have h6 : TilesRel KeepRel s6.Tiles s.Tiles :=
    r.powered.2.tilesRel.mono (fun x y hxy => ⟨hxy.1, fun hr => by
      unfold RotInRange at *; rw [hxy.2.1]; exact hr⟩)
  have ktrans : ∀ x y z, KeepRel x y → KeepRel y z → KeepRel x z :=
    fun x y z h1 h2 => ⟨h2.1.trans h1.1, fun hr => h2.2 (h1.2 hr)⟩
  exact TilesRel.comp ktrans (TilesRel.comp ktrans h34 h46) h6

/-- The tiles of the solved layout `s3`: the Source sits at `src` only, the Sink at `snk`
only, no tile is Empty or a Blocker, and every rotation lies in `0..3`. -/
theorem StartNewRun.kinds3 {cfg : FCircuitPuzzleConfig} {src snk : Int}
    {s1 s2 s3 s4 s6 s : UCircuitPuzzle} (r : StartNewRun cfg src snk s1 s2 s3 s4 s6 s) :
    ∀ j t, tileAt s3.Tiles j = some t →
      (t.TileType = ECircuitTileType.Source ↔ j = src) ∧
      (t.TileType = ECircuitTileType.Sink ↔ j = snk) ∧
      t.TileType ≠ ECircuitTileType.Empty ∧ t.TileType ≠ ECircuitTileType.Blocker ∧
      RotInRange t := by
  intro j t ht
  obtain ⟨P, _, hconv⟩ := r.path
  have h12 := convInv_genRel hconv
  have h23 : TilesRel GenRel s2.Tiles s3.Tiles := r.filled.2.1.mono fillRel_genRel
  have h13 := TilesRel.comp genRel_trans h12 h23
  obtain ⟨t1, ht1, hg⟩ := h13.tileAt_back ht
  have hstart := r.start j t1 ht1
  obtain ⟨j0, j1, hgj⟩ := tileAt_eq_some ht
  have hne : t.TileType ≠ ECircuitTileType.Empty := by
    have hlt : j.toNat < s2.Tiles.length := by
      have := r.filled.2.1.1
      omega
    exact (r.filled.2.2.2 j.toNat t hlt hgj).1
  obtain ⟨_, _, g3, g4, g5⟩ := hg
  have hrot : RotInRange t := g5 (by rw [hstart]; unfold RotInRange; simp)
  have hds := r.distinct
  by_cases hjs : j = src
  · have hT1 : t1.TileType = ECircuitTileType.Source := by
      rw [hstart]
      simp only
      rw [if_pos hjs]
    have hT : t.TileType = ECircuitTileType.Source := by
      rw [g3 (by rw [hT1]; decide), hT1]
    refine ⟨⟨fun _ => hjs, fun _ => hT⟩, ⟨fun h => ?_, fun h => ?_⟩, hne, ?_, hrot⟩
    · rw [hT] at h; cases h
    · exact absurd (hjs.symm.trans h) (Ne.symm hds)
    · rw [hT]; decide
  · by_cases hjk : j = snk
    · have hT1 : t1.TileType = ECircuitTileType.Sink := by
        rw [hstart]
        simp only
        rw [if_neg hjs, if_pos hjk]
      have hT : t.TileType = ECircuitTileType.Sink := by
        rw [g3 (by rw [hT1]; decide), hT1]
      refine ⟨⟨fun h => ?_, fun h => absurd h hjs⟩, ⟨fun _ => hjk, fun _ => hT⟩, hne, ?_, hrot⟩
      · rw [hT] at h; cases h
      · rw [hT]; decide
    · have hE : t1.TileType = ECircuitTileType.Empty := by
        rw [hstart]
        simp only
        rw [if_neg hjs, if_neg hjk]
      obtain ⟨n1, n2, n3⟩ := g4 hE
      exact ⟨⟨fun h => absurd h n1, fun h => absurd h hjs⟩,
        ⟨fun h => absurd h n2, fun h => absurd h hjk⟩, hne, n3, hrot⟩

/-- The tiles of the returned state: as in the solved layout, up to rotation. -/
theorem StartNewRun.kinds {cfg : FCircuitPuzzleConfig} {src snk : Int}
    {s1 s2 s3 s4 s6 s : UCircuitPuzzle} (r : StartNewRun cfg src snk s1 s2 s3 s4 s6 s) :
    ∀ j t, tileAt s.Tiles j = some t →
      (t.TileType = ECircuitTileType.Source ↔ j = src) ∧
      (t.TileType = ECircuitTileType.Sink ↔ j = snk) ∧
      t.TileType ≠ ECircuitTileType.Empty ∧ t.TileType ≠ ECircuitTileType.Blocker ∧
      RotInRange t := by
  intro j t ht
  obtain ⟨t3, ht3, hk⟩ := r.keep.tileAt_back ht
  obtain ⟨k1, k2, k3, k4, k5⟩ := r.kinds3 j t3 ht3
  rw [hk.1]
  exact ⟨k1, k2, k3, k4, hk.2 k5⟩

/-- The solved layout conducts from the Source to the Sink. -/
theorem StartNewRun.reach3 {cfg : FCircuitPuzzleConfig} {src snk : Int}
    {s1 s2 s3 s4 s6 s : UCircuitPuzzle} (r : StartNewRun cfg src snk s1 s2 s3 s4 s6 s) :
    Reach s3 src snk := by
  obtain ⟨P, hP, hconv⟩ := r.path
  have h2 : Reach s2 src snk := convInv_reach r.framed1.2.2.2 hP hconv
  exact reach_mono r.filled.1.1 r.filled.1.2.1 (r.filled.2.1.mono fillRel_connections) h2

/-! ## The loops of `ScramblePuzzle` and `ApplyLocks` run to their end -/

theorem randomIndex_tile (l : List FCircuitTile) (rs : FRandomStream) (h : 0 < l.length) :
    ∃ t, tileAt l (rs.RandRange 0 ((l.length : Int) - 1)).1 = some t := by
  have hm := randRange_mem rs 0 ((l.length : Int) - 1) (by omega)
  exact tileAt_isSome hm.1 (by omega)

theorem applyLocks_loop_total : ∀ (n : Nat) (s : UCircuitPuzzle) (rs : FRandomStream),
    0 < s.Tiles.length → ∃ r, ApplyLocks.loop n s rs = some r := by
  intro n
  induction n with
  | zero =>
    intro s rs _
    exact ⟨(s, rs), by unfold ApplyLocks.loop; rfl⟩
  | succ n ih =>
    intro s rs hpos
    obtain ⟨t, ht⟩ := randomIndex_tile s.Tiles rs hpos
    unfold ApplyLocks.loop
    simp only [ht]
    split
    · exact ih _ _ hpos
    · exact ih _ _ (by simpa using hpos)

theorem scramble_loop_total : ∀ (n : Nat) (s : UCircuitPuzzle) (rs : FRandomStream),
    0 < s.Tiles.length → ∃ r, ScramblePuzzle.loop n s rs = some r := by
  intro n
  induction n with
  | zero =>
    intro s rs _
    exact ⟨(s, rs), by unfold ScramblePuzzle.loop; rfl⟩
  | succ n ih =>
    intro s rs hpos
    obtain ⟨t, ht⟩ := randomIndex_tile s.Tiles rs hpos
    unfold ScramblePuzzle.loop
    simp only [ht]
    split
    · exact ih _ _ hpos
    · split
      · exact ih _ _ hpos
      · exact ih _ _ (by simpa using hpos)

theorem applyLocks_total (s : UCircuitPuzzle) (rs : FRandomStream) :
    ∃ r, s.ApplyLocks rs = some r := by
  unfold ApplyLocks
  simp only
  rcases Nat.eq_zero_or_pos (min s.Config.LockCount (s.Tiles.length : Int)).toNat with h | h
  · rw [h]
    exact ⟨(s, rs), by unfold ApplyLocks.loop; rfl⟩
  · exact applyLocks_loop_total _ s rs (by omega)

theorem scramblePuzzle_total (s : UCircuitPuzzle) (rs : FRandomStream)
    (hpos : 0 < s.Tiles.length) : ∃ r, s.ScramblePuzzle rs = some r := by
  unfold ScramblePuzzle
  exact scramble_loop_total _ s rs hpos

theorem applyLocks_spec {s s' : UCircuitPuzzle} {rs rs' : FRandomStream}
    (h : s.ApplyLocks rs = some (s', rs')) :
    s'.Width = s.Width ∧ s'.Height = s.Height ∧ s'.Config = s.Config ∧
      s'.SolutionRotations = s.SolutionRotations ∧ TilesRel LockRel s.Tiles s'.Tiles := by
  unfold ApplyLocks at h
  exact applyLocks_loop_spec _ _ _ _ _ h

/-- From the placement of Source and Sink to the returned state every tile keeps its
locked flag, unless `ApplyLocks` sets it on a tile that is neither Source nor Sink. -/
theorem StartNewRun.sourceSink_unlocked {cfg : FCircuitPuzzleConfig} {src snk : Int}
    {s1 s2 s3 s4 s6 s : UCircuitPuzzle} (r : StartNewRun cfg src snk s1 s2 s3 s4 s6 s) :
    ∀ j t, tileAt s.Tiles j = some t →
      t.TileType = ECircuitTileType.Source ∨ t.TileType = ECircuitTileType.Sink →
      t.bLocked = false := by
  intro j t ht hk
  obtain ⟨t6, ht6, h6⟩ := r.powered.2.tilesRel.tileAt_back ht
  obtain ⟨t4, ht4, h4⟩ := r.locked.1.tileAt_back ht6
  obtain ⟨t3, ht3, h3⟩ := r.scrambled.1.tileAt_back ht4
  obtain ⟨P, _, hconv⟩ := r.path
  have h12 := convInv_genRel hconv
  have h23 : TilesRel GenRel s2.Tiles s3.Tiles := r.filled.2.1.mono fillRel_genRel
  obtain ⟨t1, ht1, h1⟩ := (TilesRel.comp genRel_trans h12 h23).tileAt_back ht3
  have hstart := r.start j t1 ht1
  have e1 : t1.bLocked = false := by rw [hstart]
  have e3 : t3.bLocked = false := by rw [h1.1, e1]
  have e4 : t4.bLocked = false := by rw [h3.2.1, e3]
  have k4 : t4.TileType = t.TileType := by rw [h6.1, h4.1]
  have e6 : t6.bLocked = false := by
    rw [h4.2.2.2.2 (by rw [k4]; exact hk), e4]
  rw [h6.2.2, e6]

theorem lockRel_sourceSink {t t' : FCircuitTile} (h : LockRel t t')
    (hk : t.TileType = ECircuitTileType.Source ∨ t.TileType = ECircuitTileType.Sink) :
    t' = t := by
  obtain ⟨a, b, c, _, d⟩ := h
  have e := d hk
  cases t
  cases t'
  simp only at a b c e
  subst a b c e
  rfl

/-! ## The log of `ScramblePuzzle` -/

theorem skips_iff_set {cfg : FCircuitPuzzleConfig} {l : List FCircuitTile} {k i : Int}
    {t x : FCircuitTile} (ht : tileAt l k = some t) (hx : x.TileType = t.TileType) :
    (∃ u, tileAt (l.set k.toNat x) i = some u ∧ ScrambleSkips cfg u) ↔
      ∃ u, tileAt l i = some u ∧ ScrambleSkips cfg u := by
  have hk0 := (tileAt_eq_some ht).1
  by_cases hik : i = k
  · subst hik
    rw [tileAt_set_self ht]
    constructor
    · rintro ⟨u, hu, hs⟩
      injection hu with hu
      subst hu
      refine ⟨t, ht, ?_⟩
      unfold ScrambleSkips at *
      rw [← hx]
      exact hs
    · rintro ⟨u, hu, hs⟩
      rw [ht] at hu
      injection hu with hu
      subst hu
      refine ⟨x, rfl, ?_⟩
      unfold ScrambleSkips at *
      rw [hx]
      exact hs
  · rw [tileAt_set_ne hk0 hik]

theorem scramble_loopLog_spec : ∀ (n : Nat) (s : UCircuitPuzzle) (rs : FRandomStream),
    0 < s.Tiles.length →
    ∃ s' rs' log, ScramblePuzzle.loopLog n s rs = some (s', rs', log) ∧
      ScramblePuzzle.loop n s rs = some (s', rs') ∧ ScrambleLog n s rs s' rs' log := by
  intro n
  induction n with
  | zero =>
    intro s rs _
    refine ⟨s, rs, [], rfl, rfl, rfl, rfl, ?_, rfl, rfl⟩
    intro op hop
    cases hop
  | succ n ih =>
    intro s rs hpos
    obtain ⟨t, ht⟩ := randomIndex_tile s.Tiles rs hpos
    have hidx := randRange_mem rs 0 ((s.Tiles.length : Int) - 1) (by omega)
    generalize hi : (rs.RandRange 0 ((s.Tiles.length : Int) - 1)).1 = idx at ht hidx
    have hrs1 : (rs.RandRange 0 ((s.Tiles.length : Int) - 1)).2.pos = rs.pos + 1 := rfl
    generalize hr1 : (rs.RandRange 0 ((s.Tiles.length : Int) - 1)).2 = rs1 at hrs1
    by_cases hskip : (t.TileType = ECircuitTileType.Source ∧ ¬ s.Config.bAllowRotateSource) ∨
        (t.TileType = ECircuitTileType.Sink ∧ ¬ s.Config.bAllowRotateSink)
    · obtain ⟨s', rs', log, h1, h2, l1, l2, l3, l4, l5⟩ := ih s rs1 hpos
      have e1 : ScramblePuzzle.loopLog (n + 1) s rs = some (s', rs', (idx, none) :: log) := by
        unfold ScramblePuzzle.loopLog
        simp only
        rw [hi, hr1, ht]
        simp only
        rcases hskip with hk | hk
        · rw [if_pos hk, h1]
          rfl
        · by_cases hsrc : t.TileType = ECircuitTileType.Source ∧ ¬ s.Config.bAllowRotateSource
          · rw [if_pos hsrc, h1]
            rfl
          · rw [if_neg hsrc, if_pos hk, h1]
            rfl
      have e2 : ScramblePuzzle.loop (n + 1) s rs = some (s', rs') := by
        unfold ScramblePuzzle.loop
        simp only
        rw [hi, hr1, ht]
        simp only
        rcases hskip with hk | hk
        · rw [if_pos hk, h2]
        · by_cases hsrc : t.TileType = ECircuitTileType.Source ∧ ¬ s.Config.bAllowRotateSource
          · rw [if_pos hsrc, h2]
          · rw [if_neg hsrc, if_pos hk, h2]
      refine ⟨s', rs', (idx, none) :: log, e1, e2, by simp [l1], ?_, ?_, ?_, ?_⟩
      · rw [l2]
        rfl
      · intro op hop
        rcases List.mem_cons.mp hop with rfl | hop
        · refine ⟨⟨hidx.1, by omega⟩, ?_, fun a ha => by cases ha⟩
          constructor
          · intro _
            refine ⟨t, ht, ?_⟩
            unfold ScrambleSkips
            rcases hskip with ⟨a, b⟩ | ⟨a, b⟩
            · exact Or.inl ⟨a, by simpa using b⟩
            · exact Or.inr ⟨a, by simpa using b⟩
          · intro _
            rfl
        · exact l3 op hop
      · simp only [List.countP_cons, Option.isSome_none, Bool.false_eq_true, if_false]
        omega
      · simp only [List.countP_cons, Option.isSome_none, Option.isNone_none, Bool.false_eq_true,
          if_false, if_true]
        omega
    · have hamt := randRange_mem rs1 1 3 (by decide)
      generalize ha : (rs1.RandRange 1 3).1 = amt at hamt
      have hrs2 : (rs1.RandRange 1 3).2.pos = rs1.pos + 1 := rfl
      generalize hr2 : (rs1.RandRange 1 3).2 = rs2 at hrs2
      have hlen1 : 0 < (UCircuitPuzzle.mk s.Width s.Height s.Config
          (s.Tiles.set idx.toNat
            (FCircuitTile.mk t.TileType ((t.RotationSteps + amt).tmod 4) t.bLocked t.bPowered))
          s.SolutionRotations).Tiles.length := by
        simpa using hpos
      obtain ⟨s', rs', log, h1, h2, l1, l2, l3, l4, l5⟩ := ih _ rs2 hlen1
      push_neg at hskip
      have n1 : ¬ (t.TileType = ECircuitTileType.Source ∧ ¬ s.Config.bAllowRotateSource) :=
        fun h => h.2 (hskip.1 h.1)
      have n2 : ¬ (t.TileType = ECircuitTileType.Sink ∧ ¬ s.Config.bAllowRotateSink) :=
        fun h => h.2 (hskip.2 h.1)
      have e1 : ScramblePuzzle.loopLog (n + 1) s rs = some (s', rs', (idx, some amt) :: log) := by
        unfold ScramblePuzzle.loopLog
        simp only
        rw [hi, hr1, ht]
        simp only
        rw [if_neg n1, if_neg n2, ha, hr2, h1]
        rfl
      have e2 : ScramblePuzzle.loop (n + 1) s rs = some (s', rs') := by
        unfold ScramblePuzzle.loop
        simp only
        rw [hi, hr1, ht]
        simp only
        rw [if_neg n1, if_neg n2, ha, hr2, h2]
      refine ⟨s', rs', (idx, some amt) :: log, e1, e2, by simp [l1], ?_, ?_, ?_, ?_⟩
      · rw [l2]
        simp only [List.foldl_cons]
        congr 1
        unfold scrambleOp
        simp only
        rw [ht]
      · intro op hop
        rcases List.mem_cons.mp hop with rfl | hop
        · refine ⟨⟨hidx.1, by omega⟩, ?_, ?_⟩
          · constructor
            · intro h
              cases h
            · rintro ⟨u, hu, hs⟩
              exfalso
              simp only at hu
              rw [ht] at hu
              injection hu with hu
              subst hu
              rcases hs with ⟨a, b⟩ | ⟨a, b⟩
              · have := hskip.1 a
                rw [b] at this
                cases this
              · have := hskip.2 a
                rw [b] at this
                cases this
          · intro a hae
            injection hae with hae
            subst hae
            exact hamt
        · obtain ⟨r1, r2, r3⟩ := l3 op hop
          refine ⟨by simpa using r1, ?_, r3⟩
          rw [r2]
          exact skips_iff_set ht rfl
      · simp only [List.countP_cons, Option.isSome_some, if_true]
        omega
      · simp only [List.countP_cons, Option.isSome_some, Option.isNone_some, Bool.false_eq_true,
          if_false, if_true]
        omega

/-! ## The 3 x 1 row with a Straight tile between Source and Sink -/

theorem tmod_two_eq_zero_iff (r : Int) : r.tmod 2 = 0 ↔ r % 2 = 0 := by
  constructor
  · intro h
    exact Int.emod_eq_zero_of_dvd (Int.dvd_of_tmod_eq_zero h)
  · intro h
    exact Int.tmod_eq_zero_of_dvd (Int.dvd_of_emod_eq_zero h)

theorem straightRow_even (r : Int) (p0 p1 p2 : Bool) (h : r.tmod 2 = 0) :
    (straightRow r p0 p1 p2).RecomputePower = some (straightRow r true false false) := by
  have a1 : Int.tmod 1 4 = 1 := rfl
  have a3 : Int.tmod 3 4 = 3 := rfl
  have a0 : Int.tmod 0 3 = 0 := rfl
  have b0 : Int.tdiv 0 3 = 0 := rfl
  simp [straightRow, RecomputePower, RecomputePower.reset, RecomputePower.findSource, modifyTile,
    tileAt, RecomputePower.loop, GetTileConnections, tileConnections, castDir,
    RecomputePower.visit, GetNeighborIndex, GetOppositeDirection, h, List.foldlM, a1, a3, a0, b0]

theorem straightRow_odd (r : Int) (p0 p1 p2 : Bool) (h : ¬ r.tmod 2 = 0) :
    (straightRow r p0 p1 p2).RecomputePower = some (straightRow r true true true) := by
  have a1 : Int.tmod 1 4 = 1 := rfl
  have a3 : Int.tmod 3 4 = 3 := rfl
  have a0 : Int.tmod 0 3 = 0 := rfl
  have b0 : Int.tdiv 0 3 = 0 := rfl
  have c1 : Int.tmod 1 3 = 1 := rfl
  have d1 : Int.tdiv 1 3 = 0 := rfl
  have c2 : Int.tmod 2 3 = 2 := rfl
  have d2 : Int.tdiv 2 3 = 0 := rfl
  simp [straightRow, RecomputePower, RecomputePower.reset, RecomputePower.findSource, modifyTile,
    tileAt, RecomputePower.loop, GetTileConnections, tileConnections, castDir,
    RecomputePower.visit, GetNeighborIndex, GetOppositeDirection, h, List.foldlM, a1, a3, a0, b0,
    c1, d1, c2, d2]

/-! ## The solved test in reachable states -/

/-- In a state whose powered flags `RecomputePower` reproduces, `IsSolved()` tells whether
a Sink is connected to the first Source. -/
theorem isSolved_iff_connected {s : UCircuitPuzzle} (h : ReachInv s) :
    s.IsSolved = true ↔
      ∃ src snk t, FirstSource s src ∧ tileAt s.Tiles snk = some t ∧
        t.TileType = ECircuitTileType.Sink ∧ Reach s src snk := by
  obtain ⟨hs, _, hfix⟩ := h
  obtain ⟨s', hs', _, hpow⟩ := recomputePower_spec s (neighborsInRange_of_gridShaped hs)
  rw [hfix] at hs'
  injection hs' with hs'
  subst hs'
  rw [isSolved_iff]
  constructor
  · rintro ⟨i, t, ht, hk, hp⟩
    obtain ⟨hne, hr⟩ := (hpow i).1 ⟨t, ht, hp⟩
    exact ⟨_, i, t, (firstSource_iff s _).2 ⟨hne, rfl⟩, ht, hk, hr⟩
  · rintro ⟨src, snk, t, hsrc, ht, hk, hr⟩
    obtain ⟨hne, e⟩ := (firstSource_iff s src).1 hsrc
    obtain ⟨t', ht', hp⟩ := (hpow snk).2 ⟨hne, by rw [e]; exact hr⟩
    rw [ht] at ht'
    injection ht' with ht'
    subst ht'
    exact ⟨snk, t, ht, hk, hp⟩

theorem rotateTile_total {s : UCircuitPuzzle} (hs : GridShaped s) (i : Int) :
    ∃ out, s.RotateTile i = some out ∧ (out.Returned = false → out.State = s) := by
  by_cases href : RotateRefused s i
  · exact ⟨_, rotateTile_refused href, fun _ => rfl⟩
  · obtain ⟨t, p, _, _, _, e⟩ := rotateTile_accepted_some hs href
    exact ⟨_, e, fun hf => by cases hf⟩

/-! ## The draws of `ApplyLocks` -/

theorem countP_set_le {α : Type} (p : α → Bool) :
    ∀ (l : List α) (n : Nat) (x : α), (l.set n x).countP p ≤ l.countP p + 1 := by
  intro l
  induction l with
  | nil => intro n x; simp
  | cons a l ih =>
    intro n x
    cases n with
    | zero =>
      simp only [List.set_cons_zero, List.countP_cons]
      split <;> split <;> omega
    | succ n =>
      simp only [List.set_cons_succ, List.countP_cons]
      have := ih n x
      omega

theorem drawnIndex_zero (rs : FRandomStream) (len : Nat) :
    drawnIndex rs len 0 = (rs.RandRange 0 ((len : Int) - 1)).1 := rfl

theorem drawnIndex_succ (rs : FRandomStream) (a b : Int) (len k : Nat) :
    drawnIndex (rs.RandRange a b).2 len k = drawnIndex rs len (k + 1) := by
  unfold drawnIndex FRandomStream.RandRange
  simp only
  have e : rs.pos + 1 + k = rs.pos + (k + 1) := by omega
  rw [e]

/-- What a run of the loop of `ApplyLocks` with `n` iterations does: `n` draws are
consumed, the array keeps its length, every tile keeps kind, rotation and powered flag,
a tile is locked afterwards exactly when it was locked before or its index was drawn and
it is neither Source nor Sink, and at most `n` more tiles are locked. -/
theorem applyLocks_loop_draws : ∀ (n : Nat) (s : UCircuitPuzzle) (rs : FRandomStream),
    0 < s.Tiles.length →
    ∃ s' rs', ApplyLocks.loop n s rs = some (s', rs') ∧
      rs' = FRandomStream.mk rs.draws (rs.pos + n) ∧
      s'.Tiles.length = s.Tiles.length ∧
      (∀ j t, tileAt s.Tiles j = some t → ∃ t', tileAt s'.Tiles j = some t' ∧
        t'.TileType = t.TileType ∧ t'.RotationSteps = t.RotationSteps ∧
        t'.bPowered = t.bPowered ∧
        (t'.bLocked = true ↔ t.bLocked = true ∨
          ((∃ k, k < n ∧ drawnIndex rs s.Tiles.length k = j) ∧
            t.TileType ≠ ECircuitTileType.Source ∧ t.TileType ≠ ECircuitTileType.Sink))) ∧
      lockedCount s'.Tiles ≤ lockedCount s.Tiles + n := by
  intro n
  induction n with
  | zero =>
    intro s rs _
    refine ⟨s, rs, rfl, rfl, rfl, ?_, by omega⟩
    intro j t ht
    refine ⟨t, ht, rfl, rfl, rfl, ?_⟩
    constructor
    · intro h; exact Or.inl h
    · rintro (h | ⟨⟨k, hk, _⟩, _⟩)
      · exact h
      · omega
  | succ n ih =>
    intro s rs hpos
    obtain ⟨t0, ht0⟩ := randomIndex_tile s.Tiles rs hpos
    have hd0 := drawnIndex_zero rs s.Tiles.length
    have hsucc : ∀ k, drawnIndex (rs.RandRange 0 ((s.Tiles.length : Int) - 1)).2 s.Tiles.length k
        = drawnIndex rs s.Tiles.length (k + 1) := fun k => drawnIndex_succ rs _ _ _ k
    have hrs1 : (rs.RandRange 0 ((s.Tiles.length : Int) - 1)).2
        = FRandomStream.mk rs.draws (rs.pos + 1) := rfl
    generalize hi : (rs.RandRange 0 ((s.Tiles.length : Int) - 1)).1 = idx at ht0 hd0
    generalize hr1 : (rs.RandRange 0 ((s.Tiles.length : Int) - 1)).2 = rs1 at hsucc hrs1
    have hi0 := (tileAt_eq_some ht0).1
    by_cases hss : t0.TileType = ECircuitTileType.Source ∨ t0.TileType = ECircuitTileType.Sink
    · obtain ⟨s', rs', h1, h2, h3, h4, h5⟩ := ih s rs1 hpos
      refine ⟨s', rs', ?_, ?_, h3, ?_, by omega⟩
      · unfold ApplyLocks.loop
        simp only
        rw [hi, hr1, ht0]
        simp only
        rw [if_pos hss, h1]
      · rw [h2, hrs1]
        simp only
        congr 1
        omega
      · intro j t ht
        obtain ⟨t', ht', e1, e2, e3, e4⟩ := h4 j t ht
        refine ⟨t', ht', e1, e2, e3, ?_⟩
        rw [e4]
        constructor
        · rintro (h | ⟨⟨k, hk, hkj⟩, hn⟩)
          · exact Or.inl h
          · exact Or.inr ⟨⟨k + 1, by omega, by rw [← hsucc]; exact hkj⟩, hn⟩
        · rintro (h | ⟨⟨k, hk, hkj⟩, hn⟩)
          · exact Or.inl h
          · cases k with
            | zero =>
              exfalso
              rw [hd0] at hkj
              subst hkj
              rw [ht0] at ht
              injection ht with ht
              subst ht
              rcases hss with h | h
              · exact hn.1 h
              · exact hn.2 h
            | succ k =>
              exact Or.inr ⟨⟨k, by omega, by rw [hsucc]; exact hkj⟩, hn⟩
    · have hlen1 : 0 < (UCircuitPuzzle.mk s.Width s.Height s.Config
          (s.Tiles.set idx.toNat
            (FCircuitTile.mk t0.TileType t0.RotationSteps true t0.bPowered))
          s.SolutionRotations).Tiles.length := by
        simpa using hpos
      obtain ⟨s', rs', h1, h2, h3, h4, h5⟩ := ih _ rs1 hlen1
      simp only [List.length_set] at h3 h4
      push_neg at hss
      refine ⟨s', rs', ?_, ?_, h3, ?_, ?_⟩
      · unfold ApplyLocks.loop
        simp only
        rw [hi, hr1, ht0]
        simp only
        rw [if_neg (by push_neg; exact hss), h1]
      · rw [h2, hrs1]
        simp only
        congr 1
        omega
      · intro j t ht
        by_cases hj : j = idx
        · subst hj
          rw [ht0] at ht
          injection ht with ht
          subst ht
          obtain ⟨t', ht', e1, e2, e3, e4⟩ := h4 j _ (tileAt_set_self ht0)
          refine ⟨t', ht', e1, e2, e3, ?_⟩
          rw [e4]
          constructor
          · intro _
            exact Or.inr ⟨⟨0, by omega, hd0⟩, hss⟩
          · intro _
            exact Or.inl rfl
        · obtain ⟨t', ht', e1, e2, e3, e4⟩ := h4 j t
            (by rw [tileAt_set_ne hi0 hj]; exact ht)
          refine ⟨t', ht', e1, e2, e3, ?_⟩
          rw [e4]
          constructor
          · rintro (h | ⟨⟨k, hk, hkj⟩, hn⟩)
            · exact Or.inl h
            · exact Or.inr ⟨⟨k + 1, by omega, by rw [← hsucc]; exact hkj⟩, hn⟩
          · rintro (h | ⟨⟨k, hk, hkj⟩, hn⟩)
            · exact Or.inl h
            · cases k with
              | zero =>
                exfalso
                rw [hd0] at hkj
                exact hj hkj.symm
              | succ k =>
                exact Or.inr ⟨⟨k, by omega, by rw [hsucc]; exact hkj⟩, hn⟩
      · have := countP_set_le (fun t : FCircuitTile => t.bLocked) s.Tiles idx.toNat
          (FCircuitTile.mk t0.TileType t0.RotationSteps true t0.bPowered)
        unfold lockedCount at h5 ⊢
        simp only at h5
        omega

theorem applyLocks_draws (s : UCircuitPuzzle) (rs : FRandomStream) :
    ∃ s' rs', s.ApplyLocks rs = some (s', rs') ∧
      rs' = FRandomStream.mk rs.draws
        (rs.pos + (min s.Config.LockCount (s.Tiles.length : Int)).toNat) ∧
      s'.Tiles.length = s.Tiles.length ∧
      (∀ j t, tileAt s.Tiles j = some t → ∃ t', tileAt s'.Tiles j = some t' ∧
        t'.TileType = t.TileType ∧ t'.RotationSteps = t.RotationSteps ∧
        t'.bPowered = t.bPowered ∧
        (t'.bLocked = true ↔ t.bLocked = true ∨
          ((∃ k, k < (min s.Config.LockCount (s.Tiles.length : Int)).toNat ∧
              drawnIndex rs s.Tiles.length k = j) ∧
            t.TileType ≠ ECircuitTileType.Source ∧ t.TileType ≠ ECircuitTileType.Sink))) ∧
      lockedCount s'.Tiles ≤
        lockedCount s.Tiles + (min s.Config.LockCount (s.Tiles.length : Int)).toNat := by
  unfold ApplyLocks
  simp only
  rcases Nat.eq_zero_or_pos (min s.Config.LockCount (s.Tiles.length : Int)).toNat with h | h
  · rw [h]
    refine ⟨s, rs, rfl, rfl, rfl, ?_, by omega⟩
    intro j t ht
    refine ⟨t, ht, rfl, rfl, rfl, ?_⟩
    constructor
    · intro h; exact Or.inl h
    · rintro (h | ⟨⟨k, hk, _⟩, _⟩)
      · exact h
      · omega
  · exact applyLocks_loop_draws _ s rs (by omega)

theorem lockedCount_tilesRel {R : FCircuitTile → FCircuitTile → Prop}
    (hR : ∀ x y, R x y → y.bLocked = x.bLocked) :
    ∀ (a b : List FCircuitTile), TilesRel R a b → lockedCount b = lockedCount a := by
  intro a
  induction a with
  | nil =>
    intro b h
    have : b = [] := List.length_eq_zero.mp h.1.symm
    rw [this]
  | cons x a ih =>
    intro b h
    cases b with
    | nil => cases h.1
    | cons y b =>
      have hxy : R x y := h.2 0 x y (by simp) (by simp)
      have htail : TilesRel R a b := by
        refine ⟨by simpa using h.1, ?_⟩
        intro n ta tb ha hb
        exact h.2 (n + 1) ta tb (by simpa using ha) (by simpa using hb)
      have := ih b htail
      unfold lockedCount at *
      rw [List.countP_cons, List.countP_cons, this, hR x y hxy]

theorem StartNewRun.lockedBound {cfg : FCircuitPuzzleConfig} {src snk : Int}
    {s1 s2 s3 s4 s6 s : UCircuitPuzzle} (r : StartNewRun cfg src snk s1 s2 s3 s4 s6 s) :
    lockedCount s.Tiles ≤ (min cfg.LockCount (cfg.Width * cfg.Height)).toNat := by
  obtain ⟨P, _, hconv⟩ := r.path
  have h12 := convInv_genRel hconv
  have h23 : TilesRel GenRel s2.Tiles s3.Tiles := r.filled.2.1.mono fillRel_genRel
  have c12 := lockedCount_tilesRel (fun x y (h : GenRel x y) => h.1) _ _ h12
  have c23 := lockedCount_tilesRel (fun x y (h : GenRel x y) => h.1) _ _ h23
  have c34 := lockedCount_tilesRel (fun x y (h : ScrambleRel cfg x y) => h.2.1) _ _ r.scrambled.1
  have c6 := lockedCount_tilesRel
    (fun x y (h : y.TileType = x.TileType ∧ y.RotationSteps = x.RotationSteps ∧
      y.bLocked = x.bLocked) => h.2.2) _ _ r.powered.2.tilesRel
  have c1 : lockedCount s1.Tiles = 0 := by
    unfold lockedCount
    rw [List.countP_eq_zero]
    intro t ht
    obtain ⟨n, hn, hg⟩ := List.getElem_of_mem ht
    have hta : tileAt s1.Tiles (n : Int) = some t := by
      rw [tileAt_natCast, List.getElem?_eq_getElem hn, hg]
    have := r.start _ _ hta
    rw [this]
    simp
  obtain ⟨rs4, rs6, hlock⟩ := r.lockRun
  obtain ⟨s', rs', e, _, _, _, hcount⟩ := applyLocks_draws s4 rs4
  rw [hlock] at e
  injection e with e
  injection e with e1 e2
  subst e1
  have hcfg : s4.Config = cfg := r.framed4.2.2.1
  have hlen : (s4.Tiles.length : Int) = cfg.Width * cfg.Height := by
    have := r.framed4.2.2.2
    unfold GridShaped at this
    rw [this, r.framed4.1, r.framed4.2.1]
  rw [hcfg, hlen] at hcount
  omega

/-! ## Steps of the walk join adjacent cells -/

theorem areAdjacent_of_coords (s : UCircuitPuzzle) (a b : Int)
    (h : (a.tmod s.Width - b.tmod s.Width).natAbs + (a.tdiv s.Width - b.tdiv s.Width).natAbs = 1) :
    s.AreAdjacent a b = true := by
  unfold AreAdjacent
  simp only
  generalize (a.tmod s.Width - b.tmod s.Width).natAbs = dx at h
  generalize (a.tdiv s.Width - b.tdiv s.Width).natAbs = dy at h
  have : (dx = 1 ∧ dy = 0) ∨ (dx = 0 ∧ dy = 1) := by omega
  rcases this with ⟨e1, e2⟩ | ⟨e1, e2⟩
  · subst e1 e2; rfl
  · subst e1 e2; rfl

theorem gni_adjacent (s : UCircuitPuzzle) (hs : GridShaped s) (c : Int) (hc0 : 0 ≤ c)
    (hc1 : c < s.Tiles.length) (d : ECircuitDir) (hne : s.GetNeighborIndex c d ≠ -1) :
    s.AreAdjacent c (s.GetNeighborIndex c d) = true := by
  unfold GridShaped at hs
  rw [hs] at hc1
  obtain ⟨⟨x0, hcell⟩, hc⟩ := grid_coords s.Width s.Height c hc0 hc1
  apply areAdjacent_of_coords
  generalize hX : c.tmod s.Width = X at *
  generalize hY : c.tdiv s.Width = Y at *
  have hgni : ∀ q r, CellOK s.Width s.Height q r →
      0 ≤ q * s.Width + r ∧ q * s.Width + r < s.Width * s.Height ∧
      (q * s.Width + r).tmod s.Width = r ∧ (q * s.Width + r).tdiv s.Width = q :=
    fun q r h => grid_cell _ _ q r h
  match d with
  | 0 =>
    have e0 : s.GetNeighborIndex c 0 = if Y > 0 then (Y - 1) * s.Width + X else -1 := by
      simp only [GetNeighborIndex, hX, hY]
    rw [e0] at hne ⊢
    by_cases hg : Y > 0
    · rw [if_pos hg]
      have hok : CellOK s.Width s.Height (Y - 1) X := ⟨x0, by omega⟩
      obtain ⟨n0, n1, nx, ny⟩ := hgni _ _ hok
      rw [nx, ny]
      omega
    · rw [if_neg hg] at hne; exact absurd rfl hne
  | 1 =>
    have e0 : s.GetNeighborIndex c 1 =
        if X < s.Width - 1 then Y * s.Width + (X + 1) else -1 := by
      simp only [GetNeighborIndex, hX, hY]
    rw [e0] at hne ⊢
    by_cases hg : X < s.Width - 1
    · rw [if_pos hg]
      have hok : CellOK s.Width s.Height Y (X + 1) := ⟨by omega, by omega⟩
      obtain ⟨n0, n1, nx, ny⟩ := hgni _ _ hok
      rw [nx, ny]
      omega
    · rw [if_neg hg] at hne; exact absurd rfl hne
  | 2 =>
    have e0 : s.GetNeighborIndex c 2 =
        if Y < s.Height - 1 then (Y + 1) * s.Width + X else -1 := by
      simp only [GetNeighborIndex, hX, hY]
    rw [e0] at hne ⊢
    by_cases hg : Y < s.Height - 1
    · rw [if_pos hg]
      have hok : CellOK s.Width s.Height (Y + 1) X := ⟨x0, by omega⟩
      obtain ⟨n0, n1, nx, ny⟩ := hgni _ _ hok
      rw [nx, ny]
      omega
    · rw [if_neg hg] at hne; exact absurd rfl hne
  | 3 =>
    have e0 : s.GetNeighborIndex c 3 = if X > 0 then Y * s.Width + (X - 1) else -1 := by
      simp only [GetNeighborIndex, hX, hY]
    rw [e0] at hne ⊢
    by_cases hg : X > 0
    · rw [if_pos hg]
      have hok : CellOK s.Width s.Height Y (X - 1) := ⟨by omega, by omega⟩
      obtain ⟨n0, n1, nx, ny⟩ := hgni _ _ hok
      rw [nx, ny]
      omega
    · rw [if_neg hg] at hne; exact absurd rfl hne
  | n + 4 =>
    exact absurd (by simp [GetNeighborIndex]) hne

theorem step_adjacent {s : UCircuitPuzzle} (hs : GridShaped s) {a b : Int} (ha0 : 0 ≤ a)
    (ha1 : a < s.Tiles.length) (h : Step s a b) : s.AreAdjacent a b = true := by
  obtain ⟨d, hg, hne⟩ := h
  have := gni_adjacent s hs a ha0 ha1 d (by rw [hg]; exact hne)
  rw [hg] at this
  exact this

/-! ## `StartNew` returns once its two unbounded loops have exited -/

theorem generateSolutionPath_total {s1 : UCircuitPuzzle} (hs : GridShaped s1) {src snk : Int}
    (h0 : 0 ≤ src) (h1 : src < s1.Tiles.length) (hne : src ≠ snk)
    (hlay : OnlySourceSink s1 src snk) {rs rs1 : FRandomStream} {fuel : Nat} {P : List Int}
    (hwalk : GenerateSolutionPath.walk s1 src snk fuel [src] src rs = some (P, rs1)) :
    ∃ s2, s1.GenerateSolutionPath src snk rs fuel = some (s2, rs1) ∧
      ConvInv s1 P P.length s2 := by
  have hP := walk_spec hs h0 h1 fuel [src] src rs P rs1 (pathInv_single h0 h1) hwalk
  have hlen := pathInv_length hP hne
  have hfirst : intAt P 0 = some src := by
    have := intAt_natCast P 0
    simp only [Nat.cast_zero] at this
    rw [this]
    exact hP.1
  have hlast : intAt P ((P.length : Int) - 1) = some snk := by
    have e : (P.length : Int) - 1 = ((P.length - 1 : Nat) : Int) := by omega
    rw [e, intAt_natCast]
    exact hP.2.1
  have hclean : GenerateSolutionPath.clean P [] = P := by
    rw [clean_of_nodup P [] (by simpa using hP.2.2.1)]
    simp
  obtain ⟨s, hfold, hinv⟩ := convert_fold hP hne hlay P.length (le_refl _)
  refine ⟨s, ?_, hinv⟩
  unfold GenerateSolutionPath
  rw [hwalk]
  simp only
  rw [if_neg (by omega), hfirst, hlast]
  simp only [ne_eq, not_true_eq_false, if_false]
  rw [hclean, hfold]

theorem startNew_of_walkLoop (prior : UCircuitPuzzle) (cfg : FCircuitPuzzleConfig)
    (rs : FRandomStream) (fuel : Nat) (r : List Int × FRandomStream)
    (h : StartNew.walkLoop cfg rs fuel = some r) : ∃ s, prior.StartNew cfg rs fuel = some s := by
  unfold StartNew.walkLoop at h
  unfold StartNew
  simp only at h ⊢
  split at h
  · cases h
  · rename_i hcount
    rw [if_neg hcount]
    split at h
    · cases h
    · rename_i snk rs1 hplace
      split at h
      · cases h
      · rename_i T1 hT1
        split at h
        · cases h
        · rename_i T2 hT2
          obtain ⟨P, rs2⟩ := r
          generalize hsrc : (rs.RandRange 0 (cfg.Width * cfg.Height - 1)).1 = src at *
          obtain ⟨hne, hadj⟩ := placeSink_spec _ _ _ _ _ _ _ _ hplace
          obtain ⟨hsr, hkr, hlen2, hstart⟩ := startTiles_spec hne hT1 hT2
          have hN : ((cfg.Width * cfg.Height).toNat : Int) = cfg.Width * cfg.Height := by
            omega
          have hf1 : Framed cfg (UCircuitPuzzle.mk cfg.Width cfg.Height cfg T2
              (List.replicate (cfg.Width * cfg.Height).toNat 0)) := by
            refine ⟨rfl, rfl, rfl, ?_⟩
            unfold GridShaped
            simp only
            rw [hlen2, hN]
          have hlay : OnlySourceSink (UCircuitPuzzle.mk cfg.Width cfg.Height cfg T2
              (List.replicate (cfg.Width * cfg.Height).toNat 0)) src snk := by
            intro j t ht
            have := hstart j t ht
            subst this
            refine ⟨fun e => by simp [e], fun e => ?_, fun e1 e2 => by simp [e1, e2]⟩
            subst e
            simp [hne]
          obtain ⟨s2, hgen, _⟩ := generateSolutionPath_total hf1.2.2.2 hsr.1
            (by simp only; rw [hlen2]; exact hsr.2) (Ne.symm hne) hlay h
          obtain ⟨P', _, hconv⟩ := generateSolutionPath_spec hf1.2.2.2 hsr.1
            (by simp only; rw [hlen2]; exact hsr.2) (Ne.symm hne) hlay hgen
          obtain ⟨⟨c1, c2, c3, c4, c5⟩, _, _⟩ := hconv
          have hf2 : Framed cfg s2 := framed_of_length hf1 c1 c2 c3 c5
          have hsl2 : s2.SolutionRotations.length = s2.Tiles.length := by
            rw [c4, c5]
            simp only [List.length_replicate]
            exact hlen2.symm
          have hNs2 : (cfg.Width * cfg.Height).toNat = s2.Tiles.length := by
            rw [c5]; exact hlen2.symm
          obtain ⟨s3, rs3, hfill, hfinv⟩ := fill_fold hsl2 rs2 s2.Tiles.length (le_refl _)
          obtain ⟨⟨d1, d2, d3, d4⟩, drel, _, _⟩ := hfinv
          have hf3 : Framed cfg s3 := framed_of_length hf2 d1 d2 d3 drel.1.symm
          have hpos3 : 0 < s3.Tiles.length := by
            rw [← drel.1, c5]
            simp only
            rw [hlen2]
            omega
          obtain ⟨⟨s4, rs4⟩, hscr⟩ := scramblePuzzle_total s3 rs3 hpos3
          have hscr' := scramble_loop_spec _ _ _ _ _ hscr
          obtain ⟨g1, g2, g3, g4, g5⟩ := hscr'
          have hf4 : Framed cfg s4 := framed_of_length hf3 g1 g2 g3 g5.1.symm
          obtain ⟨⟨s6, rs6⟩, hlock⟩ := applyLocks_total s4 rs4
          obtain ⟨k1, k2, k3, k4, k5⟩ := applyLocks_spec hlock
          have hf6 : Framed cfg s6 := framed_of_length hf4 k1 k2 k3 k5.1.symm
          obtain ⟨s', hs', _, _⟩ := recomputePower_spec s6
            (neighborsInRange_of_gridShaped hf6.2.2.2)
          refine ⟨s', ?_⟩
          rw [hgen]
          simp only
          rw [hNs2, hfill]
          simp only
          rw [hscr]
          simp only
          rw [hlock]
          exact hs'

theorem walkLoop_of_startNew (prior : UCircuitPuzzle) (cfg : FCircuitPuzzleConfig)
    (rs : FRandomStream) (fuel : Nat) (s : UCircuitPuzzle)
    (h : prior.StartNew cfg rs fuel = some s) : ∃ r, StartNew.walkLoop cfg rs fuel = some r := by
  unfold StartNew at h
  unfold StartNew.walkLoop
  simp only at h ⊢
  split at h
  · cases h
  · rename_i hcount
    rw [if_neg hcount]
    split at h
    · cases h
    · split at h
      · cases h
      · split at h
        · cases h
        · split at h
          · cases h
          · rename_i s2 rs2 hgen
            unfold GenerateSolutionPath at hgen
            split at hgen
            · cases hgen
            · rename_i P rs1 hwalk
              exact ⟨_, hwalk⟩

/-- With draws that are all zero the redrawn sink index always equals a source index 0, so
the sink-placement loop does not exit, whatever the budget. -/
theorem placeSink_zero_stream (s : UCircuitPuzzle) (n : Int) (hn : 0 < n) :
    ∀ (fuel : Nat) (rs : FRandomStream), (∀ k, rs.draws k = 0) →
      StartNew.placeSink s 0 n fuel 0 rs = none := by
  intro fuel
  induction fuel with
  | zero =>
    intro rs _
    unfold StartNew.placeSink
    rw [if_pos (Or.inl rfl)]
  | succ fuel ih =>
    intro rs hz
    unfold StartNew.placeSink
    rw [if_pos (Or.inl rfl)]
    simp only
    have e : (rs.RandRange 0 (n - 1)).1 = 0 := by
      unfold FRandomStream.RandRange
      simp only
      rw [if_pos (by omega), hz]
      simp
    rw [e]
    exact ih (rs.RandRange 0 (n - 1)).2 (fun k => hz k)

/-! ## A larger iteration budget does not change a result -/

theorem placeSink_mono (s : UCircuitPuzzle) (src n : Int) (k : Nat) :
    ∀ (fuel : Nat) (snk : Int) (rs : FRandomStream) (r : Int × FRandomStream),
      StartNew.placeSink s src n fuel snk rs = some r →
      StartNew.placeSink s src n (fuel + k) snk rs = some r := by
  intro fuel
  induction fuel with
  | zero =>
    intro snk rs r h
    unfold StartNew.placeSink at h ⊢
    split at h
    · cases h
    · rename_i hc
      rw [if_neg hc]
      exact h
  | succ fuel ih =>
    intro snk rs r h
    have e : fuel + 1 + k = (fuel + k) + 1 := by omega
    rw [e]
    unfold StartNew.placeSink at h ⊢
    split at h
    · rename_i hc
      rw [if_pos hc]
      exact ih _ _ _ h
    · rename_i hc
      rw [if_neg hc]
      exact h

theorem walk_mono (s : UCircuitPuzzle) (src snk : Int) (k : Nat) :
    ∀ (fuel : Nat) (P : List Int) (cur : Int) (rs : FRandomStream)
      (r : List Int × FRandomStream),
      GenerateSolutionPath.walk s src snk fuel P cur rs = some r →
      GenerateSolutionPath.walk s src snk (fuel + k) P cur rs = some r := by
  intro fuel
  induction fuel with
  | zero =>
    intro P cur rs r h
    unfold GenerateSolutionPath.walk at h ⊢
    split at h
    · rename_i hc
      rw [if_pos hc]
      exact h
    · cases h
  | succ fuel ih =>
    intro P cur rs r h
    have e : fuel + 1 + k = (fuel + k) + 1 := by omega
    rw [e]
    unfold GenerateSolutionPath.walk at h ⊢
    split at h
    · rename_i hc
      rw [if_pos hc]
      exact h
    · rename_i hc
      rw [if_neg hc]
      simp only at h ⊢
      split at h
      · rename_i hN
        rw [if_pos hN]
        split at h
        · rename_i hlen
          rw [if_pos hlen]
          split at h
          · cases h
          · rename_i last hlast
            exact ih _ _ _ _ h
        · rename_i hlen
          rw [if_neg hlen]
          exact ih _ _ _ _ h
      · rename_i hN
        rw [if_neg hN]
        split at h
        · cases h
        · rename_i nxt rs1 hch
          exact ih _ _ _ _ h

theorem generateSolutionPath_mono (s : UCircuitPuzzle) (src snk : Int) (rs : FRandomStream)
    (fuel k : Nat) (r : UCircuitPuzzle × FRandomStream)
    (h : s.GenerateSolutionPath src snk rs fuel = some r) :
    s.GenerateSolutionPath src snk rs (fuel + k) = some r := by
  unfold GenerateSolutionPath at h ⊢
  split at h
  · cases h
  · rename_i P rs1 hwalk
    rw [walk_mono s src snk k fuel _ _ _ _ hwalk]
    exact h

theorem startNew_mono (prior : UCircuitPuzzle) (cfg : FCircuitPuzzleConfig)
    (rs : FRandomStream) (fuel k : Nat) (s : UCircuitPuzzle)
    (h : prior.StartNew cfg rs fuel = some s) : prior.StartNew cfg rs (fuel + k) = some s := by
  unfold StartNew at h ⊢
  simp only at h ⊢
  split at h
  · cases h
  · rename_i hneg
    rw [if_neg hneg]
    split at h
    · cases h
    · rename_i snk rs1 hps
      rw [placeSink_mono _ _ _ k _ _ _ _ hps]
      simp only
      split at h
      · cases h
      · rename_i T1 hT1
        split at h
        · cases h
        · rename_i T2 hT2
          split at h
          · cases h
          · rename_i s2 rs2 hgen
            rw [generateSolutionPath_mono _ _ _ _ _ k _ hgen]
            exact h

theorem startNew_prior (p1 p2 : UCircuitPuzzle) (cfg : FCircuitPuzzleConfig)
    (rs : FRandomStream) (fuel : Nat) : p1.StartNew cfg rs fuel = p2.StartNew cfg rs fuel :=
  rfl

/-! ## A walk that does not reach the sink -/

/-- One iteration of the walk at a tile that is not the sink and has an unvisited
neighbour: the chosen tile is appended to `Path` and becomes the current tile. -/
theorem walk_step_choose (s : UCircuitPuzzle) (src snk : Int) (f : Nat) (P : List Int)
    (cur : Int) (rs rs' : FRandomStream) (n : Int) (hc : cur ≠ snk)
    (hN : (s.GetUnvisitedNeighbors cur P).length ≠ 0)
    (hch : s.ChooseNextTile cur snk (s.GetUnvisitedNeighbors cur P) rs = some (n, rs')) :
    GenerateSolutionPath.walk s src snk (f + 1) P cur rs =
      GenerateSolutionPath.walk s src snk f (P ++ [n]) n rs' := by
  rw [GenerateSolutionPath.walk]
  rw [if_neg hc]
  simp only
  rw [if_neg hN, hch]

/-- One iteration of the walk at a dead end with more than one tile on `Path`: the last
tile is popped and the new last tile becomes the current tile. -/
theorem walk_step_back (s : UCircuitPuzzle) (src snk : Int) (f : Nat) (P : List Int)
    (cur last : Int) (rs : FRandomStream) (hc : cur ≠ snk)
    (hN : (s.GetUnvisitedNeighbors cur P).length = 0) (hlen : P.length > 1)
    (hlast : P.dropLast.getLast? = some last) :
    GenerateSolutionPath.walk s src snk (f + 1) P cur rs =
      GenerateSolutionPath.walk s src snk f P.dropLast last rs := by
  rw [GenerateSolutionPath.walk]
  rw [if_neg hc]
  simp only
  rw [if_pos hN, if_pos hlen, hlast]

/-- With a single neighbour `ChooseNextTile` returns it, whatever the draws. -/
theorem choose_single (s : UCircuitPuzzle) (cur tgt n : Int) (rs : FRandomStream) :
    ∃ rs', s.ChooseNextTile cur tgt [n] rs = some (n, rs') := by
  unfold ChooseNextTile
  simp only
  by_cases h : (rs.FRandBelow70).1 = true
  · rw [if_pos h]
    exact ⟨_, rfl⟩
  · rw [if_neg h]
    refine ⟨(rs.FRandBelow70.2.RandRange 0 ((([n] : List Int).length : Int) - 1)).2, ?_⟩
    have : (rs.FRandBelow70.2.RandRange 0 ((([n] : List Int).length : Int) - 1)).1 = 0 := by
      unfold FRandomStream.RandRange
      simp
    rw [this]
    rfl

/-- The step at tile 2 under `livelockDraws`: a random pick of tile 5. -/
theorem livelock_choice_at_two (rest : Nat → Nat) :
    bareSquare.ChooseNextTile 2 0 [5, 1] (FRandomStream.mk (streamFrom livelockDraws rest).draws 2)
      = some (5, FRandomStream.mk (streamFrom livelockDraws rest).draws 4) := by
  rfl

/-- The step at tile 5 under `livelockDraws`: the neighbour nearest to the sink, tile 4. -/
theorem livelock_choice_at_five (rest : Nat → Nat) :
    bareSquare.ChooseNextTile 5 0 [8, 4] (FRandomStream.mk (streamFrom livelockDraws rest).draws 4)
      = some (4, FRandomStream.mk (streamFrom livelockDraws rest).draws 5) := by
  rfl

/-- The step at tile 4 under `livelockDraws`: a random pick of tile 3. -/
theorem livelock_choice_at_four (rest : Nat → Nat) :
    bareSquare.ChooseNextTile 4 0 [1, 7, 3] (FRandomStream.mk (streamFrom livelockDraws rest).draws 5)
      = some (3, FRandomStream.mk (streamFrom livelockDraws rest).draws 7) := by
  rfl

/-- The step at tile 3 under `livelockDraws`: a random pick of tile 6. -/
theorem livelock_choice_at_three (rest : Nat → Nat) :
    bareSquare.ChooseNextTile 3 0 [0, 6] (FRandomStream.mk (streamFrom livelockDraws rest).draws 7)
      = some (6, FRandomStream.mk (streamFrom livelockDraws rest).draws 9) := by
  rfl

/-- Under `livelockDraws` the first four iterations of the walk from tile 2 lead along
2, 5, 4, 3 to tile 6. -/
theorem livelock_first_steps (rest : Nat → Nat) (f : Nat) :
    GenerateSolutionPath.walk bareSquare 2 0 (f + 4) [2] 2
      (FRandomStream.mk (streamFrom livelockDraws rest).draws 2) =
    GenerateSolutionPath.walk bareSquare 2 0 f [2, 5, 4, 3, 6] 6
      (FRandomStream.mk (streamFrom livelockDraws rest).draws 9) := by
  have g1 : bareSquare.GetUnvisitedNeighbors 2 [2] = [5, 1] := by decide
  have g2 : bareSquare.GetUnvisitedNeighbors 5 [2, 5] = [8, 4] := by decide
  have g3 : bareSquare.GetUnvisitedNeighbors 4 [2, 5, 4] = [1, 7, 3] := by decide
  have g4 : bareSquare.GetUnvisitedNeighbors 3 [2, 5, 4, 3] = [0, 6] := by decide
  have s1 : GenerateSolutionPath.walk bareSquare 2 0 (f + 4) [2] 2
      (FRandomStream.mk (streamFrom livelockDraws rest).draws 2) =
      GenerateSolutionPath.walk bareSquare 2 0 (f + 3) [2, 5] 5
        (FRandomStream.mk (streamFrom livelockDraws rest).draws 4) :=
    walk_step_choose bareSquare 2 0 (f + 3) [2] 2 _ _ 5 (by decide) (by rw [g1]; decide)
      (by rw [g1]; exact livelock_choice_at_two rest)
  have s2 : GenerateSolutionPath.walk bareSquare 2 0 (f + 3) [2, 5] 5
      (FRandomStream.mk (streamFrom livelockDraws rest).draws 4) =
      GenerateSolutionPath.walk bareSquare 2 0 (f + 2) [2, 5, 4] 4
        (FRandomStream.mk (streamFrom livelockDraws rest).draws 5) :=
    walk_step_choose bareSquare 2 0 (f + 2) [2, 5] 5 _ _ 4 (by decide) (by rw [g2]; decide)
      (by rw [g2]; exact livelock_choice_at_five rest)
  have s3 : GenerateSolutionPath.walk bareSquare 2 0 (f + 2) [2, 5, 4] 4
      (FRandomStream.mk (streamFrom livelockDraws rest).draws 5) =
      GenerateSolutionPath.walk bareSquare 2 0 (f + 1) [2, 5, 4, 3] 3
        (FRandomStream.mk (streamFrom livelockDraws rest).draws 7) :=
    walk_step_choose bareSquare 2 0 (f + 1) [2, 5, 4] 4 _ _ 3 (by decide) (by rw [g3]; decide)
      (by rw [g3]; exact livelock_choice_at_four rest)
  have s4 : GenerateSolutionPath.walk bareSquare 2 0 (f + 1) [2, 5, 4, 3] 3
      (FRandomStream.mk (streamFrom livelockDraws rest).draws 7) =
      GenerateSolutionPath.walk bareSquare 2 0 f [2, 5, 4, 3, 6] 6
        (FRandomStream.mk (streamFrom livelockDraws rest).draws 9) :=
    walk_step_choose bareSquare 2 0 f [2, 5, 4, 3] 3 _ _ 6 (by decide) (by rw [g4]; decide)
      (by rw [g4]; exact livelock_choice_at_three rest)
  exact s1.trans (s2.trans (s3.trans s4))

/-- On the path 2, 5, 4, 3, 6, 7 the walk alternates between tile 7 (whose only unvisited
neighbour is 8) and the dead end 8 (popped again), and never reaches the sink 0. -/
theorem livelock_tail : ∀ (fuel : Nat) (rs : FRandomStream),
    GenerateSolutionPath.walk bareSquare 2 0 fuel [2, 5, 4, 3, 6, 7] 7 rs = none ∧
    GenerateSolutionPath.walk bareSquare 2 0 fuel [2, 5, 4, 3, 6, 7, 8] 8 rs = none := by
  have g7 : bareSquare.GetUnvisitedNeighbors 7 [2, 5, 4, 3, 6, 7] = [8] := by decide
  have g8 : bareSquare.GetUnvisitedNeighbors 8 [2, 5, 4, 3, 6, 7, 8] = [] := by decide
  intro fuel
  induction fuel with
  | zero =>
    intro rs
    constructor
    · rw [GenerateSolutionPath.walk, if_neg (by decide)]
    · rw [GenerateSolutionPath.walk, if_neg (by decide)]
  | succ f ih =>
    intro rs
    constructor
    · obtain ⟨rs', h⟩ := choose_single bareSquare 7 0 8 rs
      have st : GenerateSolutionPath.walk bareSquare 2 0 (f + 1) [2, 5, 4, 3, 6, 7] 7 rs =
          GenerateSolutionPath.walk bareSquare 2 0 f [2, 5, 4, 3, 6, 7, 8] 8 rs' :=
        walk_step_choose bareSquare 2 0 f [2, 5, 4, 3, 6, 7] 7 rs rs' 8 (by decide)
          (by rw [g7]; decide) (by rw [g7]; exact h)
      rw [st]
      exact (ih rs').2
    · have st : GenerateSolutionPath.walk bareSquare 2 0 (f + 1) [2, 5, 4, 3, 6, 7, 8] 8 rs =
          GenerateSolutionPath.walk bareSquare 2 0 f [2, 5, 4, 3, 6, 7] 7 rs :=
        walk_step_back bareSquare 2 0 f [2, 5, 4, 3, 6, 7, 8] 8 7 rs (by decide)
          (by rw [g8]; rfl) (by decide) (by decide)
      rw [st]
      exact (ih rs).1

/-- From tile 6 on the path 2, 5, 4, 3, 6 the walk never reaches the sink 0. -/
theorem livelock_from_six (fuel : Nat) (rs : FRandomStream) :
    GenerateSolutionPath.walk bareSquare 2 0 fuel [2, 5, 4, 3, 6] 6 rs = none := by
  have g6 : bareSquare.GetUnvisitedNeighbors 6 [2, 5, 4, 3, 6] = [7] := by decide
  cases fuel with
  | zero => rw [GenerateSolutionPath.walk, if_neg (by decide)]
  | succ f =>
    obtain ⟨rs', h⟩ := choose_single bareSquare 6 0 7 rs
    have st : GenerateSolutionPath.walk bareSquare 2 0 (f + 1) [2, 5, 4, 3, 6] 6 rs =
        GenerateSolutionPath.walk bareSquare 2 0 f [2, 5, 4, 3, 6, 7] 7 rs' :=
      walk_step_choose bareSquare 2 0 f [2, 5, 4, 3, 6] 6 rs rs' 7 (by decide)
        (by rw [g6]; decide) (by rw [g6]; exact h)
    rw [st]
    exact (livelock_tail f rs').1

/-- Under `livelockDraws` the walk from tile 2 never reaches the sink 0, whatever the
later draws and the iteration budget. -/
theorem livelock_from_start (rest : Nat → Nat) (fuel : Nat) :
    GenerateSolutionPath.walk bareSquare 2 0 fuel [2] 2
      (FRandomStream.mk (streamFrom livelockDraws rest).draws 2) = none := by
  cases h : GenerateSolutionPath.walk bareSquare 2 0 fuel [2] 2
      (FRandomStream.mk (streamFrom livelockDraws rest).draws 2) with
  | none => rfl
  | some r =>
    have h4 := walk_mono bareSquare 2 0 4 fuel _ _ _ r h
    rw [livelock_first_steps rest fuel, livelock_from_six] at h4
    cases h4

/-- `GetUnvisitedNeighbors` reads only the dimensions of the grid. -/
theorem unvisitedNeighbors_congr {a b : UCircuitPuzzle} (hw : a.Width = b.Width)
    (hh : a.Height = b.Height) (i : Int) (V : List Int) :
    a.GetUnvisitedNeighbors i V = b.GetUnvisitedNeighbors i V := by
  unfold GetUnvisitedNeighbors
  rw [hw, hh]

/-- The nearest-neighbour search reads only the width of the grid. -/
theorem chooseBest_congr {a b : UCircuitPuzzle} (hw : a.Width = b.Width) (tx ty : Int) :
    ∀ (L : List Int) (acc : Int × Option Int),
      ChooseNextTile.best a tx ty L acc = ChooseNextTile.best b tx ty L acc := by
  intro L
  induction L with
  | nil =>
    intro acc
    unfold ChooseNextTile.best
    rfl
  | cons n r ih =>
    intro acc
    obtain ⟨bn, bd⟩ := acc
    unfold ChooseNextTile.best
    simp only [hw, ih]

/-- `ChooseNextTile` reads only the width of the grid. -/
theorem chooseNextTile_congr {a b : UCircuitPuzzle} (hw : a.Width = b.Width) (i j : Int)
    (L : List Int) (rs : FRandomStream) :
    a.ChooseNextTile i j L rs = b.ChooseNextTile i j L rs := by
  unfold ChooseNextTile
  simp only [hw, chooseBest_congr hw]

/-- The walk reads only the dimensions of the grid. -/
theorem walk_congr {a b : UCircuitPuzzle} (hw : a.Width = b.Width) (hh : a.Height = b.Height)
    (src snk : Int) : ∀ (fuel : Nat) (P : List Int) (cur : Int) (rs : FRandomStream),
      GenerateSolutionPath.walk a src snk fuel P cur rs =
        GenerateSolutionPath.walk b src snk fuel P cur rs := by
  intro fuel
  induction fuel with
  | zero =>
    intro P cur rs
    rw [GenerateSolutionPath.walk, GenerateSolutionPath.walk]
  | succ f ih =>
    intro P cur rs
    rw [GenerateSolutionPath.walk, GenerateSolutionPath.walk]
    simp only [unvisitedNeighbors_congr hw hh, chooseNextTile_congr hw, ih]

/-- A sink index that differs from the source index and is not adjacent to it leaves the
sink-placement loop without a redraw. -/
theorem placeSink_exit_now (s : UCircuitPuzzle) (src n snk : Int) (fuel : Nat)
    (rs : FRandomStream) (h : ¬ (snk = src ∨ s.AreAdjacent src snk = true)) :
    StartNew.placeSink s src n fuel snk rs = some (snk, rs) := by
  unfold StartNew.placeSink
  rw [if_neg h]

/-! ## The log of dequeued indices of `RecomputePower` -/

theorem loopTrace_fst : ∀ (fuel : Nat) (s : UCircuitPuzzle) (Q T : List Int),
    (RecomputePower.loopTrace fuel s Q T).map Prod.fst = RecomputePower.loop fuel s Q := by
  intro fuel
  induction fuel with
  | zero =>
    intro s Q T
    cases Q <;> rfl
  | succ fuel ih =>
    intro s Q T
    cases Q with
    | nil => rfl
    | cons c Q =>
      unfold RecomputePower.loopTrace RecomputePower.loop
      split
      · rfl
      · split
        · rfl
        · exact ih _ _ _

theorem trace_fst (s : UCircuitPuzzle) :
    (RecomputePower.trace s).map Prod.fst = s.RecomputePower := by
  unfold RecomputePower.trace RecomputePower
  simp only
  split
  · rfl
  · split
    · rfl
    · exact loopTrace_fst _ _ _ _

theorem loopTrace_length : ∀ (fuel : Nat) (s : UCircuitPuzzle) (Q T : List Int)
    (s' : UCircuitPuzzle) (T' : List Int),
    RecomputePower.loopTrace fuel s Q T = some (s', T') → T'.length ≤ T.length + fuel := by
  intro fuel
  induction fuel with
  | zero =>
    intro s Q T s' T' h
    cases Q with
    | nil =>
      unfold RecomputePower.loopTrace at h
      injection h with h
      injection h with e1 e2
      subst e2
      omega
    | cons c Q =>
      unfold RecomputePower.loopTrace at h
      cases h
  | succ fuel ih =>
    intro s Q T s' T' h
    cases Q with
    | nil =>
      unfold RecomputePower.loopTrace at h
      injection h with h
      injection h with e1 e2
      subst e2
      omega
    | cons c Q =>
      unfold RecomputePower.loopTrace at h
      split at h
      · cases h
      · split at h
        · cases h
        · have := ih _ _ _ _ _ h
          simp only [List.length_append, List.length_singleton] at this
          omega

/-- One step of the inner loop of `RecomputePower`: the queue grows by indices `new`
whose powered flag was clear before and is set afterwards; no other flag changes. -/
theorem visit_fresh (cur : Int) (s : UCircuitPuzzle) (Q : List Int) (d : ECircuitDir)
    (s' : UCircuitPuzzle) (Q' : List Int)
    (h : RecomputePower.visit cur (s, Q) d = some (s', Q')) :
    ∃ new, Q' = Q ++ new ∧ new.Nodup ∧ (∀ q ∈ new, ¬ PoweredAt s q) ∧
      (∀ i, PoweredAt s' i ↔ PoweredAt s i ∨ i ∈ new) := by
  have stay : ∀ (s' : UCircuitPuzzle) (Q' : List Int), some (s, Q) = some (s', Q') →
      ∃ new, Q' = Q ++ new ∧ new.Nodup ∧ (∀ q ∈ new, ¬ PoweredAt s q) ∧
        (∀ i, PoweredAt s' i ↔ PoweredAt s i ∨ i ∈ new) := by
    intro s' Q' e
    injection e with e
    injection e with e1 e2
    subst e1 e2
    exact ⟨[], by simp, List.nodup_nil, by simp, by simp⟩
  unfold RecomputePower.visit at h
  simp only at h
  split at h
  · exact stay _ _ h
  · rename_i hk
    split at h
    · cases h
    · rename_i nb hnb
      split at h
      · exact stay _ _ h
      · rename_i hp
        split at h
        · cases h
        · rename_i nc hnc
          split at h
          · rename_i ho
            injection h with h
            injection h with e1 e2
            subst e1 e2
            have hk0 := (tileAt_eq_some hnb).1
            have hself := tileAt_set_self (x := { nb with bPowered := true }) hnb
            refine ⟨[s.GetNeighborIndex cur d], rfl, List.nodup_singleton _, ?_, ?_⟩
            · intro q hq
              simp only [List.mem_singleton] at hq
              subst hq
              rintro ⟨t, ht, htp⟩
              rw [hnb] at ht
              injection ht with ht
              subst ht
              exact hp htp
            · intro i
              constructor
              · rintro ⟨t, ht, htp⟩
                by_cases hi : i = s.GetNeighborIndex cur d
                · right; simp [hi]
                · left
                  simp only at ht
                  rw [tileAt_set_ne hk0 hi] at ht
                  exact ⟨t, ht, htp⟩
              · rintro (⟨t, ht, htp⟩ | hi)
                · by_cases hi : i = s.GetNeighborIndex cur d
                  · subst hi; exact ⟨_, hself, rfl⟩
                  · exact ⟨t, by simp only; rw [tileAt_set_ne hk0 hi]; exact ht, htp⟩
                · simp only [List.mem_singleton] at hi
                  subst hi
                  exact ⟨_, hself, rfl⟩
          · exact stay _ _ h

theorem fold_fresh (cur : Int) (ds : List ECircuitDir) :
    ∀ (s : UCircuitPuzzle) (Q : List Int) (s' : UCircuitPuzzle) (Q' : List Int),
      ds.foldlM (RecomputePower.visit cur) (s, Q) = some (s', Q') →
      ∃ new, Q' = Q ++ new ∧ new.Nodup ∧ (∀ q ∈ new, ¬ PoweredAt s q) ∧
        (∀ i, PoweredAt s' i ↔ PoweredAt s i ∨ i ∈ new) := by
  induction ds with
  | nil =>
    intro s Q s' Q' h
    simp only [List.foldlM_nil, Option.pure_def, Option.some.injEq, Prod.mk.injEq] at h
    obtain ⟨e1, e2⟩ := h
    subst e1 e2
    exact ⟨[], by simp, List.nodup_nil, by simp, by simp⟩
  | cons d ds ih =>
    intro s Q s' Q' h
    rw [List.foldlM_cons] at h
    cases h1 : RecomputePower.visit cur (s, Q) d with
    | none => rw [h1] at h; cases h
    | some st =>
      obtain ⟨s1, Q1⟩ := st
      rw [h1] at h
      simp only [Option.bind_eq_bind, Option.some_bind] at h
      obtain ⟨new1, e1, nd1, f1, p1⟩ := visit_fresh cur s Q d s1 Q1 h1
      obtain ⟨new2, e2, nd2, f2, p2⟩ := ih s1 Q1 s' Q' h
      refine ⟨new1 ++ new2, by rw [e2, e1, List.append_assoc], ?_, ?_, ?_⟩
      · rw [List.nodup_append]
        refine ⟨nd1, nd2, ?_⟩
        intro a ha1 ha2
        exact f2 a ha2 ((p1 a).2 (Or.inr ha1))
      · intro q hq
        rcases List.mem_append.mp hq with hq | hq
        · exact f1 q hq
        · intro hp
          exact f2 q hq ((p1 q).2 (Or.inl hp))
      · intro i
        rw [p2 i, p1 i, List.mem_append, or_assoc]

theorem loopTrace_spec : ∀ (fuel : Nat) (s : UCircuitPuzzle) (Q T : List Int)
    (s' : UCircuitPuzzle) (T' : List Int),
    (T ++ Q).Nodup → (∀ i, i ∈ T ++ Q ↔ PoweredAt s i) →
    RecomputePower.loopTrace fuel s Q T = some (s', T') →
    T'.Nodup ∧ ∀ i, i ∈ T' ↔ PoweredAt s' i := by
  intro fuel
  induction fuel with
  | zero =>
    intro s Q T s' T' hnd hmem h
    cases Q with
    | nil =>
      unfold RecomputePower.loopTrace at h
      injection h with h
      injection h with e1 e2
      subst e1 e2
      rw [List.append_nil] at hnd
      simp only [List.append_nil] at hmem
      exact ⟨hnd, hmem⟩
    | cons c Q =>
      unfold RecomputePower.loopTrace at h
      cases h
  | succ fuel ih =>
    intro s Q T s' T' hnd hmem h
    cases Q with
    | nil =>
      unfold RecomputePower.loopTrace at h
      injection h with h
      injection h with e1 e2
      subst e1 e2
      rw [List.append_nil] at hnd
      simp only [List.append_nil] at hmem
      exact ⟨hnd, hmem⟩
    | cons c Q =>
      unfold RecomputePower.loopTrace at h
      split at h
      · cases h
      · split at h
        · cases h
        · rename_i st hfold
          obtain ⟨s1, Q1⟩ := st
          obtain ⟨new, e, nd, fresh, pw⟩ := fold_fresh c _ s Q s1 Q1 hfold
          simp only at h
          subst e
          have hlist : (T ++ [c]) ++ (Q ++ new) = (T ++ c :: Q) ++ new := by simp
          refine ih s1 (Q ++ new) (T ++ [c]) s' T' ?_ ?_ h
          · rw [hlist, List.nodup_append]
            refine ⟨hnd, nd, ?_⟩
            intro a ha1 ha2
            exact fresh a ha2 ((hmem a).1 ha1)
          · intro i
            rw [hlist, List.mem_append, hmem i, pw i]

/-- The log of `RecomputePower`: the call returns the same state as the plain method, no
index is dequeued twice, the number of dequeued indices is at most the number of tiles,
and the dequeued indices are exactly the powered tiles. -/
theorem trace_spec (s : UCircuitPuzzle) (hn : NeighborsInRange s) :
    ∃ s' T, RecomputePower.trace s = some (s', T) ∧ s.RecomputePower = some s' ∧
      T.Nodup ∧ T.length ≤ s.Tiles.length ∧ ∀ i, i ∈ T ↔ PoweredAt s' i := by
  obtain ⟨s', hs', _, _⟩ := recomputePower_spec s hn
  have hfst := trace_fst s
  rw [hs'] at hfst
  obtain ⟨⟨s1, T⟩, htr, e⟩ := Option.map_eq_some'.1 hfst
  simp only at e
  subst e
  refine ⟨s1, T, htr, hs', ?_⟩
  unfold RecomputePower.trace at htr
  simp only at htr
  split at htr
  · injection htr with htr
    injection htr with e1 e2
    subst e1 e2
    refine ⟨List.nodup_nil, by simp, ?_⟩
    intro i
    constructor
    · intro hi; cases hi
    · intro hp; exact absurd hp (poweredAt_reset s i)
  · split at htr
    · cases htr
    · rename_i Tiles hmod
      obtain ⟨t, ht, eT⟩ := modifyTile_eq_some hmod
      subst eT
      have hk0 := (tileAt_eq_some ht).1
      have hlen := loopTrace_length _ _ _ _ _ _ htr
      have hspec := loopTrace_spec _ _ _ _ _ _ (by simp) ?_ htr
      · refine ⟨hspec.1, ?_, hspec.2⟩
        simpa [RecomputePower.reset] using hlen
      · intro i
        simp only [List.nil_append, List.mem_singleton]
        constructor
        · intro hi
          subst hi
          exact ⟨_, tileAt_set_self ht, rfl⟩
        · rintro ⟨u, hu, hp⟩
          by_contra hi
          simp only at hu
          rw [tileAt_set_ne hk0 hi] at hu
          exact poweredAt_reset s i ⟨u, hu, hp⟩

/-! ## Power propagation, solved state and rotation: main results -/

theorem findSource_sameButPower {a b : UCircuitPuzzle} (h : SameButPower a b) (i : Int) :
    RecomputePower.findSource b.Tiles i = RecomputePower.findSource a.Tiles i := by
  have e : RecomputePower.reset b = RecomputePower.reset a := h
  rw [← findSource_reset b, ← findSource_reset a, e]

theorem SameButPower.firstSource {a b : UCircuitPuzzle} (h : SameButPower a b) (src : Int) :
    FirstSource b src ↔ FirstSource a src := by
  rw [firstSource_iff, firstSource_iff, findSource_sameButPower h]

theorem gridShaped_lineGrid : GridShaped lineGrid := by
  unfold GridShaped lineGrid; decide

theorem gridShaped_darkGrid : GridShaped darkGrid := by
  unfold GridShaped darkGrid; decide

theorem darkGrid_no_source :
    ∀ i t, tileAt darkGrid.Tiles i = some t → t.TileType ≠ ECircuitTileType.Source := by
  intro i t ht
  have hmem := List.getElem?_mem (tileAt_eq_some ht).2.2
  simp only [darkGrid, List.mem_cons, List.mem_singleton, List.not_mem_nil, or_false] at hmem
  rcases hmem with rfl | rfl <;> decide

theorem darkGrid_no_sink :
    ∀ i t, tileAt darkGrid.Tiles i = some t → t.TileType ≠ ECircuitTileType.Sink := by
  intro i t ht
  have hmem := List.getElem?_mem (tileAt_eq_some ht).2.2
  simp only [darkGrid, List.mem_cons, List.mem_singleton, List.not_mem_nil, or_false] at hmem
  rcases hmem with rfl | rfl <;> decide

/-- C4: on every grid (an array of `Width * Height` tiles with any kinds, rotations and
stale powered flags) `RecomputePower` returns, and afterwards a tile is powered exactly
when a Source tile exists and a chain of conducting steps leads from the Source tile
(the one of lowest index, at which the search starts) to it; each step goes from a tile to
its in-grid neighbour in a direction that the tile connects and whose opposite the
neighbour connects.  Without a Source tile no tile is powered. -/
theorem recomputePower_powers_reachable (self : UCircuitPuzzle) (hs : GridShaped self) :
    ∃ after, self.RecomputePower = some after ∧
      (∀ i, PoweredAt after i ↔ ∃ src, FirstSource after src ∧ Reach after src i) ∧
      ((∀ i t, tileAt self.Tiles i = some t → t.TileType ≠ ECircuitTileType.Source) →
        ∀ i, ¬ PoweredAt after i) := by
  obtain ⟨after, hr, hf, hp⟩ := recomputePower_spec self (neighborsInRange_of_gridShaped hs)
  refine ⟨after, hr, ?_, ?_⟩
  · intro i
    rw [hp i]
    constructor
    · rintro ⟨hne, hreach⟩
      refine ⟨_, (hf.firstSource _).mpr ((firstSource_iff self _).mpr ⟨hne, rfl⟩), ?_⟩
      exact (hf.reach _ _).mpr hreach
    · rintro ⟨src, hfs, hreach⟩
      obtain ⟨hne, he⟩ := (firstSource_iff self src).mp ((hf.firstSource src).mp hfs)
      refine ⟨hne, ?_⟩
      rw [he]
      exact (hf.reach _ _).mp hreach
  · intro hno i hi
    exact ((hp i).mp hi).1 (no_source_findSource hno)

/-- Witness of C4 on the 3 x 1 sample grid, and on the sample grid without a Source. -/
theorem recomputePower_powers_reachable_witness :
    (GridShaped lineGrid ∧
      ∃ after, lineGrid.RecomputePower = some after ∧
        ∀ i, PoweredAt after i ↔ ∃ src, FirstSource after src ∧ Reach after src i) ∧
    (GridShaped darkGrid ∧
      (∀ i t, tileAt darkGrid.Tiles i = some t → t.TileType ≠ ECircuitTileType.Source) ∧
      ∃ after, darkGrid.RecomputePower = some after ∧ ∀ i, ¬ PoweredAt after i) :=
  ⟨⟨gridShaped_lineGrid,
      (recomputePower_powers_reachable lineGrid gridShaped_lineGrid).imp
        (fun _ h => ⟨h.1, h.2.1⟩)⟩,
    ⟨gridShaped_darkGrid, darkGrid_no_source,
      (recomputePower_powers_reachable darkGrid gridShaped_darkGrid).imp
        (fun _ h => ⟨h.1, h.2.2 darkGrid_no_source⟩)⟩⟩

/-- C5: on every grid `RotateTile(Index)` returns; it returns false exactly when the
index is outside the tile array, or the tile is locked, or the tile is the Source and
`bAllowRotateSource` is false, or the tile is the Sink and `bAllowRotateSink` is false;
and when it returns false the engine state is unchanged and `OnSolved` is not broadcast. -/
theorem rotateTile_false_iff_refused (self : UCircuitPuzzle) (Index : Int)
    (hs : GridShaped self) :
    ∃ out, self.RotateTile Index = some out ∧
      (out.Returned = false ↔ RotateRefused self Index) ∧
      (out.Returned = false → out.State = self ∧ out.Broadcast = false) := by
  by_cases h : RotateRefused self Index
  · refine ⟨_, rotateTile_refused h, ?_, ?_⟩
    · simp [h]
    · intro _; exact ⟨rfl, rfl⟩
  · obtain ⟨t, p, _, _, _, e⟩ := rotateTile_accepted_some hs h
    refine ⟨_, e, ?_, ?_⟩
    · simp [h]
    · intro hh; cases hh

/-- Witness of C5 on the 3 x 1 sample grid, at the Source tile. -/
theorem rotateTile_false_iff_refused_witness :
    GridShaped lineGrid ∧
    ∃ out, lineGrid.RotateTile 0 = some out ∧
      (out.Returned = false ↔ RotateRefused lineGrid 0) ∧
      (out.Returned = false → out.State = lineGrid ∧ out.Broadcast = false) :=
  ⟨gridShaped_lineGrid, rotateTile_false_iff_refused lineGrid 0 gridShaped_lineGrid⟩

theorem tmod_four_of_range {r : Int} (h0 : 0 ≤ r) (_h3 : r ≤ 3) :
    (r + 1).tmod 4 = (r + 1) % 4 :=
  Int.tmod_eq_emod (by omega) (by omega)

/-- C6: when `RotateTile(Index)` is not refused and the tile has rotation `r` with
`0 <= r <= 3`, the call returns true, the rotation of the tile becomes `(r + 1) mod 4`,
and the state afterwards is what `RecomputePower` yields on the grid with that one
rotation changed. -/
theorem rotateTile_success (self : UCircuitPuzzle) (Index : Int) (t : FCircuitTile)
    (hs : GridShaped self) (hacc : ¬ RotateRefused self Index)
    (ht : tileAt self.Tiles Index = some t) (h0 : 0 ≤ t.RotationSteps)
    (h3 : t.RotationSteps ≤ 3) :
    ∃ out, self.RotateTile Index = some out ∧ out.Returned = true ∧
      (∃ t', tileAt out.State.Tiles Index = some t' ∧
        t'.RotationSteps = (t.RotationSteps + 1) % 4) ∧
      UCircuitPuzzle.RecomputePower
        { self with
          Tiles := self.Tiles.set Index.toNat
            { t with RotationSteps := (t.RotationSteps + 1) % 4 } } = some out.State := by
  obtain ⟨t1, p, ht1, hp, hf, e⟩ := rotateTile_accepted_some hs hacc
  rw [ht] at ht1
  injection ht1 with ht1
  subst ht1
  refine ⟨_, e, rfl, ?_, ?_⟩
  · have hself : tileAt (withRotated self Index t).Tiles Index =
        some { t with RotationSteps := (t.RotationSteps + 1).tmod 4 } := tileAt_set_self ht
    obtain ⟨t', ht', _, e2, _⟩ := hf.tileAt hself
    exact ⟨t', ht', by rw [e2]; exact tmod_four_of_range h0 h3⟩
  · rw [← tmod_four_of_range h0 h3]
    exact hp

/-- Witness of C6 on the 3 x 1 sample grid, at the Straight tile. -/
theorem rotateTile_success_witness :
    GridShaped lineGrid ∧ ¬ RotateRefused lineGrid 1 ∧
    tileAt lineGrid.Tiles 1 = some (FCircuitTile.mk ECircuitTileType.Straight 1 false true) ∧
    ∃ out, lineGrid.RotateTile 1 = some out ∧ out.Returned = true ∧
      (∃ t', tileAt out.State.Tiles 1 = some t' ∧ t'.RotationSteps = ((1 : Int) + 1) % 4) ∧
      UCircuitPuzzle.RecomputePower
        { lineGrid with
          Tiles := lineGrid.Tiles.set (1 : Int).toNat
            { FCircuitTile.mk ECircuitTileType.Straight 1 false true with
              RotationSteps := ((1 : Int) + 1) % 4 } } = some out.State :=
  have hacc : ¬ RotateRefused lineGrid 1 := by
    unfold RotateRefused
    simp [lineGrid, tileAt]
  ⟨gridShaped_lineGrid, hacc, by decide,
    rotateTile_success lineGrid 1 (FCircuitTile.mk ECircuitTileType.Straight 1 false true)
      gridShaped_lineGrid hacc (by decide) (by decide) (by decide)⟩

theorem withRotated_tileAt {s : UCircuitPuzzle} {i j : Int} {t u : FCircuitTile}
    (ht : tileAt s.Tiles i = some t) (hu : tileAt s.Tiles j = some u) :
    ∃ u', tileAt (withRotated s i t).Tiles j = some u' ∧ u'.TileType = u.TileType ∧
      u'.bLocked = u.bLocked ∧ (j ≠ i → u'.RotationSteps = u.RotationSteps) := by
  by_cases hji : j = i
  · subst hji
    rw [ht] at hu
    injection hu with hu
    subst hu
    exact ⟨_, tileAt_set_self ht, rfl, rfl, fun h => absurd rfl h⟩
  · refine ⟨u, ?_, rfl, rfl, fun _ => rfl⟩
    unfold withRotated
    simp only
    rw [tileAt_set_ne (tileAt_eq_some ht).1 hji]
    exact hu

/-- C7: `RotateTile(Index)`, whether it succeeds or fails, leaves the number of tiles,
`Width`, `Height`, every tile's kind, every tile's locked flag, the rotation of every
tile other than `Index`, and `SolutionRotations` as they were; `RecomputePower` leaves
everything but the powered flags as it was. -/
theorem rotateTile_frame (self : UCircuitPuzzle) (Index : Int) (hs : GridShaped self) :
    (∃ out, self.RotateTile Index = some out ∧
      out.State.Tiles.length = self.Tiles.length ∧ out.State.Width = self.Width ∧
      out.State.Height = self.Height ∧
      out.State.SolutionRotations = self.SolutionRotations ∧
      ∀ j t, tileAt self.Tiles j = some t →
        ∃ t', tileAt out.State.Tiles j = some t' ∧ t'.TileType = t.TileType ∧
          t'.bLocked = t.bLocked ∧ (j ≠ Index → t'.RotationSteps = t.RotationSteps)) ∧
    (∃ after, self.RecomputePower = some after ∧
      after.Tiles.length = self.Tiles.length ∧ after.Width = self.Width ∧
      after.Height = self.Height ∧ after.Config = self.Config ∧
      after.SolutionRotations = self.SolutionRotations ∧
      ∀ j t, tileAt self.Tiles j = some t →
        ∃ t', tileAt after.Tiles j = some t' ∧ t'.TileType = t.TileType ∧
          t'.RotationSteps = t.RotationSteps ∧ t'.bLocked = t.bLocked) := by
  constructor
  · by_cases h : RotateRefused self Index
    · refine ⟨_, rotateTile_refused h, rfl, rfl, rfl, rfl, ?_⟩
      intro j t ht
      exact ⟨t, ht, rfl, rfl, fun _ => rfl⟩
    · obtain ⟨t, p, ht, _, hf, e⟩ := rotateTile_accepted_some hs h
      refine ⟨_, e, ?_, hf.width, hf.height, hf.solution, ?_⟩
      · simp only
        rw [hf.length]
        simp [withRotated]
      · intro j u hu
        obtain ⟨u1, hu1, e1, e2, e3⟩ := withRotated_tileAt ht hu
        obtain ⟨u2, hu2, f1, f2, f3⟩ := hf.tileAt hu1
        exact ⟨u2, hu2, by rw [f1, e1], by rw [f3, e2], fun hne => by rw [f2, e3 hne]⟩
  · obtain ⟨after, hr, hf, _⟩ := recomputePower_spec self (neighborsInRange_of_gridShaped hs)
    exact ⟨after, hr, hf.length, hf.width, hf.height, hf.config, hf.solution,
      fun j t ht => hf.tileAt ht⟩

/-- Witness of C7 on the 3 x 1 sample grid, at the Straight tile. -/
theorem rotateTile_frame_witness :
    GridShaped lineGrid ∧
    (∃ out, lineGrid.RotateTile 1 = some out ∧
      out.State.Tiles.length = lineGrid.Tiles.length ∧ out.State.Width = lineGrid.Width ∧
      out.State.Height = lineGrid.Height ∧
      out.State.SolutionRotations = lineGrid.SolutionRotations ∧
      ∀ j t, tileAt lineGrid.Tiles j = some t →
        ∃ t', tileAt out.State.Tiles j = some t' ∧ t'.TileType = t.TileType ∧
          t'.bLocked = t.bLocked ∧ (j ≠ 1 → t'.RotationSteps = t.RotationSteps)) :=
  ⟨gridShaped_lineGrid, (rotateTile_frame lineGrid 1 gridShaped_lineGrid).1⟩

/-- C9 as stated fails: on the puzzle that `StartNew` builds from `rowConfig` and
`rowDraws`, which is already solved, rotating tile 3 succeeds and broadcasts `OnSolved`
although `IsSolved()` was true before the call. -/
theorem rotateTile_broadcasts_when_already_solved :
    UCircuitPuzzle.StartNew freshPuzzle rowConfig (streamOf rowDraws) 10 = some rowPuzzle ∧
    rowPuzzle.IsSolved = true ∧
    ∃ out, rowPuzzle.RotateTile 3 = some out ∧ out.Returned = true ∧ out.Broadcast = true ∧
      ¬ (out.Broadcast = true ↔
          (out.Returned = true ∧ rowPuzzle.IsSolved = false ∧ out.State.IsSolved = true)) := by
  refine ⟨by decide, by decide, ?_⟩
  refine ⟨RotateOutcome.mk true true (UCircuitPuzzle.mk 4 1 rowConfig
    [FCircuitTile.mk ECircuitTileType.Source 1 false true,
     FCircuitTile.mk ECircuitTileType.Straight 1 false true,
     FCircuitTile.mk ECircuitTileType.Sink 3 false true,
     FCircuitTile.mk ECircuitTileType.Straight 2 false false] [1, 1, 3, 2]), by decide, rfl, rfl, ?_⟩
  decide

/-- C9, amended: on every grid a call of `RotateTile` broadcasts `OnSolved` exactly when
the call succeeds and `IsSolved()` is true immediately after it, whatever `IsSolved()`
was before the call. -/
theorem rotateTile_broadcast_iff (self : UCircuitPuzzle) (Index : Int) (hs : GridShaped self) :
    ∃ out, self.RotateTile Index = some out ∧
      (out.Broadcast = true ↔ (out.Returned = true ∧ out.State.IsSolved = true)) := by
  by_cases h : RotateRefused self Index
  · exact ⟨_, rotateTile_refused h, by simp⟩
  · obtain ⟨t, p, _, _, _, e⟩ := rotateTile_accepted_some hs h
    exact ⟨_, e, by simp⟩

/-- Witness of the amended C9 on the 3 x 1 sample grid, at the Straight tile. -/
theorem rotateTile_broadcast_iff_witness :
    GridShaped lineGrid ∧
    ∃ out, lineGrid.RotateTile 1 = some out ∧
      (out.Broadcast = true ↔ (out.Returned = true ∧ out.State.IsSolved = true)) :=
  ⟨gridShaped_lineGrid, rotateTile_broadcast_iff lineGrid 1 gridShaped_lineGrid⟩

/-- C10: for every state `IsSolved()` is true exactly when some tile has kind Sink and
its powered flag set; so it is false when no tile is a Sink, and false after
`RecomputePower` (which then returns) on a state without a Source tile. -/
theorem isSolved_iff_powered_sink (self : UCircuitPuzzle) :
    (self.IsSolved = true ↔
      ∃ i t, tileAt self.Tiles i = some t ∧ t.TileType = ECircuitTileType.Sink ∧
        t.bPowered = true) ∧
    ((∀ i t, tileAt self.Tiles i = some t → t.TileType ≠ ECircuitTileType.Sink) →
      self.IsSolved = false) ∧
    ((∀ i t, tileAt self.Tiles i = some t → t.TileType ≠ ECircuitTileType.Source) →
      ∃ after, self.RecomputePower = some after ∧ after.IsSolved = false) := by
  refine ⟨isSolved_iff self, ?_, ?_⟩
  · intro hno
    cases hsol : self.IsSolved with
    | false => rfl
    | true =>
      obtain ⟨i, t, ht, hS, _⟩ := (isSolved_iff self).mp hsol
      exact absurd hS (hno i t ht)
  · intro hno
    refine ⟨RecomputePower.reset self, ?_, ?_⟩
    · unfold RecomputePower
      simp only
      rw [findSource_reset, no_source_findSource hno]
      simp
    · cases hsol : (RecomputePower.reset self).IsSolved with
      | false => rfl
      | true =>
        obtain ⟨i, t, ht, _, hp⟩ := (isSolved_iff _).mp hsol
        exact absurd ⟨t, ht, hp⟩ (poweredAt_reset self i)

/-- Witness of C10 on the sample grid with neither a Source nor a Sink tile. -/
theorem isSolved_iff_powered_sink_witness :
    (∀ i t, tileAt darkGrid.Tiles i = some t → t.TileType ≠ ECircuitTileType.Sink) ∧
    (∀ i t, tileAt darkGrid.Tiles i = some t → t.TileType ≠ ECircuitTileType.Source) ∧
    darkGrid.IsSolved = false ∧
    ∃ after, darkGrid.RecomputePower = some after ∧ after.IsSolved = false :=
  ⟨darkGrid_no_sink, darkGrid_no_source,
    (isSolved_iff_powered_sink darkGrid).2.1 darkGrid_no_sink,
    (isSolved_iff_powered_sink darkGrid).2.2 darkGrid_no_source⟩

/-! ## Stepping back to where a step came from -/

/-- A grid of the same dimensions whose tile array has `Width * Height` tiles. -/
theorem gridShaped_surrogate (s : UCircuitPuzzle) (h : 0 ≤ s.Width * s.Height) :
    GridShaped (UCircuitPuzzle.mk s.Width s.Height s.Config
      (List.replicate (s.Width * s.Height).toNat (FCircuitTile.mk ECircuitTileType.Empty 0 false false))
      s.SolutionRotations) := by
  unfold GridShaped
  simp only [List.length_replicate]
  omega

theorem gni_back (s : UCircuitPuzzle) (hW : 0 < s.Width) (hH : 0 < s.Height) (c : Int)
    (hc0 : 0 ≤ c) (hc1 : c < s.Width * s.Height) (d : ECircuitDir)
    (hne : s.GetNeighborIndex c d ≠ -1) :
    s.GetNeighborIndex (s.GetNeighborIndex c d) (GetOppositeDirection d) = c := by
  obtain ⟨⟨x0, hcell⟩, hc⟩ := grid_coords s.Width s.Height c hc0 hc1
  generalize hX : c.tmod s.Width = X at *
  generalize hY : c.tdiv s.Width = Y at *
  rcases hcell with ⟨_, _, y0, y1, x1⟩ | ⟨hneg, _⟩
  swap
  · omega
  have hgni : ∀ q r, CellOK s.Width s.Height q r →
      0 ≤ q * s.Width + r ∧ q * s.Width + r < s.Width * s.Height ∧
      (q * s.Width + r).tmod s.Width = r ∧ (q * s.Width + r).tdiv s.Width = q :=
    fun q r h => grid_cell _ _ q r h
  match d with
  | 0 =>
    have e0 : s.GetNeighborIndex c 0 = if Y > 0 then (Y - 1) * s.Width + X else -1 := by
      simp only [GetNeighborIndex, hX, hY]
    rw [e0] at hne ⊢
    by_cases hg : Y > 0
    · rw [if_pos hg]
      have hok : CellOK s.Width s.Height (Y - 1) X := ⟨x0, by omega⟩
      obtain ⟨n0, n1, nx, ny⟩ := hgni _ _ hok
      simp only [GetNeighborIndex, GetOppositeDirection, nx, ny]
      rw [if_pos (by omega), hc]
      ring
    · rw [if_neg hg] at hne; exact absurd rfl hne
  | 1 =>
    have e0 : s.GetNeighborIndex c 1 =
        if X < s.Width - 1 then Y * s.Width + (X + 1) else -1 := by
      simp only [GetNeighborIndex, hX, hY]
    rw [e0] at hne ⊢
    by_cases hg : X < s.Width - 1
    · rw [if_pos hg]
      have hok : CellOK s.Width s.Height Y (X + 1) := ⟨by omega, by omega⟩
      obtain ⟨n0, n1, nx, ny⟩ := hgni _ _ hok
      simp only [GetNeighborIndex, GetOppositeDirection, nx, ny]
      rw [if_pos (by omega), hc]
      ring
    · rw [if_neg hg] at hne; exact absurd rfl hne
  | 2 =>
    have e0 : s.GetNeighborIndex c 2 =
        if Y < s.Height - 1 then (Y + 1) * s.Width + X else -1 := by
      simp only [GetNeighborIndex, hX, hY]
    rw [e0] at hne ⊢
    by_cases hg : Y < s.Height - 1
    · rw [if_pos hg]
      have hok : CellOK s.Width s.Height (Y + 1) X := ⟨x0, by omega⟩
      obtain ⟨n0, n1, nx, ny⟩ := hgni _ _ hok
      simp only [GetNeighborIndex, GetOppositeDirection, nx, ny]
      rw [if_pos (by omega), hc]
      ring
    · rw [if_neg hg] at hne; exact absurd rfl hne
  | 3 =>
    have e0 : s.GetNeighborIndex c 3 = if X > 0 then Y * s.Width + (X - 1) else -1 := by
      simp only [GetNeighborIndex, hX, hY]
    rw [e0] at hne ⊢
    by_cases hg : X > 0
    · rw [if_pos hg]
      have hok : CellOK s.Width s.Height Y (X - 1) := ⟨by omega, by omega⟩
      obtain ⟨n0, n1, nx, ny⟩ := hgni _ _ hok
      simp only [GetNeighborIndex, GetOppositeDirection, nx, ny]
      rw [if_pos (by omega), hc]
      ring
    · rw [if_neg hg] at hne; exact absurd rfl hne
  | n + 4 =>
    exact absurd (by simp [GetNeighborIndex]) hne

theorem adjacent_is_neighbor (s : UCircuitPuzzle) (hW : 0 < s.Width) (hH : 0 < s.Height)
    (i j : Int) (hi0 : 0 ≤ i) (hi1 : i < s.Width * s.Height) (hj0 : 0 ≤ j)
    (hj1 : j < s.Width * s.Height) (h : s.AreAdjacent i j = true) :
    ∃ d : ECircuitDir, d < 4 ∧ s.GetNeighborIndex i d = j := by
  obtain ⟨⟨xi0, ci⟩, ei⟩ := grid_coords s.Width s.Height i hi0 hi1
  obtain ⟨⟨xj0, cj⟩, ej⟩ := grid_coords s.Width s.Height j hj0 hj1
  have hadj : (i.tmod s.Width - j.tmod s.Width).natAbs + (i.tdiv s.Width - j.tdiv s.Width).natAbs
      = 1 := by
    unfold AreAdjacent at h
    simp only [Bool.or_eq_true, Bool.and_eq_true, beq_iff_eq] at h
    omega
  generalize hXi : i.tmod s.Width = X at *
  generalize hYi : i.tdiv s.Width = Y at *
  generalize hXj : j.tmod s.Width = X' at *
  generalize hYj : j.tdiv s.Width = Y' at *
  rcases ci with ⟨_, _, y0, y1, x1⟩ | ⟨hneg, _⟩
  swap
  · omega
  rcases cj with ⟨_, _, y0', y1', x1'⟩ | ⟨hneg, _⟩
  swap
  · omega
  have hcases : (X' = X ∧ Y' = Y - 1) ∨ (X' = X + 1 ∧ Y' = Y) ∨ (X' = X ∧ Y' = Y + 1) ∨
      (X' = X - 1 ∧ Y' = Y) := by omega
  rcases hcases with ⟨e1, e2⟩ | ⟨e1, e2⟩ | ⟨e1, e2⟩ | ⟨e1, e2⟩
  · refine ⟨0, by decide, ?_⟩
    simp only [GetNeighborIndex, hXi, hYi]
    rw [if_pos (by omega), ej, e1, e2]
  · refine ⟨1, by decide, ?_⟩
    simp only [GetNeighborIndex, hXi, hYi]
    rw [if_pos (by omega), ej, e1, e2]
  · refine ⟨2, by decide, ?_⟩
    simp only [GetNeighborIndex, hXi, hYi]
    rw [if_pos (by omega), ej, e1, e2]
  · refine ⟨3, by decide, ?_⟩
    simp only [GetNeighborIndex, hXi, hYi]
    rw [if_pos (by omega), ej, e1, e2]

theorem opposite_twice (d : Nat) (hd : d < 4) :
    GetOppositeDirection (GetOppositeDirection d) = d := by
  have hd' : d = 0 ∨ d = 1 ∨ d = 2 ∨ d = 3 := by omega
  rcases hd' with rfl | rfl | rfl | rfl <;> rfl

/-- On a grid with positive dimensions conduction is symmetric. -/
theorem conducts_symm (s : UCircuitPuzzle) (hW : 0 < s.Width) (hH : 0 < s.Height)
    (hs : GridShaped s) (i j : Int) (hi0 : 0 ≤ i) (hi1 : i < s.Tiles.length)
    (h : Conducts s i j) : Conducts s j i := by
  rw [conducts_iff] at h ⊢
  obtain ⟨d, ci, hg, hne, cj⟩ := h
  have hstep := gni_step s hs i hi0 hi1 d (by rw [hg]; exact hne)
  have hs' : (s.Tiles.length : Int) = s.Width * s.Height := hs
  have hback := gni_back s hW hH i hi0 (by rw [← hs']; exact hi1) d (by rw [hg]; exact hne)
  rw [hg] at hback
  refine ⟨GetOppositeDirection d, cj, hback, by omega, ?_⟩
  rw [opposite_twice d hstep.2.2.1]
  exact ci

/-- A step of the inner loop of `RecomputePower` toward a neighbour that has no connector
back changes nothing. -/
theorem visit_unreciprocated (cur : Int) (s : UCircuitPuzzle) (Q : List Int) (d : ECircuitDir)
    (nb : FCircuitTile) (hnb : tileAt s.Tiles (s.GetNeighborIndex cur d) = some nb)
    (ho : GetOppositeDirection d ∉ tileConnections nb) :
    RecomputePower.visit cur (s, Q) d = some (s, Q) := by
  have hk0 := (tileAt_eq_some hnb).1
  unfold RecomputePower.visit
  simp only
  rw [if_neg (by omega), hnb]
  simp only
  by_cases hp : nb.bPowered = true
  · rw [if_pos hp]
  · rw [if_neg hp, getTileConnections_of_tileAt hnb]
    simp only
    rw [if_neg ho]

/-! ## The generated puzzle: main results -/

theorem restoreSolution_tilesRel {cfg : FCircuitPuzzleConfig} {src snk : Int}
    {s1 s2 s3 s4 s6 s : UCircuitPuzzle} (r : StartNewRun cfg src snk s1 s2 s3 s4 s6 s) :
    TilesRel SameConnector s3.Tiles (restoreSolution s).Tiles := by
  have hkeep := r.keep
  have hsol : s.SolutionRotations = s3.SolutionRotations := by
    rw [r.powered.2.solution, r.locked.2, r.scrambled.2]
  have hlen3 : s3.Tiles.length = s2.Tiles.length := r.filled.2.1.1.symm
  refine ⟨?_, ?_⟩
  · unfold restoreSolution
    simp only [List.length_zipWith]
    rw [hsol, r.solutionLength, ← hkeep.1]
    simp
  · intro n ta tb ha hb
    have hlt : n < s3.Tiles.length := (List.getElem?_eq_some_iff.mp ha).1
    have hsn : s.SolutionRotations[n]? = some ta.RotationSteps := by
      rw [hsol]
      exact (r.filled.2.2.2 n ta (by omega) ha).2
    have hslt : n < s.Tiles.length := by rw [← hkeep.1]; exact hlt
    have hst : s.Tiles[n]? = some s.Tiles[n] := List.getElem?_eq_getElem hslt
    have hk := hkeep.2 n ta _ ha hst
    unfold restoreSolution at hb
    simp only [List.getElem?_zipWith, hst, hsn] at hb
    injection hb with hb
    subst hb
    exact ⟨hk.1, rfl⟩

theorem firstSource_of_unique {x : UCircuitPuzzle} {src : Int}
    (hsrc : ∃ t, tileAt x.Tiles src = some t)
    (hk : ∀ j t, tileAt x.Tiles j = some t → (t.TileType = ECircuitTileType.Source ↔ j = src)) :
    FirstSource x src := by
  obtain ⟨t, ht⟩ := hsrc
  refine ⟨⟨t, ht, (hk src t ht).mpr rfl⟩, ?_⟩
  intro j u hj hu hS
  have := (hk j u hu).mp hS
  omega

theorem countP_eq_one_of_unique {α : Type} (p : α → Bool) :
    ∀ (l : List α) (n : Nat) (x : α), l[n]? = some x → p x = true →
      (∀ (m : Nat) (y : α), l[m]? = some y → p y = true → m = n) → l.countP p = 1 := by
  intro l
  induction l with
  | nil => intro n x h; simp at h
  | cons a l ih =>
    intro n x h hx hu
    cases n with
    | zero =>
      simp only [List.getElem?_cons_zero, Option.some.injEq] at h
      subst h
      rw [List.countP_cons_of_pos _ _ hx]
      have : l.countP p = 0 := by
        rw [List.countP_eq_zero]
        intro y hy hpy
        obtain ⟨m, hm⟩ := List.mem_iff_getElem?.mp hy
        have := hu (m + 1) y (by simpa using hm) hpy
        omega
      omega
    | succ n =>
      have ha : ¬ p a = true := by
        intro hpa
        have := hu 0 a (by simp) hpa
        omega
      rw [List.countP_cons_of_neg _ _ ha]
      refine ih n x (by simpa using h) hx ?_
      intro m y hm hy
      have := hu (m + 1) y (by simpa using hm) hy
      omega

theorem StartNewRun.length_eq {cfg : FCircuitPuzzleConfig} {src snk : Int}
    {s1 s2 s3 s4 s6 s : UCircuitPuzzle} (r : StartNewRun cfg src snk s1 s2 s3 s4 s6 s) :
    s.Tiles.length = s1.Tiles.length := by
  have h1 : (s1.Tiles.length : Int) = s1.Width * s1.Height := r.framed1.2.2.2
  have h2 : (s.Tiles.length : Int) = s.Width * s.Height := r.framed.2.2.2
  rw [r.framed1.1, r.framed1.2.1] at h1
  rw [r.framed.1, r.framed.2.1] at h2
  omega

/-- The layout with every rotation restored from `SolutionRotations` is solved. -/
theorem StartNewRun.restored_solved {cfg : FCircuitPuzzleConfig} {src snk : Int}
    {s1 s2 s3 s4 s6 s : UCircuitPuzzle} (r : StartNewRun cfg src snk s1 s2 s3 s4 s6 s) :
    ∃ after, (restoreSolution s).RecomputePower = some after ∧ after.IsSolved = true := by
  have hrel := restoreSolution_tilesRel r
  have hw : (restoreSolution s).Width = s3.Width := by
    show s.Width = s3.Width
    rw [r.framed.1, r.framed3.1]
  have hh : (restoreSolution s).Height = s3.Height := by
    show s.Height = s3.Height
    rw [r.framed.2.1, r.framed3.2.1]
  have hshape : GridShaped (restoreSolution s) := by
    have := r.framed3.2.2.2
    unfold GridShaped at *
    rw [← hrel.1, hw, hh]
    exact this
  have hreach : Reach (restoreSolution s) src snk :=
    reach_mono hw hh (hrel.mono sameConnector_connections) r.reach3
  have hlen3 : s3.Tiles.length = s1.Tiles.length := by
    rw [← r.length_eq]; exact r.keep.1
  obtain ⟨tsrc, htsrc⟩ := tileAt_isSome (l := (restoreSolution s).Tiles) r.srcRange.1
    (by rw [← hrel.1, hlen3]; exact r.srcRange.2)
  have hfirst : FirstSource (restoreSolution s) src := by
    refine firstSource_of_unique ⟨tsrc, htsrc⟩ ?_
    intro j t ht
    obtain ⟨t3, ht3, hc⟩ := hrel.tileAt_back ht
    rw [hc.1]
    exact (r.kinds3 j t3 ht3).1
  obtain ⟨after, hafter, hsame, hp⟩ := recomputePower_spec (restoreSolution s)
    (neighborsInRange_of_gridShaped hshape)
  refine ⟨after, hafter, ?_⟩
  obtain ⟨hne, he⟩ := (firstSource_iff _ _).mp hfirst
  obtain ⟨t, ht, hpow⟩ := (hp snk).mpr ⟨hne, by rw [he]; exact hreach⟩
  rw [isSolved_iff]
  refine ⟨snk, t, ht, ?_, hpow⟩
  obtain ⟨tr, htr, e1, _, _⟩ := hsame.symm.tileAt ht
  obtain ⟨t3, ht3, hc⟩ := hrel.tileAt_back htr
  rw [← e1, hc.1]
  exact (r.kinds3 snk t3 ht3).2.1.mpr rfl

/-- C1: for every configuration and every sequence of random draws for which `StartNew`
returns, setting each tile's rotation to its entry of `SolutionRotations` and running
`RecomputePower` gives a state (the call returns) in which `IsSolved()` is true. -/
theorem startNew_solution_is_solved (prior : UCircuitPuzzle) (cfg : FCircuitPuzzleConfig)
    (rs : FRandomStream) (fuel : Nat) (s : UCircuitPuzzle)
    (h : UCircuitPuzzle.StartNew prior cfg rs fuel = some s) :
    ∃ after, (restoreSolution s).RecomputePower = some after ∧ after.IsSolved = true := by
  obtain ⟨src, snk, s1, s2, s3, s4, s6, r⟩ := startNew_run h
  exact r.restored_solved

/-- Witness of C1: the run of `StartNew` on `rowConfig` with `rowDraws`. -/
theorem startNew_solution_is_solved_witness :
    UCircuitPuzzle.StartNew freshPuzzle rowConfig (streamOf rowDraws) 10 = some rowPuzzle ∧
    ∃ after, (restoreSolution rowPuzzle).RecomputePower = some after ∧ after.IsSolved = true :=
  ⟨by decide,
    startNew_solution_is_solved freshPuzzle rowConfig (streamOf rowDraws) 10 rowPuzzle
      (by decide)⟩

/-- C3: for every configuration and every sequence of random draws for which `StartNew`
returns, the tile array holds exactly one Source tile and exactly one Sink tile (counted,
and located at indices `src` and `snk`), and `AreAdjacent(src, snk)` is false. -/
theorem startNew_one_source_one_sink (prior : UCircuitPuzzle) (cfg : FCircuitPuzzleConfig)
    (rs : FRandomStream) (fuel : Nat) (s : UCircuitPuzzle)
    (h : UCircuitPuzzle.StartNew prior cfg rs fuel = some s) :
    s.Tiles.countP (fun t => decide (t.TileType = ECircuitTileType.Source)) = 1 ∧
    s.Tiles.countP (fun t => decide (t.TileType = ECircuitTileType.Sink)) = 1 ∧
    ∃ src snk,
      (∀ j t, tileAt s.Tiles j = some t →
        (t.TileType = ECircuitTileType.Source ↔ j = src) ∧
        (t.TileType = ECircuitTileType.Sink ↔ j = snk)) ∧
      (∃ t, tileAt s.Tiles src = some t) ∧ (∃ t, tileAt s.Tiles snk = some t) ∧
      s.AreAdjacent src snk = false := by
  obtain ⟨src, snk, s1, s2, s3, s4, s6, r⟩ := startNew_run h
  have hk := r.kinds
  have hlen := r.length_eq
  obtain ⟨tsrc, htsrc⟩ := tileAt_isSome (l := s.Tiles) r.srcRange.1
    (by rw [hlen]; exact r.srcRange.2)
  obtain ⟨tsnk, htsnk⟩ := tileAt_isSome (l := s.Tiles) r.snkRange.1
    (by rw [hlen]; exact r.snkRange.2)
  refine ⟨?_, ?_, src, snk, fun j t ht => ⟨(hk j t ht).1, (hk j t ht).2.1⟩, ⟨tsrc, htsrc⟩,
    ⟨tsnk, htsnk⟩, ?_⟩
  · refine countP_eq_one_of_unique _ s.Tiles src.toNat tsrc (tileAt_eq_some htsrc).2.2
      (by simpa using (hk src tsrc htsrc).1.mpr rfl) ?_
    intro m y hm hy
    have hy' : y.TileType = ECircuitTileType.Source := by simpa using hy
    have := (hk (m : Int) y (by rw [tileAt_natCast]; exact hm)).1.mp hy'
    omega
  · refine countP_eq_one_of_unique _ s.Tiles snk.toNat tsnk (tileAt_eq_some htsnk).2.2
      (by simpa using (hk snk tsnk htsnk).2.1.mpr rfl) ?_
    intro m y hm hy
    have hy' : y.TileType = ECircuitTileType.Sink := by simpa using hy
    have := (hk (m : Int) y (by rw [tileAt_natCast]; exact hm)).2.1.mp hy'
    omega
  · rw [areAdjacent_congr (r.framed.1.trans r.framed1.1.symm)]
    exact r.apart

/-- Witness of C3: the run of `StartNew` on `rowConfig` with `rowDraws`. -/
theorem startNew_one_source_one_sink_witness :
    UCircuitPuzzle.StartNew freshPuzzle rowConfig (streamOf rowDraws) 10 = some rowPuzzle ∧
    rowPuzzle.Tiles.countP (fun t => decide (t.TileType = ECircuitTileType.Source)) = 1 ∧
    rowPuzzle.Tiles.countP (fun t => decide (t.TileType = ECircuitTileType.Sink)) = 1 :=
  ⟨by decide,
    (startNew_one_source_one_sink freshPuzzle rowConfig (streamOf rowDraws) 10 rowPuzzle
      (by decide)).1,
    (startNew_one_source_one_sink freshPuzzle rowConfig (streamOf rowDraws) 10 rowPuzzle
      (by decide)).2.1⟩

/-! ## Runs of rotations: main results -/

theorem recomputePower_congr {a b : UCircuitPuzzle}
    (h : RecomputePower.reset b = RecomputePower.reset a) :
    b.RecomputePower = a.RecomputePower := by
  unfold RecomputePower
  simp only
  rw [h]

theorem set_same {α : Type} (l : List α) (n : Nat) (x : α) (h : l[n]? = some x) :
    l.set n x = l := by
  apply List.ext_getElem?
  intro m
  rw [List.getElem?_set]
  by_cases hm : n = m
  · subst hm
    have hlt := (List.getElem?_eq_some_iff.mp h).1
    simp [hlt, h]
  · simp [hm]

theorem reset_eq_rotatedTo {s : UCircuitPuzzle} {i : Int} {t : FCircuitTile}
    (ht : tileAt s.Tiles i = some t) :
    RecomputePower.reset s = rotatedTo s i t t.RotationSteps := by
  unfold rotatedTo
  have hg := (tileAt_eq_some ht).2.2
  have : (RecomputePower.reset s).Tiles[i.toNat]? =
      some (FCircuitTile.mk t.TileType t.RotationSteps t.bLocked false) := by
    simp [RecomputePower.reset, hg]
  rw [set_same _ _ _ this]

theorem rotatedTo_step {s x : UCircuitPuzzle} {i : Int} {t t' : FCircuitTile} {r : Int}
    (hx : RecomputePower.reset x = rotatedTo s i t r)
    (ht : tileAt s.Tiles i = some t) (ht' : tileAt x.Tiles i = some t') :
    RecomputePower.reset (withRotated x i t') = rotatedTo s i t ((r + 1).tmod 4) ∧
      t'.TileType = t.TileType ∧ t'.bLocked = t.bLocked := by
  obtain ⟨_, h1, hg⟩ := tileAt_eq_some ht
  have hg' := (tileAt_eq_some ht').2.2
  have hlt : i.toNat < s.Tiles.length := by omega
  have htiles := congrArg (fun y : UCircuitPuzzle => y.Tiles) hx
  simp only [rotatedTo, RecomputePower.reset] at htiles
  have hat := congrArg (fun l : List FCircuitTile => l[i.toNat]?) htiles
  simp only [List.getElem?_map, hg', Option.map_some', List.getElem?_set, if_true,
    List.length_map, hlt] at hat
  injection hat with hat
  injection hat with e1 e2 e3 _
  refine ⟨?_, e1, e3⟩
  have hW := congrArg (fun y : UCircuitPuzzle => y.Width) hx
  have hH := congrArg (fun y : UCircuitPuzzle => y.Height) hx
  have hC := congrArg (fun y : UCircuitPuzzle => y.Config) hx
  have hS := congrArg (fun y : UCircuitPuzzle => y.SolutionRotations) hx
  simp only [rotatedTo, RecomputePower.reset] at hW hH hC hS
  simp only [rotatedTo, RecomputePower.reset, withRotated, List.map_set, htiles, List.set_set,
    hW, hH, hC, hS, e1, e2, e3]

theorem rotatedTo_facts {s x : UCircuitPuzzle} {i : Int} {t : FCircuitTile} {r : Int}
    (hx : RecomputePower.reset x = rotatedTo s i t r) :
    x.Width = s.Width ∧ x.Height = s.Height ∧ x.Config = s.Config ∧
      x.Tiles.length = s.Tiles.length := by
  have hW := congrArg (fun y : UCircuitPuzzle => y.Width) hx
  have hH := congrArg (fun y : UCircuitPuzzle => y.Height) hx
  have hC := congrArg (fun y : UCircuitPuzzle => y.Config) hx
  have hT := congrArg (fun y : UCircuitPuzzle => y.Tiles.length) hx
  simp only [rotatedTo, RecomputePower.reset, List.length_set, List.length_map] at hW hH hC hT
  exact ⟨hW, hH, hC, hT⟩

theorem rotatedTo_rotate {s x : UCircuitPuzzle} {i : Int} {t : FCircuitTile} {r : Int}
    (hs : GridShaped s) (ht : tileAt s.Tiles i = some t) (hacc : ¬ RotateRefused s i)
    (hx : RecomputePower.reset x = rotatedTo s i t r) :
    ∃ t' p, tileAt x.Tiles i = some t' ∧
      x.RotateTile i = some (RotateOutcome.mk true p.IsSolved p) ∧
      (withRotated x i t').RecomputePower = some p ∧
      RecomputePower.reset (withRotated x i t') = rotatedTo s i t ((r + 1).tmod 4) ∧
      RecomputePower.reset p = rotatedTo s i t ((r + 1).tmod 4) := by
  obtain ⟨hW, hH, hC, hL⟩ := rotatedTo_facts hx
  obtain ⟨h0, h1, _⟩ := tileAt_eq_some ht
  obtain ⟨t', ht'⟩ := tileAt_isSome (l := x.Tiles) h0 (by rw [hL]; exact h1)
  obtain ⟨hstep, e1, e3⟩ := rotatedTo_step hx ht ht'
  have hxs : GridShaped x := by
    unfold GridShaped at *
    rw [hL, hW, hH]
    exact hs
  have hxacc : ¬ RotateRefused x i := by
    intro hr
    apply hacc
    rcases hr with hr | hr | ⟨u, hu, hr⟩
    · exact Or.inl hr
    · exact Or.inr (Or.inl (by rw [← hL]; exact hr))
    · rw [ht'] at hu
      injection hu with hu
      subst hu
      refine Or.inr (Or.inr ⟨t, ht, ?_⟩)
      rw [← e1, ← e3, ← hC]
      exact hr
  obtain ⟨t1, p, ht1, hp, hf, e⟩ := rotateTile_accepted_some hxs hxacc
  rw [ht'] at ht1
  injection ht1 with ht1
  subst ht1
  refine ⟨t', p, ht', e, hp, hstep, ?_⟩
  have : RecomputePower.reset p = RecomputePower.reset (withRotated x i t') := hf
  rw [this, hstep]

theorem four_steps (r : Int) (h0 : 0 ≤ r) (h3 : r ≤ 3) :
    ((((r + 1).tmod 4 + 1).tmod 4 + 1).tmod 4 + 1).tmod 4 = r := by
  have : r = 0 ∨ r = 1 ∨ r = 2 ∨ r = 3 := by omega
  rcases this with rfl | rfl | rfl | rfl <;> decide

/-- Every reachable state has the grid shape, rotations in `0..3`, and powered flags that
`RecomputePower` reproduces. -/
theorem reachable_inv {s : UCircuitPuzzle} (h : Reachable s) : ReachInv s := by
  induction h with
  | start prior cfg rs fuel s hstart =>
    obtain ⟨src, snk, s1, s2, s3, s4, s6, r⟩ := startNew_run hstart
    refine ⟨r.framed.2.2.2, fun j t ht => (r.kinds j t ht).2.2.2.2, ?_⟩
    rw [recomputePower_congr (a := s6) r.powered.2]
    exact r.powered.1
  | rotate s i out _ hrot ih =>
    obtain ⟨hs, hrange, hfresh⟩ := ih
    by_cases href : RotateRefused s i
    · rw [rotateTile_refused href] at hrot
      injection hrot with hrot
      subst hrot
      exact ⟨hs, hrange, hfresh⟩
    · obtain ⟨t, p, ht, hp, hf, e⟩ := rotateTile_accepted_some hs href
      rw [e] at hrot
      injection hrot with hrot
      subst hrot
      simp only
      refine ⟨hf.gridShaped (withRotated_sameShape s i t hs), ?_, ?_⟩
      · intro j u hu
        obtain ⟨u1, hu1, e1, e2, _⟩ := hf.symm.tileAt hu
        unfold RotInRange
        rw [← e2]
        by_cases hji : j = i
        · subst hji
          have : tileAt (withRotated s j t).Tiles j =
              some { t with RotationSteps := (t.RotationSteps + 1).tmod 4 } :=
            tileAt_set_self ht
          rw [this] at hu1
          injection hu1 with hu1
          subst hu1
          exact tmod_four_range _ (by have := (hrange j t ht).1; omega)
        · have : tileAt (withRotated s i t).Tiles j = tileAt s.Tiles j :=
            tileAt_set_ne (tileAt_eq_some ht).1 hji
          rw [this] at hu1
          exact hrange j u1 hu1
      · rw [recomputePower_congr (a := withRotated s i t) hf]
        exact hp

/-- C8: in any state reached by `StartNew` followed by `RotateTile` calls, and for any
tile on which `RotateTile` succeeds, four calls of `RotateTile` on that tile in a row all
succeed and lead back to the state before them: every tile has its former rotation and
its former powered flag. -/
theorem rotateTile_four_times (s : UCircuitPuzzle) (hr : Reachable s) (Index : Int)
    (hacc : ¬ RotateRefused s Index) :
    ∃ o1 o2 o3 o4, s.RotateTile Index = some o1 ∧ o1.Returned = true ∧
      o1.State.RotateTile Index = some o2 ∧ o2.Returned = true ∧
      o2.State.RotateTile Index = some o3 ∧ o3.Returned = true ∧
      o3.State.RotateTile Index = some o4 ∧ o4.Returned = true ∧
      o4.State = s := by
  obtain ⟨hs, hrange, hfresh⟩ := reachable_inv hr
  have hacc' := hacc
  unfold RotateRefused at hacc'
  push_neg at hacc'
  obtain ⟨t, ht⟩ := tileAt_isSome (l := s.Tiles) hacc'.1 hacc'.2.1
  obtain ⟨t1, p1, _, e1, _, _, r1⟩ := rotatedTo_rotate hs ht hacc (reset_eq_rotatedTo ht)
  obtain ⟨t2, p2, _, e2, _, _, r2⟩ := rotatedTo_rotate hs ht hacc r1
  obtain ⟨t3, p3, _, e3, _, _, r3⟩ := rotatedTo_rotate hs ht hacc r2
  obtain ⟨t4, p4, _, e4, hp4, q4, _⟩ := rotatedTo_rotate hs ht hacc r3
  have hback : RecomputePower.reset (withRotated p3 Index t4) = RecomputePower.reset s := by
    rw [q4, four_steps _ (hrange Index t ht).1 (hrange Index t ht).2]
    exact (reset_eq_rotatedTo ht).symm
  have hp4s : p4 = s := by
    rw [recomputePower_congr hback, hfresh] at hp4
    injection hp4 with hp4
    exact hp4.symm
  exact ⟨_, _, _, _, e1, rfl, e2, rfl, e3, rfl, e4, rfl, hp4s⟩

theorem reachable_rowPuzzle : Reachable rowPuzzle :=
  Reachable.start freshPuzzle rowConfig (streamOf rowDraws) 10 rowPuzzle (by decide)

theorem rowPuzzle_accepts_three : ¬ RotateRefused rowPuzzle 3 := by
  unfold RotateRefused
  simp [rowPuzzle, tileAt]

/-- Witness of C8: tile 3 of the puzzle built from `rowConfig` and `rowDraws`. -/
theorem rotateTile_four_times_witness :
    Reachable rowPuzzle ∧ ¬ RotateRefused rowPuzzle 3 ∧
    ∃ o1 o2 o3 o4, rowPuzzle.RotateTile 3 = some o1 ∧ o1.Returned = true ∧
      o1.State.RotateTile 3 = some o2 ∧ o2.Returned = true ∧
      o2.State.RotateTile 3 = some o3 ∧ o3.Returned = true ∧
      o3.State.RotateTile 3 = some o4 ∧ o4.Returned = true ∧
      o4.State = rowPuzzle :=
  ⟨reachable_rowPuzzle, rowPuzzle_accepts_three,
    rotateTile_four_times rowPuzzle reachable_rowPuzzle 3 rowPuzzle_accepts_three⟩

theorem lockedPuzzle_refuses (i : Int) : RotateRefused lockedPuzzle i := by
  by_cases h0 : i < 0
  · exact Or.inl h0
  · by_cases h3 : i ≥ 3
    · exact Or.inr (Or.inl h3)
    · have : i = 0 ∨ i = 1 ∨ i = 2 := by omega
      rcases this with rfl | rfl | rfl
      · exact Or.inr (Or.inr ⟨_, rfl, Or.inr (Or.inl ⟨rfl, rfl⟩)⟩)
      · exact Or.inr (Or.inr ⟨_, rfl, Or.inl rfl⟩)
      · exact Or.inr (Or.inr ⟨_, rfl, Or.inr (Or.inr ⟨rfl, rfl⟩)⟩)

/-- C2 fails on the code: `StartNew` on `lockConfig` with `lockDraws` returns a puzzle that
is not solved, in which the Straight tile between Source and Sink was scrambled to the
vertical position and then locked; every `RotateTile` call is refused, so after any
sequence of calls the state is the same and `IsSolved()` is still false. -/
theorem startNew_locked_unsolvable :
    UCircuitPuzzle.StartNew freshPuzzle lockConfig (streamOf lockDraws) 10 = some lockedPuzzle ∧
    lockedPuzzle.IsSolved = false ∧
    ∀ moves : List Int, rotateMany lockedPuzzle moves = some lockedPuzzle := by
  refine ⟨by decide, by decide, ?_⟩
  intro moves
  induction moves with
  | nil => rfl
  | cons i rest ih =>
    unfold rotateMany
    rw [rotateTile_refused (lockedPuzzle_refuses i)]
    exact ih

/-! ## Invariants of the reachable states, continued -/

theorem StartNewRun.solutionKept {cfg : FCircuitPuzzleConfig} {src snk : Int}
    {s1 s2 s3 s4 s6 s : UCircuitPuzzle} (r : StartNewRun cfg src snk s1 s2 s3 s4 s6 s) :
    s.SolutionRotations = s3.SolutionRotations := by
  rw [r.powered.2.solution, r.locked.2, r.scrambled.2]

theorem startNew_solutionInv {cfg : FCircuitPuzzleConfig} {src snk : Int}
    {s1 s2 s3 s4 s6 s : UCircuitPuzzle} (r : StartNewRun cfg src snk s1 s2 s3 s4 s6 s) :
    SolutionInv s := by
  have hlen : s3.Tiles.length = s.Tiles.length := r.keep.1
  refine ⟨?_, ?_, fun j t ht => ⟨(r.kinds j t ht).2.2.1, (r.kinds j t ht).2.2.2.1⟩⟩
  · rw [r.solutionKept, r.solutionLength, hlen]
  · intro n v hv
    rw [r.solutionKept] at hv
    have hn : n < s3.SolutionRotations.length := (List.getElem?_eq_some_iff.mp hv).1
    rw [r.solutionLength] at hn
    have ht : s3.Tiles[n]? = some s3.Tiles[n] := List.getElem?_eq_getElem hn
    generalize s3.Tiles[n] = t at ht
    have hn2 : n < s2.Tiles.length := by rw [r.filled.2.1.1]; exact hn
    have hsol := (r.filled.2.2.2 n t hn2 ht).2
    rw [hsol] at hv
    injection hv with hv
    subst hv
    have hk := r.kinds3 (n : Int) t (by rw [tileAt_natCast]; exact ht)
    exact hk.2.2.2.2

theorem reachable_solutionInv {s : UCircuitPuzzle} (h : Reachable s) : SolutionInv s := by
  induction h with
  | start prior cfg rs fuel s hstart =>
    obtain ⟨src, snk, s1, s2, s3, s4, s6, r⟩ := startNew_run hstart
    exact startNew_solutionInv r
  | rotate s i out hreach hrot ih =>
    have hs := (reachable_inv hreach).1
    by_cases href : RotateRefused s i
    · rw [rotateTile_refused href] at hrot
      injection hrot with hrot
      subst hrot
      exact ih
    · obtain ⟨t, p, ht, hp, hf, e⟩ := rotateTile_accepted_some hs href
      rw [e] at hrot
      injection hrot with hrot
      subst hrot
      simp only
      obtain ⟨i1, i2, i3⟩ := ih
      have hlenW : (withRotated s i t).Tiles.length = s.Tiles.length := by
        unfold withRotated
        simp
      have hsolW : (withRotated s i t).SolutionRotations = s.SolutionRotations := rfl
      refine ⟨?_, ?_, ?_⟩
      · rw [hf.solution, hf.length, hsolW, hlenW]
        exact i1
      · intro n v hv
        rw [hf.solution, hsolW] at hv
        exact i2 n v hv
      · intro j u hu
        obtain ⟨u1, hu1, e1, _, _⟩ := hf.symm.tileAt hu
        obtain ⟨j0, j1, _⟩ := tileAt_eq_some hu1
        rw [hlenW] at j1
        obtain ⟨u0, hu0⟩ := tileAt_isSome (l := s.Tiles) j0 j1
        obtain ⟨u', hu', k1, _, _⟩ := withRotated_tileAt ht hu0
        rw [hu1] at hu'
        injection hu' with hu'
        subst hu'
        have := i3 j u0 hu0
        rw [← e1, k1]
        exact this

/-! ## Connector geometry and index arithmetic: main results -/

theorem tileConnections_table (k : ECircuitTileType) (r : Int) (l p : Bool) (h0 : 0 ≤ r)
    (h3 : r ≤ 3) :
    tileConnections (FCircuitTile.mk k r l p) = specConnections k r ∧
      (specConnections k r).Nodup ∧
      (k = ECircuitTileType.Tee → ((r + 2) % 4).toNat ∉ specConnections k r) := by
  have hr : r = 0 ∨ r = 1 ∨ r = 2 ∨ r = 3 := by omega
  rcases hr with rfl | rfl | rfl | rfl <;> cases k <;>
    simp [tileConnections, specConnections, castDir, Int.tmod]

/-- C13: for every tile kind and every rotation `r` in `0..3`, `GetTileConnections`
returns the directions of the specification table, in the order Empty and Blocker: none;
Source and Sink: `r mod 4`; Straight: Up, Down for even `r` and Right, Left for odd `r`;
Elbow: `r mod 4`, `(r+1) mod 4`; Tee: `r mod 4`, `(r+1) mod 4`, `(r+3) mod 4`, omitting
`(r+2) mod 4`; Cross: all four; and the returned list repeats no direction. -/
theorem getTileConnections_table (self : UCircuitPuzzle) (Index : Int) (Tile : FCircuitTile)
    (ht : tileAt self.Tiles Index = some Tile) (h0 : 0 ≤ Tile.RotationSteps)
    (h3 : Tile.RotationSteps ≤ 3) :
    ∃ Connections, self.GetTileConnections Index = some Connections ∧
      Connections = specConnections Tile.TileType Tile.RotationSteps ∧ Connections.Nodup ∧
      (Tile.TileType = ECircuitTileType.Tee →
        ((Tile.RotationSteps + 2) % 4).toNat ∉ Connections) := by
  obtain ⟨k, r, l, p⟩ := Tile
  obtain ⟨e, hnd, htee⟩ := tileConnections_table k r l p h0 h3
  refine ⟨_, getTileConnections_of_tileAt ht, e, ?_, ?_⟩
  · rw [e]; exact hnd
  · rw [e]; exact htee

/-- Witness of C13 on the Straight tile of the 3 x 1 sample grid. -/
theorem getTileConnections_table_witness :
    tileAt lineGrid.Tiles 1 = some (FCircuitTile.mk ECircuitTileType.Straight 1 false true) ∧
    ∃ Connections, lineGrid.GetTileConnections 1 = some Connections ∧
      Connections = specConnections ECircuitTileType.Straight 1 ∧ Connections.Nodup :=
  ⟨by decide,
    (getTileConnections_table lineGrid 1 (FCircuitTile.mk ECircuitTileType.Straight 1 false true)
      (by decide) (by decide) (by decide)).imp (fun _ h => ⟨h.1, h.2.1, h.2.2.1⟩)⟩

theorem pos_coords (W c : Int) (hW : 0 < W) (hc : 0 ≤ c) :
    c.tmod W = c % W ∧ c.tdiv W = c / W :=
  ⟨Int.tmod_eq_emod hc (le_of_lt hW), Int.tdiv_eq_ediv hc (le_of_lt hW)⟩

theorem pos_cell (W H q r : Int) (hW : 0 < W) (hH : 0 < H) (hq0 : 0 ≤ q) (hq1 : q < H)
    (hr0 : 0 ≤ r) (hr1 : r < W) :
    0 ≤ q * W + r ∧ q * W + r < W * H ∧ (q * W + r) % W = r ∧ (q * W + r) / W = q := by
  obtain ⟨n0, n1, nx, ny⟩ := grid_cell W H q r ⟨hr0, Or.inl ⟨hW, hH, hq0, hq1, hr1⟩⟩
  rw [(pos_coords W _ hW n0).1] at nx
  rw [(pos_coords W _ hW n0).2] at ny
  exact ⟨n0, n1, nx, ny⟩

/-- C14: on a grid with `Width, Height >= 1`, for an index `i` of `[0, Width*Height)` with
`x = i mod Width` and `y = i div Width`, `GetNeighborIndex` returns `-1` exactly when the
step leaves the grid (Up at `y = 0`, Right at `x = Width-1`, Down at `y = Height-1`, Left at
`x = 0`), and otherwise the index of the cell `(x, y-1)`, `(x+1, y)`, `(x, y+1)`, `(x-1, y)`,
which lies in `[0, Width*Height)` and has exactly these coordinates (no wrap-around). -/
theorem getNeighborIndex_table (self : UCircuitPuzzle) (Index x y : Int)
    (hW : 0 < self.Width) (hH : 0 < self.Height) (h0 : 0 ≤ Index)
    (h1 : Index < self.Width * self.Height) (hx : x = Index % self.Width)
    (hy : y = Index / self.Width) :
    (self.GetNeighborIndex Index ECircuitDir.Up =
        if y = 0 then -1 else (y - 1) * self.Width + x) ∧
    (self.GetNeighborIndex Index ECircuitDir.Right =
        if x = self.Width - 1 then -1 else y * self.Width + (x + 1)) ∧
    (self.GetNeighborIndex Index ECircuitDir.Down =
        if y = self.Height - 1 then -1 else (y + 1) * self.Width + x) ∧
    (self.GetNeighborIndex Index ECircuitDir.Left =
        if x = 0 then -1 else y * self.Width + (x - 1)) ∧
    (y ≠ 0 → 0 ≤ (y - 1) * self.Width + x ∧
      (y - 1) * self.Width + x < self.Width * self.Height ∧
      ((y - 1) * self.Width + x) % self.Width = x ∧
      ((y - 1) * self.Width + x) / self.Width = y - 1) ∧
    (x ≠ self.Width - 1 → 0 ≤ y * self.Width + (x + 1) ∧
      y * self.Width + (x + 1) < self.Width * self.Height ∧
      (y * self.Width + (x + 1)) % self.Width = x + 1 ∧
      (y * self.Width + (x + 1)) / self.Width = y) ∧
    (y ≠ self.Height - 1 → 0 ≤ (y + 1) * self.Width + x ∧
      (y + 1) * self.Width + x < self.Width * self.Height ∧
      ((y + 1) * self.Width + x) % self.Width = x ∧
      ((y + 1) * self.Width + x) / self.Width = y + 1) ∧
    (x ≠ 0 → 0 ≤ y * self.Width + (x - 1) ∧
      y * self.Width + (x - 1) < self.Width * self.Height ∧
      (y * self.Width + (x - 1)) % self.Width = x - 1 ∧
      (y * self.Width + (x - 1)) / self.Width = y) := by
  have eX : Index.tmod self.Width = x := by rw [(pos_coords _ Index hW h0).1, hx]
  have eY : Index.tdiv self.Width = y := by rw [(pos_coords _ Index hW h0).2, hy]
  obtain ⟨⟨x0, hcell⟩, _⟩ := grid_coords self.Width self.Height Index h0 h1
  rw [eX] at x0
  rw [eX, eY] at hcell
  have hc : 0 ≤ y ∧ y < self.Height ∧ x < self.Width := by
    rcases hcell with ⟨_, _, a, b, c⟩ | ⟨hneg, _⟩
    · exact ⟨a, b, c⟩
    · omega
  obtain ⟨y0, y1, x1⟩ := hc
  refine ⟨?_, ?_, ?_, ?_, ?_, ?_, ?_, ?_⟩
  · simp only [GetNeighborIndex, eX, eY]
    by_cases h : y = 0
    · rw [if_pos h, if_neg (by omega)]
    · rw [if_neg h, if_pos (by omega)]
  · simp only [GetNeighborIndex, eX, eY]
    by_cases h : x = self.Width - 1
    · rw [if_pos h, if_neg (by omega)]
    · rw [if_neg h, if_pos (by omega)]
  · simp only [GetNeighborIndex, eX, eY]
    by_cases h : y = self.Height - 1
    · rw [if_pos h, if_neg (by omega)]
    · rw [if_neg h, if_pos (by omega)]
  · simp only [GetNeighborIndex, eX, eY]
    by_cases h : x = 0
    · rw [if_pos h, if_neg (by omega)]
    · rw [if_neg h, if_pos (by omega)]
  · intro h
    exact pos_cell _ _ _ _ hW hH (by omega) (by omega) x0 x1
  · intro h
    exact pos_cell _ _ _ _ hW hH y0 y1 (by omega) (by omega)
  · intro h
    exact pos_cell _ _ _ _ hW hH (by omega) (by omega) x0 x1
  · intro h
    exact pos_cell _ _ _ _ hW hH y0 y1 (by omega) (by omega)

/-- Witness of C14 on the 3 x 1 sample grid, at the middle cell. -/
theorem getNeighborIndex_table_witness :
    (0 : Int) < lineGrid.Width ∧ (0 : Int) < lineGrid.Height ∧
    (lineGrid.GetNeighborIndex 1 ECircuitDir.Up = if (0 : Int) = 0 then -1 else (0 - 1) * 3 + 1) ∧
    (lineGrid.GetNeighborIndex 1 ECircuitDir.Right =
        if (1 : Int) = 3 - 1 then -1 else 0 * 3 + (1 + 1)) :=
  ⟨by decide, by decide,
    (getNeighborIndex_table lineGrid 1 1 0 (by decide) (by decide) (by decide) (by decide)
      (by decide) (by decide)).1,
    (getNeighborIndex_table lineGrid 1 1 0 (by decide) (by decide) (by decide) (by decide)
      (by decide) (by decide)).2.1⟩

theorem areAdjacent_iff_manhattan (s : UCircuitPuzzle) (i j : Int) (hW : 0 < s.Width)
    (hi : 0 ≤ i) (hj : 0 ≤ j) :
    s.AreAdjacent i j = true ↔
      |i % s.Width - j % s.Width| + |i / s.Width - j / s.Width| = 1 := by
  unfold AreAdjacent
  rw [(pos_coords _ i hW hi).1, (pos_coords _ i hW hi).2, (pos_coords _ j hW hj).1,
    (pos_coords _ j hW hj).2]
  simp only [Int.natCast_natAbs, Bool.or_eq_true, Bool.and_eq_true, beq_iff_eq]
  generalize i % s.Width - j % s.Width = a
  generalize i / s.Width - j / s.Width = b
  have ha := abs_nonneg a
  have hb := abs_nonneg b
  constructor
  · rintro (⟨h1, h2⟩ | ⟨h1, h2⟩) <;> omega
  · intro h
    omega

theorem areAdjacent_self (s : UCircuitPuzzle) (i : Int) : s.AreAdjacent i i = false := by
  simp [AreAdjacent]

theorem areAdjacent_comm (s : UCircuitPuzzle) (i j : Int) :
    s.AreAdjacent i j = s.AreAdjacent j i := by
  unfold AreAdjacent
  simp only
  have e1 : (i.tmod s.Width - j.tmod s.Width).natAbs = (j.tmod s.Width - i.tmod s.Width).natAbs := by
    omega
  have e2 : (i.tdiv s.Width - j.tdiv s.Width).natAbs = (j.tdiv s.Width - i.tdiv s.Width).natAbs := by
    omega
  rw [e1, e2]

/-- C15 as stated fails for width 1: in a grid one tile wide the last cell of row 0 (index
`(0+1)*Width - 1 = 0`) and the first cell of row 1 (index `(0+1)*Width = 1`) lie in the
same column, one row apart, and `AreAdjacent` is true for them. -/
theorem areAdjacent_rowEnd_width_one :
    (1 : Int) ≤ columnGrid.Width ∧
    columnGrid.AreAdjacent ((0 + 1) * columnGrid.Width - 1) ((0 + 1) * columnGrid.Width) = true := by
  decide

/-- C15, amended: for every width `>= 1` and all non-negative indices `i`, `j`,
`AreAdjacent(i, j)` is true exactly when the Manhattan distance of their row-major
coordinates is 1; `AreAdjacent(i, i)` is false; `AreAdjacent` is symmetric; and for every
width `>= 2` the last cell of a row is not adjacent to the first cell of the next row. -/
theorem areAdjacent_manhattan (self : UCircuitPuzzle) (i j : Int) (hW : 1 ≤ self.Width)
    (hi : 0 ≤ i) (hj : 0 ≤ j) :
    (self.AreAdjacent i j = true ↔
      |i % self.Width - j % self.Width| + |i / self.Width - j / self.Width| = 1) ∧
    self.AreAdjacent i i = false ∧
    self.AreAdjacent i j = self.AreAdjacent j i ∧
    (2 ≤ self.Width → ∀ y : Int, 0 ≤ y →
      self.AreAdjacent ((y + 1) * self.Width - 1) ((y + 1) * self.Width) = false) := by
  refine ⟨areAdjacent_iff_manhattan self i j (by omega) hi hj, areAdjacent_self self i,
    areAdjacent_comm self i j, ?_⟩
  intro h2 y hy
  have hyW : 0 ≤ y * self.Width := mul_nonneg hy (by omega)
  have ea : (y + 1) * self.Width - 1 = y * self.Width + (self.Width - 1) := by ring
  have eb : (y + 1) * self.Width = (y + 1) * self.Width + 0 := by ring
  have hA := tdiv_tmod_unique self.Width ((y + 1) * self.Width - 1) y (self.Width - 1)
    (by omega) ea (by omega) (by rw [abs_of_pos (by omega)]; omega)
  have hb0 : 0 ≤ (y + 1) * self.Width := mul_nonneg (by omega) (by omega)
  have hB := tdiv_tmod_unique self.Width ((y + 1) * self.Width) (y + 1) 0 hb0 eb (le_refl 0)
    (by rw [abs_of_pos (by omega)]; omega)
  unfold AreAdjacent
  simp only [hA.1, hA.2, hB.1, hB.2]
  have n1 : ((self.Width - 1 - 0).natAbs : Int) = self.Width - 1 := by omega
  have n2 : ((y - (y + 1)).natAbs : Int) = 1 := by omega
  rw [n1, n2]
  have w1 : ¬ self.Width - 1 = 1 → (self.Width - 1 == 1) = false := by
    intro h; simpa using h
  have w0 : (self.Width - 1 == 0) = false := by
    have : ¬ self.Width - 1 = 0 := by omega
    simpa using this
  rw [w0]
  simp

/-- Witness of the amended C15 on the 3 x 1 sample grid. -/
theorem areAdjacent_manhattan_witness :
    (1 : Int) ≤ lineGrid.Width ∧ (2 : Int) ≤ lineGrid.Width ∧
    (lineGrid.AreAdjacent 0 1 = true ↔
      |(0 : Int) % lineGrid.Width - 1 % lineGrid.Width|
        + |(0 : Int) / lineGrid.Width - 1 / lineGrid.Width| = 1) ∧
    lineGrid.AreAdjacent ((0 + 1) * lineGrid.Width - 1) ((0 + 1) * lineGrid.Width) = false :=
  ⟨by decide, by decide,
    (areAdjacent_manhattan lineGrid 0 1 (by decide) (by decide) (by decide)).1,
    (areAdjacent_manhattan lineGrid 0 1 (by decide) (by decide) (by decide)).2.2.2
      (by decide) 0 (by decide)⟩

/-! ## Directions toward the two path neighbours of a tile -/

theorem areAdjacent_coords {s : UCircuitPuzzle} {a b : Int} (h : s.AreAdjacent a b = true) :
    (a.tmod s.Width - b.tmod s.Width).natAbs + (a.tdiv s.Width - b.tdiv s.Width).natAbs = 1 := by
  unfold AreAdjacent at h
  simp only [Bool.or_eq_true, Bool.and_eq_true, beq_iff_eq] at h
  omega

/-- Two cells adjacent to `a` that lie in the same direction from `a` are the same cell. -/
theorem adjacent_dir_inj (s : UCircuitPuzzle) (a p q : Int) (hp : s.AreAdjacent a p = true)
    (hq : s.AreAdjacent a q = true) (hd : s.GetDirectionTo a p = s.GetDirectionTo a q) :
    p = q := by
  have cp := areAdjacent_coords hp
  have cq := areAdjacent_coords hq
  have ep := Int.tmod_add_tdiv p s.Width
  have eq := Int.tmod_add_tdiv q s.Width
  unfold GetDirectionTo at hd
  simp only at hd
  generalize a.tmod s.Width = ax at *
  generalize a.tdiv s.Width = ay at *
  generalize p.tmod s.Width = px at *
  generalize p.tdiv s.Width = py at *
  generalize q.tmod s.Width = qx at *
  generalize q.tdiv s.Width = qy at *
  have key : px = qx ∧ py = qy := by
    split_ifs at hd <;> first | omega | (exact absurd hd (by decide))
  rw [← ep, ← eq, key.1, key.2]

theorem path_dirs_distinct {s : UCircuitPuzzle} (hs : GridShaped s) {src snk : Int}
    {P : List Int} (hP : PathInv s src P snk) {k : Nat} {p a q : Int} (hk : 1 ≤ k)
    (hp : P[k - 1]? = some p) (ha : P[k]? = some a) (hq : P[k + 1]? = some q) :
    s.GetDirectionTo a p ≠ s.GetDirectionTo a q := by
  obtain ⟨_, _, hnd, hrange, hstep⟩ := hP
  intro hd
  obtain ⟨p0, p1⟩ := hrange p (List.getElem?_mem hp)
  obtain ⟨a0, a1⟩ := hrange a (List.getElem?_mem ha)
  have e : k - 1 + 1 = k := by omega
  have s1 : Step s p a := hstep (k - 1) p a hp (by rw [e]; exact ha)
  have s2 : Step s a q := hstep k a q ha hq
  have adj1 : s.AreAdjacent a p = true := by
    rw [areAdjacent_comm]
    exact step_adjacent hs p0 p1 s1
  have adj2 := step_adjacent hs a0 a1 s2
  have := adjacent_dir_inj s a p q adj1 adj2 hd
  subst this
  exact nodup_getElem?_ne hnd hq (by omega) hp

theorem dirs_branch (d1 d2 : Nat) (h1 : d1 < 4) (h2 : d2 < 4) (hne : d1 ≠ d2) :
    dirToInt d1 ≠ dirToInt d2 ∧
    (((dirToInt d1 - dirToInt d2).natAbs : Int) = 2 ∨
      dirToInt d2 = (dirToInt d1 + 1).tmod 4 ∨ dirToInt d1 = (dirToInt d2 + 1).tmod 4) := by
  have c1 : d1 = 0 ∨ d1 = 1 ∨ d1 = 2 ∨ d1 = 3 := by omega
  have c2 : d2 = 0 ∨ d2 = 1 ∨ d2 = 2 ∨ d2 = 3 := by omega
  rcases c1 with rfl | rfl | rfl | rfl <;> rcases c2 with rfl | rfl | rfl | rfl <;>
    first | (exact absurd rfl hne) | decide

theorem two_of_pair {x y d1 d2 : Nat} (h1 : d1 ∈ [x, y]) (h2 : d2 ∈ [x, y]) (hne : d1 ≠ d2) :
    ∀ d, d ∈ [x, y] ↔ d = d1 ∨ d = d2 := by
  intro d
  simp only [List.mem_cons, List.mem_singleton, List.not_mem_nil, or_false] at h1 h2 ⊢
  omega

theorem pair_connections (t : FCircuitTile)
    (hk : t.TileType = ECircuitTileType.Straight ∨ t.TileType = ECircuitTileType.Elbow) :
    ∃ x y, tileConnections t = [x, y] := by
  rcases hk with hk | hk
  · exact ⟨_, _, by unfold tileConnections; rw [hk]⟩
  · exact ⟨_, _, by unfold tileConnections; rw [hk]⟩

theorem single_connection (t : FCircuitTile)
    (hk : t.TileType = ECircuitTileType.Source ∨ t.TileType = ECircuitTileType.Sink)
    {d : Nat} (hd : d ∈ tileConnections t) : tileConnections t = [d] := by
  have : ∃ x, tileConnections t = [x] := by
    rcases hk with hk | hk
    · exact ⟨_, by unfold tileConnections; rw [hk]⟩
    · exact ⟨_, by unfold tileConnections; rw [hk]⟩
  obtain ⟨x, hx⟩ := this
  rw [hx] at hd ⊢
  simp only [List.mem_singleton] at hd
  rw [hd]

/-! ## Locks, power and the solved state: main results -/

/-- C16: for every lock count and every sequence of random draws, `ApplyLocks` returns and
leaves every Source tile and every Sink tile exactly as it was (in particular its locked
flag), and the kinds of all tiles stay; and in every state returned by `StartNew` the
Source and Sink tiles are not locked. -/
theorem applyLocks_spares_source_sink (self : UCircuitPuzzle) (RandStream : FRandomStream) :
    (∃ s' rs', self.ApplyLocks RandStream = some (s', rs') ∧
      s'.Tiles.length = self.Tiles.length ∧
      (∀ j t, tileAt self.Tiles j = some t →
        t.TileType = ECircuitTileType.Source ∨ t.TileType = ECircuitTileType.Sink →
        tileAt s'.Tiles j = some t) ∧
      (∀ j t', tileAt s'.Tiles j = some t' →
        t'.TileType = ECircuitTileType.Source ∨ t'.TileType = ECircuitTileType.Sink →
        tileAt self.Tiles j = some t')) ∧
    (∀ (InConfig : FCircuitPuzzleConfig) (fuel : Nat) (s : UCircuitPuzzle),
      self.StartNew InConfig RandStream fuel = some s →
      ∀ j t, tileAt s.Tiles j = some t →
        t.TileType = ECircuitTileType.Source ∨ t.TileType = ECircuitTileType.Sink →
        t.bLocked = false) := by
  constructor
  · obtain ⟨⟨s', rs'⟩, h⟩ := applyLocks_total self RandStream
    obtain ⟨_, _, _, _, hrel⟩ := applyLocks_spec h
    refine ⟨s', rs', h, hrel.1.symm, ?_, ?_⟩
    · intro j t ht hk
      obtain ⟨t', ht', hl⟩ := hrel.tileAt_fwd ht
      have e : t' = t := lockRel_sourceSink hl hk
      rw [ht', e]
    · intro j t' ht' hk
      obtain ⟨t, ht, hl⟩ := hrel.tileAt_back ht'
      have e : t' = t := lockRel_sourceSink hl (by rw [← hl.1]; exact hk)
      rw [ht, e]
  · intro cfg fuel s h
    obtain ⟨src, snk, s1, s2, s3, s4, s6, hrun⟩ := startNew_run h
    exact hrun.sourceSink_unlocked

/-- Witness of C16: `ApplyLocks` with a draw that lands on the Source of the 3 x 1 sample
grid, and the run of `StartNew` that locks the middle tile. -/
theorem applyLocks_spares_source_sink_witness :
    (∃ s' rs', lineGrid.ApplyLocks (streamOf [0]) = some (s', rs') ∧
      s'.Tiles.length = lineGrid.Tiles.length ∧
      (∀ j t, tileAt lineGrid.Tiles j = some t →
        t.TileType = ECircuitTileType.Source ∨ t.TileType = ECircuitTileType.Sink →
        tileAt s'.Tiles j = some t) ∧
      (∀ j t', tileAt s'.Tiles j = some t' →
        t'.TileType = ECircuitTileType.Source ∨ t'.TileType = ECircuitTileType.Sink →
        tileAt lineGrid.Tiles j = some t')) ∧
    freshPuzzle.StartNew lockConfig (streamOf lockDraws) 8 = some lockedPuzzle ∧
    ∀ j t, tileAt lockedPuzzle.Tiles j = some t →
      t.TileType = ECircuitTileType.Source ∨ t.TileType = ECircuitTileType.Sink →
      t.bLocked = false :=
  ⟨(applyLocks_spares_source_sink lineGrid (streamOf [0])).1, by decide,
    (applyLocks_spares_source_sink freshPuzzle (streamOf lockDraws)).2 lockConfig 8
      lockedPuzzle (by decide)⟩

/-- C17: on the 3 x 1 grid with Source at index 0 with rotation 1, a Straight tile at
index 1 with rotation `r` and Sink at index 2 with rotation 3, whatever the powered flags
were before, `RecomputePower` returns, and afterwards `IsSolved()` is true when `r` is odd
and false when `r` is even. -/
theorem straightRow_solved_iff_odd (r : Int) (p0 p1 p2 : Bool) :
    ∃ s', (straightRow r p0 p1 p2).RecomputePower = some s' ∧
      (r % 2 = 1 → s'.IsSolved = true) ∧ (r % 2 = 0 → s'.IsSolved = false) := by
  by_cases h : r.tmod 2 = 0
  · refine ⟨_, straightRow_even r p0 p1 p2 h, ?_, ?_⟩
    · intro h1
      have := (tmod_two_eq_zero_iff r).1 h
      omega
    · intro _
      rfl
  · refine ⟨_, straightRow_odd r p0 p1 p2 h, ?_, ?_⟩
    · intro _
      rfl
    · intro h0
      exact absurd ((tmod_two_eq_zero_iff r).2 h0) h

/-- Witness of C17 for the horizontal rotation 1 and the vertical rotation 2, with stale
powered flags. -/
theorem straightRow_solved_iff_odd_witness :
    (∃ s', (straightRow 1 false true false).RecomputePower = some s' ∧ s'.IsSolved = true) ∧
    (∃ s', (straightRow 2 false true true).RecomputePower = some s' ∧ s'.IsSolved = false) := by
  obtain ⟨a, ha, h1, _⟩ := straightRow_solved_iff_odd 1 false true false
  obtain ⟨b, hb, _, h2⟩ := straightRow_solved_iff_odd 2 false true true
  exact ⟨⟨a, ha, h1 (by decide)⟩, ⟨b, hb, h2 (by decide)⟩⟩

/-- C18 as stated fails: the puzzle built from `rowConfig` and `rowDraws` is solved, and
the successful call `RotateTile(1)`, which turns the Straight tile between Source and Sink
from horizontal to vertical, leaves `IsSolved()` false. -/
theorem rotateTile_leaves_solved :
    Reachable rowPuzzle ∧ rowPuzzle.IsSolved = true ∧
    rowPuzzle.RotateTile 1 = some (RotateOutcome.mk true false rowPuzzleTurned) ∧
    rowPuzzleTurned.IsSolved = false :=
  ⟨reachable_rowPuzzle, by decide, by decide, by decide⟩

/-- C18, amended: in any state reached from `StartNew` by `RotateTile` calls, solved or
not, every `RotateTile` call returns; a call that returns false leaves the state, and so
`IsSolved()`, unchanged; and after the call `IsSolved()` is true exactly when, in the
state after the call, a Sink tile is connected to the first Source tile by conducting
steps. -/
theorem rotateTile_solved_iff_connected (s : UCircuitPuzzle) (h : Reachable s) (Index : Int) :
    ∃ out, s.RotateTile Index = some out ∧
      (out.Returned = false → out.State = s ∧ out.State.IsSolved = s.IsSolved) ∧
      (out.State.IsSolved = true ↔
        ∃ src snk t, FirstSource out.State src ∧ tileAt out.State.Tiles snk = some t ∧
          t.TileType = ECircuitTileType.Sink ∧ Reach out.State src snk) := by
  obtain ⟨out, hout, hfalse⟩ := rotateTile_total (reachable_inv h).1 Index
  refine ⟨out, hout, ?_, ?_⟩
  · intro hf
    have e := hfalse hf
    exact ⟨e, by rw [e]⟩
  · exact isSolved_iff_connected (reachable_inv (Reachable.rotate s Index out h hout))

/-- Witness of the amended C18 on the solved puzzle built from `rowConfig` and
`rowDraws`, for the call `RotateTile(1)`. -/
theorem rotateTile_solved_iff_connected_witness :
    Reachable rowPuzzle ∧
    ∃ out, rowPuzzle.RotateTile 1 = some out ∧
      (out.Returned = false → out.State = rowPuzzle ∧ out.State.IsSolved = rowPuzzle.IsSolved) ∧
      (out.State.IsSolved = true ↔
        ∃ src snk t, FirstSource out.State src ∧ tileAt out.State.Tiles snk = some t ∧
          t.TileType = ECircuitTileType.Sink ∧ Reach out.State src snk) :=
  ⟨reachable_rowPuzzle, rotateTile_solved_iff_connected rowPuzzle reachable_rowPuzzle 1⟩

/-! ## Rotating a puzzle without locks back to its solution -/

theorem RotRel.identity (x : UCircuitPuzzle) : RotRel x x (fun _ r => r) :=
  ⟨⟨rfl, rfl, rfl, rfl, rfl⟩, fun j u hu => ⟨u, hu, rfl, rfl, rfl⟩⟩

theorem RotRel.andThen {x y z : UCircuitPuzzle} {F G : Int → Int → Int} (h1 : RotRel x y F)
    (h2 : RotRel y z G) : RotRel x z (fun j r => G j (F j r)) := by
  obtain ⟨⟨a1, a2, a3, a4, a5⟩, ha⟩ := h1
  obtain ⟨⟨b1, b2, b3, b4, b5⟩, hb⟩ := h2
  refine ⟨⟨b1.trans a1, b2.trans a2, b3.trans a3, b4.trans a4, b5.trans a5⟩, ?_⟩
  intro j u hu
  obtain ⟨u1, hu1, k1, l1, r1⟩ := ha j u hu
  obtain ⟨u2, hu2, k2, l2, r2⟩ := hb j u1 hu1
  exact ⟨u2, hu2, k2.trans k1, l2.trans l1, by rw [r2, r1]⟩

theorem RotRel.keepsShape {x y : UCircuitPuzzle} {F : Int → Int → Int} (h : RotRel x y F)
    (hs : GridShaped x) : GridShaped y := by
  unfold GridShaped at *
  rw [h.1.2.2.2.2, h.1.1, h.1.2.1]
  exact hs

theorem rotate_once {x : UCircuitPuzzle} (hs : GridShaped x) {i : Int} {u : FCircuitTile}
    (hu : tileAt x.Tiles i = some u) (hl : u.bLocked = false)
    (hk : ¬ ScrambleSkips x.Config u) :
    ∃ out, x.RotateTile i = some out ∧ out.Returned = true ∧
      RotRel x out.State (fun j r => if j = i then (r + 1).tmod 4 else r) := by
  obtain ⟨i0, i1, _⟩ := tileAt_eq_some hu
  have href : ¬ RotateRefused x i := by
    rintro (h | h | ⟨t, ht, h⟩)
    · omega
    · omega
    · rw [hu] at ht
      injection ht with ht
      subst ht
      rcases h with h | h | h
      · rw [hl] at h
        cases h
      · exact hk (Or.inl h)
      · exact hk (Or.inr h)
  obtain ⟨t, p, ht, hp, hf, e⟩ := rotateTile_accepted_some hs href
  rw [hu] at ht
  injection ht with ht
  subst ht
  refine ⟨_, e, rfl, ⟨hf.width, hf.height, hf.config, hf.solution, ?_⟩, ?_⟩
  · rw [hf.length]
    unfold withRotated
    simp
  · intro j v hv
    obtain ⟨v1, hv1, k1, l1, r1⟩ := withRotated_tileAt hu hv
    obtain ⟨v2, hv2, k2, r2, l2⟩ := hf.tileAt hv1
    refine ⟨v2, hv2, k2.trans k1, l2.trans l1, ?_⟩
    rw [r2]
    beta_reduce
    by_cases hji : j = i
    · subst hji
      rw [if_pos rfl]
      rw [hu] at hv
      injection hv with hv
      subst hv
      have hself : tileAt (withRotated x j u).Tiles j =
          some { u with RotationSteps := (u.RotationSteps + 1).tmod 4 } := tileAt_set_self hu
      rw [hv1] at hself
      injection hself with hself
      rw [hself]
    · rw [if_neg hji]
      exact r1 hji

theorem rotate_times {i : Int} : ∀ (k : Nat) (x : UCircuitPuzzle) (u : FCircuitTile),
    GridShaped x → tileAt x.Tiles i = some u → u.bLocked = false →
    ¬ ScrambleSkips x.Config u →
    ∃ y, rotateSuccessfully x (List.replicate k i) = some y ∧
      RotRel x y (fun j r => if j = i then (fun v : Int => (v + 1).tmod 4)^[k] r else r) := by
  intro k
  induction k with
  | zero =>
    intro x u _ _ _ _
    refine ⟨x, rfl, ?_⟩
    have : (fun (j : Int) (r : Int) => if j = i then (fun v : Int => (v + 1).tmod 4)^[0] r else r)
        = fun _ r => r := by
      funext j r
      simp
    rw [this]
    exact RotRel.identity x
  | succ k ih =>
    intro x u hs hu hl hk
    obtain ⟨out, hout, hret, hrel⟩ := rotate_once hs hu hl hk
    obtain ⟨u1, hu1, k1, l1, _⟩ := hrel.2 i u hu
    have hk1 : ¬ ScrambleSkips out.State.Config u1 := by
      unfold ScrambleSkips at *
      rw [hrel.1.2.2.1, k1]
      exact hk
    obtain ⟨y, hy, hrel2⟩ := ih out.State u1 (hrel.keepsShape hs) hu1 (by rw [l1]; exact hl) hk1
    refine ⟨y, ?_, ?_⟩
    · rw [List.replicate_succ]
      unfold rotateSuccessfully
      rw [hout]
      simp only
      rw [if_pos hret]
      exact hy
    · have hcomp := hrel.andThen hrel2
      have : (fun (j : Int) (r : Int) =>
          if j = i then (fun v : Int => (v + 1).tmod 4)^[k + 1] r else r)
          = fun j r => (fun (j : Int) (r : Int) =>
              if j = i then (fun v : Int => (v + 1).tmod 4)^[k] r else r) j
              ((fun (j : Int) (r : Int) => if j = i then (r + 1).tmod 4 else r) j r) := by
        funext j r
        by_cases hji : j = i
        · simp only [hji, if_true, Function.iterate_succ, Function.comp_apply]
        · simp only [hji, if_false]
      rw [this]
      exact hcomp

theorem rotateSuccessfully_append : ∀ (a b : List Int) (s x : UCircuitPuzzle) (y : UCircuitPuzzle),
    rotateSuccessfully s a = some x → rotateSuccessfully x b = some y →
    rotateSuccessfully s (a ++ b) = some y := by
  intro a
  induction a with
  | nil =>
    intro b s x y h1 h2
    unfold rotateSuccessfully at h1
    injection h1 with h1
    subst h1
    exact h2
  | cons i a ih =>
    intro b s x y h1 h2
    unfold rotateSuccessfully at h1
    rw [List.cons_append]
    unfold rotateSuccessfully
    split at h1
    · cases h1
    · rename_i out hout
      split at h1
      · rename_i hret
        rw [if_pos hret]
        exact ih b _ x y h1 h2
      · cases h1

theorem rotateSuccessfully_reachable : ∀ (a : List Int) (s x : UCircuitPuzzle),
    Reachable s → rotateSuccessfully s a = some x → Reachable x := by
  intro a
  induction a with
  | nil =>
    intro s x hs h
    unfold rotateSuccessfully at h
    injection h with h
    subst h
    exact hs
  | cons i a ih =>
    intro s x hs h
    unfold rotateSuccessfully at h
    split at h
    · cases h
    · rename_i out hout
      split at h
      · exact ih _ x (Reachable.rotate s i out hs hout) h
      · cases h

theorem turns_to_target (r t : Int) (hr0 : 0 ≤ r) (hr3 : r ≤ 3) (ht0 : 0 ≤ t) (ht3 : t ≤ 3) :
    ((t - r) % 4).toNat ≤ 3 ∧
    (fun v : Int => (v + 1).tmod 4)^[((t - r) % 4).toNat] r = t := by
  have c1 : r = 0 ∨ r = 1 ∨ r = 2 ∨ r = 3 := by omega
  have c2 : t = 0 ∨ t = 1 ∨ t = 2 ∨ t = 3 := by omega
  rcases c1 with rfl | rfl | rfl | rfl <;> rcases c2 with rfl | rfl | rfl | rfl <;>
    exact ⟨by decide, by decide⟩

/-- A state whose tiles have the kinds and locked flags of `s` and the rotations recorded
in `SolutionRotations` differs from the restored solution at most in the powered flags. -/
theorem reset_eq_restore {s x : UCircuitPuzzle} {F : Int → Int → Int} (h : RotRel s x F)
    (hsol : ∀ j u, tileAt s.Tiles j = some u →
      intAt s.SolutionRotations j = some (F j u.RotationSteps))
    (hlen : s.SolutionRotations.length = s.Tiles.length) :
    RecomputePower.reset x = RecomputePower.reset (restoreSolution s) := by
  obtain ⟨⟨a1, a2, a3, a4, a5⟩, ht⟩ := h
  have htiles : x.Tiles.map (fun Tile => { Tile with bPowered := false }) =
      (List.zipWith (fun (t : FCircuitTile) (r : Int) => { t with RotationSteps := r }) s.Tiles
        s.SolutionRotations).map (fun Tile => { Tile with bPowered := false }) := by
    apply List.ext_getElem?
    intro n
    rw [List.getElem?_map, List.getElem?_map, List.getElem?_zipWith]
    by_cases hn : n < s.Tiles.length
    · have hu : s.Tiles[n]? = some s.Tiles[n] := List.getElem?_eq_getElem hn
      generalize s.Tiles[n] = u at hu
      have hr : s.SolutionRotations[n]? = some s.SolutionRotations[n] :=
        List.getElem?_eq_getElem (by omega)
      generalize s.SolutionRotations[n] = r at hr
      have hua : tileAt s.Tiles (n : Int) = some u := by rw [tileAt_natCast]; exact hu
      obtain ⟨u', hu', k1, l1, r1⟩ := ht _ _ hua
      have hs := hsol _ _ hua
      rw [intAt_natCast, hr] at hs
      injection hs with hs
      rw [tileAt_natCast] at hu'
      rw [hu', hu, hr]
      simp only [Option.map_some']
      rw [k1, l1, r1, ← hs]
    · have e1 : s.Tiles[n]? = none := List.getElem?_eq_none (by omega)
      have e2 : x.Tiles[n]? = none := List.getElem?_eq_none (by omega)
      rw [e1, e2]
  unfold RecomputePower.reset restoreSolution
  simp only
  rw [htiles, a1, a2, a3, a4]

theorem solve_prefix (s : UCircuitPuzzle) (hs : GridShaped s)
    (hlock : ∀ j u, tileAt s.Tiles j = some u → u.bLocked = false)
    (hrange : ∀ j u, tileAt s.Tiles j = some u → RotInRange u)
    (hlen : s.SolutionRotations.length = s.Tiles.length)
    (hsolr : ∀ (n : Nat) (r : Int), s.SolutionRotations[n]? = some r → 0 ≤ r ∧ r ≤ 3)
    (hskip : ∀ j u, tileAt s.Tiles j = some u → ScrambleSkips s.Config u →
      intAt s.SolutionRotations j = some u.RotationSteps) :
    ∀ m : Nat, m ≤ s.Tiles.length →
      ∃ (moves : List Int) (x : UCircuitPuzzle) (F : Int → Int → Int),
        moves.length ≤ 3 * m ∧ rotateSuccessfully s moves = some x ∧ RotRel s x F ∧
        ∀ j u, tileAt s.Tiles j = some u →
          (j < (m : Int) → intAt s.SolutionRotations j = some (F j u.RotationSteps)) ∧
          ((m : Int) ≤ j → F j u.RotationSteps = u.RotationSteps) := by
  intro m
  induction m with
  | zero =>
    intro _
    refine ⟨[], s, fun _ r => r, by simp, rfl, RotRel.identity s, ?_⟩
    intro j u hu
    have := (tileAt_eq_some hu).1
    exact ⟨fun h => by omega, fun _ => rfl⟩
  | succ m ih =>
    intro hm
    obtain ⟨moves, x, F, hml, hrun, hrel, hF⟩ := ih (by omega)
    have hu : s.Tiles[m]? = some s.Tiles[m] := List.getElem?_eq_getElem (by omega)
    generalize s.Tiles[m] = u at hu
    have hr : s.SolutionRotations[m]? = some s.SolutionRotations[m] :=
      List.getElem?_eq_getElem (by omega)
    generalize s.SolutionRotations[m] = t at hr
    have hua : tileAt s.Tiles (m : Int) = some u := by rw [tileAt_natCast]; exact hu
    obtain ⟨u', hu', k1, l1, r1⟩ := hrel.2 _ _ hua
    have hFm := (hF _ _ hua).2 (le_refl _)
    rw [hFm] at r1
    by_cases hsk : ScrambleSkips s.Config u
    · refine ⟨moves, x, F, by omega, hrun, hrel, ?_⟩
      intro j v hv
      obtain ⟨f1, f2⟩ := hF j v hv
      refine ⟨fun hj => ?_, fun hj => f2 (by omega)⟩
      by_cases hjm : j = (m : Int)
      · subst hjm
        rw [hua] at hv
        injection hv with hv
        subst hv
        rw [hFm]
        exact hskip _ _ hua hsk
      · exact f1 (by omega)
    · obtain ⟨t0, t3⟩ := hsolr m t hr
      obtain ⟨q0, q3⟩ := hrange _ _ hua
      obtain ⟨hk3, hturn⟩ := turns_to_target u.RotationSteps t q0 q3 t0 t3
      have hsk' : ¬ ScrambleSkips x.Config u' := by
        unfold ScrambleSkips at *
        rw [hrel.1.2.2.1, k1]
        exact hsk
      obtain ⟨y, hy, hrel2⟩ := rotate_times ((t - u.RotationSteps) % 4).toNat x u'
        (hrel.keepsShape hs) hu' (by rw [l1]; exact hlock _ _ hua) hsk'
      refine ⟨moves ++ List.replicate ((t - u.RotationSteps) % 4).toNat (m : Int), y, _,
        ?_, rotateSuccessfully_append _ _ _ _ _ hrun hy, hrel.andThen hrel2, ?_⟩
      · simp only [List.length_append, List.length_replicate]
        omega
      · intro j v hv
        obtain ⟨f1, f2⟩ := hF j v hv
        by_cases hjm : j = (m : Int)
        · subst hjm
          rw [hua] at hv
          injection hv with hv
          subst hv
          rw [if_pos rfl, hFm, hturn]
          refine ⟨fun _ => ?_, fun h => by omega⟩
          rw [intAt_natCast]
          exact hr
        · rw [if_neg hjm]
          exact ⟨fun hj => f1 (by omega), fun hj => f2 (by omega)⟩

theorem StartNewRun.unlocked {cfg : FCircuitPuzzleConfig} {src snk : Int}
    {s1 s2 s3 s4 s6 s : UCircuitPuzzle} (r : StartNewRun cfg src snk s1 s2 s3 s4 s6 s)
    (hlock : cfg.LockCount ≤ 0) :
    ∀ j t, tileAt s.Tiles j = some t → t.bLocked = false := by
  intro j t ht
  have hb := r.lockedBound
  have h0 : lockedCount s.Tiles = 0 := by omega
  unfold lockedCount at h0
  rw [List.countP_eq_zero] at h0
  have := h0 t (List.getElem?_mem (tileAt_eq_some ht).2.2)
  simpa using this

theorem StartNewRun.skipped_keep {cfg : FCircuitPuzzleConfig} {src snk : Int}
    {s1 s2 s3 s4 s6 s : UCircuitPuzzle} (r : StartNewRun cfg src snk s1 s2 s3 s4 s6 s) :
    ∀ j t, tileAt s.Tiles j = some t → ScrambleSkips cfg t →
      intAt s.SolutionRotations j = some t.RotationSteps := by
  intro j t ht hsk
  obtain ⟨t6, ht6, h6⟩ := r.powered.2.tilesRel.tileAt_back ht
  obtain ⟨t4, ht4, h4⟩ := r.locked.1.tileAt_back ht6
  obtain ⟨t3, ht3, h3⟩ := r.scrambled.1.tileAt_back ht4
  obtain ⟨j0, j1, hg3⟩ := tileAt_eq_some ht3
  have hn2 : j.toNat < s2.Tiles.length := by
    rw [r.filled.2.1.1]
    omega
  have hsol := (r.filled.2.2.2 j.toNat t3 hn2 hg3).2
  have hk : t3.TileType = t.TileType := by rw [h6.1, h4.1, h3.1]
  have hrot34 : t4.RotationSteps = t3.RotationSteps := by
    rcases hsk with ⟨a, b⟩ | ⟨a, b⟩
    · exact h3.2.2.2.2.1 (by rw [hk]; exact a) b
    · exact h3.2.2.2.2.2 (by rw [hk]; exact a) b
  have hrot : t.RotationSteps = t3.RotationSteps := by rw [h6.2.1, h4.2.1, hrot34]
  unfold intAt
  rw [if_pos j0, r.solutionKept, hsol, hrot]

/-! ## The walk of `GenerateSolutionPath`: main results -/

/-- C20: on a grid of `Width * Height` tiles, for every in-range source, every sink other
than the source and every sequence of random draws for which the walk loop of
`GenerateSolutionPath` exits with the path `Path`: no index occurs twice in `Path`, its
length is at least 2, it starts at the source, ends at the sink, holds the sink only as
its last element, stays in the array, and every two consecutive elements are
`AreAdjacent`. -/
theorem walk_path_simple (self : UCircuitPuzzle) (hs : GridShaped self)
    (SourceIndex SinkIndex : Int) (h0 : 0 ≤ SourceIndex)
    (h1 : SourceIndex < (self.Tiles.length : Int)) (hne : SourceIndex ≠ SinkIndex)
    (RandStream : FRandomStream) (fuel : Nat) (Path : List Int) (rs' : FRandomStream)
    (h : GenerateSolutionPath.walk self SourceIndex SinkIndex fuel [SourceIndex] SourceIndex
      RandStream = some (Path, rs')) :
    Path.Nodup ∧ 2 ≤ Path.length ∧ Path[0]? = some SourceIndex ∧
    Path[Path.length - 1]? = some SinkIndex ∧
    (∀ k : Nat, Path[k]? = some SinkIndex → k = Path.length - 1) ∧
    (∀ p ∈ Path, 0 ≤ p ∧ p < (self.Tiles.length : Int)) ∧
    (∀ (k : Nat) (a b : Int), Path[k]? = some a → Path[k + 1]? = some b →
      self.AreAdjacent a b = true) := by
  have hP := walk_spec hs h0 h1 fuel [SourceIndex] SourceIndex RandStream Path rs'
    (pathInv_single h0 h1) h
  have hlen := pathInv_length hP hne
  obtain ⟨hfirst, hlast, hnd, hrange, hstep⟩ := hP
  refine ⟨hnd, hlen, hfirst, hlast, ?_, hrange, ?_⟩
  · intro k hk
    by_contra hkne
    exact nodup_getElem?_ne hnd hlast hkne hk
  · intro k a b ha hb
    obtain ⟨a0, a1⟩ := hrange a (List.getElem?_mem ha)
    exact step_adjacent hs a0 a1 (hstep k a b ha hb)

/-- Witness of C20: the walk from index 0 to index 2 of the 3 x 1 sample grid with two
greedy steps. -/
theorem walk_path_simple_witness :
    (GenerateSolutionPath.walk lineGrid 0 2 5 [0] 0 (streamOf [0, 0])).map Prod.fst =
      some [0, 1, 2] ∧
    [(0 : Int), 1, 2].Nodup ∧ 2 ≤ [(0 : Int), 1, 2].length ∧
    (∀ (k : Nat) (a b : Int), [(0 : Int), 1, 2][k]? = some a → [(0 : Int), 1, 2][k + 1]? = some b →
      lineGrid.AreAdjacent a b = true) := by
  have h : (GenerateSolutionPath.walk lineGrid 0 2 5 [0] 0 (streamOf [0, 0])).map Prod.fst =
      some [0, 1, 2] := by decide
  obtain ⟨⟨P, rs'⟩, hw, hP⟩ := Option.map_eq_some'.1 h
  simp only at hP
  subst hP
  have r := walk_path_simple lineGrid gridShaped_lineGrid 0 2 (by decide) (by decide) (by decide)
    (streamOf [0, 0]) 5 _ rs' hw
  exact ⟨h, r.1, r.2.1, r.2.2.2.2.2.2⟩

/-- C11: `StartNew` discards the prior engine state and is a function of the config and
the sequence of random draws: for any two prior states, the same config and the same
draws, two returning runs (whatever their iteration budgets) yield the same state, so the
same Width, Height, tile array and SolutionRotations. -/
theorem startNew_deterministic (prior1 prior2 : UCircuitPuzzle) (InConfig : FCircuitPuzzleConfig)
    (RandStream : FRandomStream) (fuel1 fuel2 : Nat) (s1 s2 : UCircuitPuzzle)
    (h1 : prior1.StartNew InConfig RandStream fuel1 = some s1)
    (h2 : prior2.StartNew InConfig RandStream fuel2 = some s2) :
    s1 = s2 ∧ s1.Width = s2.Width ∧ s1.Height = s2.Height ∧ s1.Tiles = s2.Tiles ∧
      s1.SolutionRotations = s2.SolutionRotations := by
  have e1 := startNew_mono prior1 InConfig RandStream fuel1 fuel2 s1 h1
  have e2 := startNew_mono prior2 InConfig RandStream fuel2 fuel1 s2 h2
  rw [startNew_prior prior2 prior1, Nat.add_comm fuel2 fuel1, e1] at e2
  injection e2 with e2
  subst e2
  exact ⟨rfl, rfl, rfl, rfl, rfl⟩

/-- Witness of C11: `StartNew` with `rowConfig` and `rowDraws`, called on a fresh engine
and on an engine that holds the locked 3 x 1 puzzle, with different budgets. -/
theorem startNew_deterministic_witness :
    freshPuzzle.StartNew rowConfig (streamOf rowDraws) 10 = some rowPuzzle ∧
    lockedPuzzle.StartNew rowConfig (streamOf rowDraws) 12 = some rowPuzzle ∧
    rowPuzzle = rowPuzzle ∧ rowPuzzle.Tiles = rowPuzzle.Tiles :=
  have r := startNew_deterministic freshPuzzle lockedPuzzle rowConfig (streamOf rowDraws) 10 12
    rowPuzzle rowPuzzle (by decide) (by decide)
  ⟨by decide, by decide, r.1, r.2.2.2.1⟩

/-- C19: on every grid of `Width * Height` tiles the breadth-first loop of
`RecomputePower` terminates; no tile index is dequeued (hence enqueued) twice, the number
of dequeue iterations is at most the number of tiles, the dequeued indices are exactly the
powered tiles; and every step of the inner loop keeps the powered flags that are set and
enqueues only indices whose flag it has just turned from false to true. -/
theorem recomputePower_dequeues_once (self : UCircuitPuzzle) (hs : GridShaped self) :
    (∃ s' Trace, RecomputePower.trace self = some (s', Trace) ∧
      self.RecomputePower = some s' ∧ Trace.Nodup ∧ Trace.length ≤ self.Tiles.length ∧
      ∀ i, i ∈ Trace ↔ PoweredAt s' i) ∧
    (∀ (CurrentIndex : Int) (st st' : UCircuitPuzzle × List Int) (Dir : ECircuitDir),
      RecomputePower.visit CurrentIndex st Dir = some st' →
      (∀ i, PoweredAt st.1 i → PoweredAt st'.1 i) ∧
      ∃ new, st'.2 = st.2 ++ new ∧ new.Nodup ∧
        ∀ q ∈ new, ¬ PoweredAt st.1 q ∧ PoweredAt st'.1 q) := by
  refine ⟨trace_spec self (neighborsInRange_of_gridShaped hs), ?_⟩
  rintro cur ⟨s, Q⟩ ⟨s', Q'⟩ d h
  obtain ⟨new, e, nd, fresh, pw⟩ := visit_fresh cur s Q d s' Q' h
  exact ⟨fun i hp => (pw i).2 (Or.inl hp), new, e, nd,
    fun q hq => ⟨fresh q hq, (pw q).2 (Or.inr hq)⟩⟩

/-- Witness of C19 on the 3 x 1 sample grid: the three tiles are dequeued in the order
0, 1, 2. -/
theorem recomputePower_dequeues_once_witness :
    GridShaped lineGrid ∧
    (RecomputePower.trace lineGrid).map Prod.snd = some [0, 1, 2] ∧
    ∃ s' Trace, RecomputePower.trace lineGrid = some (s', Trace) ∧
      lineGrid.RecomputePower = some s' ∧ Trace.Nodup ∧ Trace.length ≤ lineGrid.Tiles.length ∧
      ∀ i, i ∈ Trace ↔ PoweredAt s' i :=
  ⟨gridShaped_lineGrid, by decide, (recomputePower_dequeues_once lineGrid gridShaped_lineGrid).1⟩

/-- The sink-placement loop redraws until the draw suits: on a 3 x 3 grid with draws that
are all zero (each in range) the source index is 0 and every redrawn sink index is 0 as
well, so the loop never exits and `StartNew` does not return, whatever the iteration
budget. -/
theorem startNew_never_returns :
    (1 : Int) ≤ squareConfig.Width ∧ (1 : Int) ≤ squareConfig.Height ∧
    ∀ fuel : Nat, freshPuzzle.StartNew squareConfig (streamOf []) fuel = none := by
  refine ⟨by decide, by decide, ?_⟩
  intro fuel
  have e1 : ((streamOf []).RandRange 0 (squareConfig.Width * squareConfig.Height - 1)).1 = 0 := by
    decide
  have e2 : (((streamOf []).RandRange 0 (squareConfig.Width * squareConfig.Height - 1)).2.RandRange 0
      (squareConfig.Width * squareConfig.Height - 1)).1 = 0 := by
    decide
  have hz : ∀ k, (((streamOf []).RandRange 0 (squareConfig.Width * squareConfig.Height - 1)).2.RandRange 0
      (squareConfig.Width * squareConfig.Height - 1)).2.draws k = 0 := by
    intro k
    simp [streamOf, FRandomStream.RandRange]
  unfold StartNew
  simp only
  rw [if_neg (by decide), e1, e2, placeSink_zero_stream _ _ (by decide) fuel _ hz]

/-- Where `StartNew` can fail to return: it runs to completion exactly when the
sink-placement loop and the walk loop of `GenerateSolutionPath` have both exited within
some number of iterations; every other loop of `StartNew` is bounded and no array access
fails. -/
theorem startNew_completes_iff (prior : UCircuitPuzzle) (InConfig : FCircuitPuzzleConfig)
    (RandStream : FRandomStream) :
    (∃ fuel s, prior.StartNew InConfig RandStream fuel = some s) ↔
      ∃ fuel r, StartNew.walkLoop InConfig RandStream fuel = some r := by
  constructor
  · rintro ⟨fuel, s, h⟩
    exact ⟨fuel, walkLoop_of_startNew prior InConfig RandStream fuel s h⟩
  · rintro ⟨fuel, r, h⟩
    exact ⟨fuel, startNew_of_walkLoop prior InConfig RandStream fuel r h⟩

/-- An instance of `startNew_completes_iff`: with `rowConfig` and `rowDraws` both loops exit
within 10 iterations and `StartNew` returns. -/
theorem startNew_completes_iff_witness :
    (∃ fuel r, StartNew.walkLoop rowConfig (streamOf rowDraws) fuel = some r) ∧
    ∃ fuel s, freshPuzzle.StartNew rowConfig (streamOf rowDraws) fuel = some s :=
  have h : ∃ fuel s, freshPuzzle.StartNew rowConfig (streamOf rowDraws) fuel = some s :=
    ⟨10, rowPuzzle, by decide⟩
  ⟨(startNew_completes_iff freshPuzzle rowConfig (streamOf rowDraws)).1 h, h⟩

/-- C12 fails in the code: the walk loop of `GenerateSolutionPath` need not terminate.  On
the 3 x 3 grid of `squareConfig` with the draws `livelockDraws`, each in its range, the
Source is tile 2 and the Sink is tile 0, the sink-placement loop exits without a redraw,
and the walk goes 2, 5, 4, 3, 6, 7, 8.  Tile 8 is a dead end; `Path.Pop()` takes it off
`Path`, and as `Visited` is rebuilt from `Path`, tile 8 is again the only unvisited
neighbour of tile 7.  The walk alternates between 7 and 8: it never reaches the sink and
`StartNew` does not return, whatever the later draws and whatever the iteration budget.
With other draws the same configuration, Source and Sink return. -/
theorem startNew_walk_livelock :
    (1 : Int) ≤ squareConfig.Width ∧ (1 : Int) ≤ squareConfig.Height ∧
    (∀ (fuel : Nat) (rs : FRandomStream),
      StartNew.placeSink bareSquare 2 9 fuel 0 rs = some (0, rs)) ∧
    bareSquare.GetUnvisitedNeighbors 8 [2, 5, 4, 3, 6, 7, 8] = [] ∧
    bareSquare.GetUnvisitedNeighbors 7 [2, 5, 4, 3, 6, 7] = [8] ∧
    (∀ (rest : Nat → Nat) (fuel : Nat),
      GenerateSolutionPath.walk bareSquare 2 0 fuel [2] 2
        (FRandomStream.mk (streamFrom livelockDraws rest).draws 2) = none) ∧
    (∀ (rest : Nat → Nat) (fuel : Nat),
      freshPuzzle.StartNew squareConfig (streamFrom livelockDraws rest) fuel = none) ∧
    (freshPuzzle.StartNew squareConfig (streamOf [2, 0]) 4).isSome = true := by
  refine ⟨by decide, by decide, ?_, by decide, by decide, livelock_from_start, ?_, by decide⟩
  · intro fuel rs
    exact placeSink_exit_now bareSquare 2 9 0 fuel rs (by decide)
  · intro rest fuel
    cases h : freshPuzzle.StartNew squareConfig (streamFrom livelockDraws rest) fuel with
    | none => rfl
    | some s =>
      exfalso
      obtain ⟨r, hr⟩ := walkLoop_of_startNew freshPuzzle squareConfig _ fuel s h
      unfold StartNew.walkLoop at hr
      simp only at hr
      rw [if_neg (by decide)] at hr
      have e1 : (streamFrom livelockDraws rest).RandRange 0
          (squareConfig.Width * squareConfig.Height - 1) =
          (2, FRandomStream.mk (streamFrom livelockDraws rest).draws 1) := rfl
      have e2 : (FRandomStream.mk (streamFrom livelockDraws rest).draws 1).RandRange 0
          (squareConfig.Width * squareConfig.Height - 1) =
          (0, FRandomStream.mk (streamFrom livelockDraws rest).draws 2) := rfl
      rw [e1] at hr
      simp only at hr
      rw [e2] at hr
      simp only at hr
      rw [placeSink_exit_now _ _ _ _ _ _ (by decide)] at hr
      simp only at hr
      split at hr
      · cases hr
      · split at hr
        · cases hr
        · rename_i _ _ _ _ T2 _
          have e := walk_congr
            (a := UCircuitPuzzle.mk squareConfig.Width squareConfig.Height squareConfig T2
              (List.replicate (squareConfig.Width * squareConfig.Height).toNat 0))
            (b := bareSquare) rfl rfl 2 0 fuel [2] 2
            (FRandomStream.mk (streamFrom livelockDraws rest).draws 2)
          rw [e, livelock_from_start] at hr
          cases hr

/-! ## Rotation of connectors and consistency of the index arithmetic: main results -/

/-- C25: connectors rotate as a unit: for every tile kind and every rotation `r` in `0..3`
a direction is among the connections at rotation `(r + 1) mod 4` exactly when it is
`(d + 1) mod 4` for a connection `d` at rotation `r`; and for every direction `d` (a value
of `0..3`) `GetOppositeDirection(d) = (d + 2) mod 4`, and taking the opposite twice gives
`d` back. -/
theorem connections_rotate_as_unit (kind : ECircuitTileType) (r : Int) (locked powered : Bool)
    (h0 : 0 ≤ r) (h3 : r ≤ 3) :
    (∀ d : Nat, d ∈ tileConnections (FCircuitTile.mk kind ((r + 1) % 4) locked powered) ↔
      ∃ d0 ∈ tileConnections (FCircuitTile.mk kind r locked powered), d = (d0 + 1) % 4) ∧
    (∀ d : Nat, d < 4 →
      GetOppositeDirection d = (d + 2) % 4 ∧
      GetOppositeDirection (GetOppositeDirection d) = d) := by
  constructor
  · have hr : r = 0 ∨ r = 1 ∨ r = 2 ∨ r = 3 := by omega
    have e1 := (tileConnections_table kind ((r + 1) % 4) locked powered (by omega) (by omega)).1
    have e2 := (tileConnections_table kind r locked powered h0 h3).1
    rw [e1, e2]
    intro d
    rcases hr with rfl | rfl | rfl | rfl <;> cases kind <;>
      simp [specConnections, ECircuitDir.Up, ECircuitDir.Right, ECircuitDir.Down,
        ECircuitDir.Left] <;> omega
  · intro d hd
    have hd' : d = 0 ∨ d = 1 ∨ d = 2 ∨ d = 3 := by omega
    rcases hd' with rfl | rfl | rfl | rfl <;> exact ⟨rfl, rfl⟩

/-- Witness of C25 for the Tee at rotation 3 and the direction Left. -/
theorem connections_rotate_as_unit_witness :
    (∀ d : Nat,
      d ∈ tileConnections (FCircuitTile.mk ECircuitTileType.Tee ((3 + 1) % 4) false false) ↔
      ∃ d0 ∈ tileConnections (FCircuitTile.mk ECircuitTileType.Tee 3 false false),
        d = (d0 + 1) % 4) ∧
    GetOppositeDirection ECircuitDir.Left = (ECircuitDir.Left + 2) % 4 ∧
    GetOppositeDirection (GetOppositeDirection ECircuitDir.Left) = ECircuitDir.Left :=
  ⟨(connections_rotate_as_unit ECircuitTileType.Tee 3 false false (by decide) (by decide)).1,
    (connections_rotate_as_unit ECircuitTileType.Tee 3 false false (by decide) (by decide)).2
      ECircuitDir.Left (by decide)⟩

theorem far_cell_exists (s : UCircuitPuzzle) (hW : 2 ≤ s.Width) (hH : 2 ≤ s.Height)
    (src : Int) (h0 : 0 ≤ src) (h1 : src < s.Width * s.Height) :
    ∃ snk, 0 ≤ snk ∧ snk < s.Width * s.Height ∧ snk ≠ src ∧ s.AreAdjacent src snk = false := by
  obtain ⟨⟨x0, hcell⟩, hc⟩ := grid_coords s.Width s.Height src h0 h1
  have eX := (pos_coords s.Width src (by omega) h0).1
  have eY := (pos_coords s.Width src (by omega) h0).2
  rw [eX] at x0
  rw [eX, eY] at hcell hc
  rcases hcell with ⟨_, _, y0, y1, x1⟩ | ⟨hneg, _⟩
  swap
  · omega
  generalize hx : src % s.Width = x at *
  generalize hy : src / s.Width = y at *
  have hx' : ∃ x', 0 ≤ x' ∧ x' < s.Width ∧ x' ≠ x := by
    by_cases h : x = 0
    · exact ⟨1, by omega, by omega, by omega⟩
    · exact ⟨0, by omega, by omega, by omega⟩
  have hy' : ∃ y', 0 ≤ y' ∧ y' < s.Height ∧ y' ≠ y := by
    by_cases h : y = 0
    · exact ⟨1, by omega, by omega, by omega⟩
    · exact ⟨0, by omega, by omega, by omega⟩
  obtain ⟨x', a0, a1, a2⟩ := hx'
  obtain ⟨y', b0, b1, b2⟩ := hy'
  obtain ⟨n0, n1, nx, ny⟩ := pos_cell s.Width s.Height y' x' (by omega) (by omega) b0 b1 a0 a1
  have hnadj : ¬ s.AreAdjacent src (y' * s.Width + x') = true := by
    rw [areAdjacent_iff_manhattan s src _ (by omega) h0 n0, hx, hy, nx, ny]
    have p1 : 1 ≤ |x - x'| := Int.one_le_abs (by omega)
    have p2 : 1 ≤ |y - y'| := Int.one_le_abs (by omega)
    omega
  refine ⟨y' * s.Width + x', n0, n1, ?_, by simpa using hnadj⟩
  intro e
  rw [e, hx] at nx
  omega

/-- C30: whenever both dimensions are at least 2, every source index of
`[0, Width*Height)` has a sink index in range that is different from it and not
`AreAdjacent` to it, so the exit condition of the sink-placement loop of `StartNew` can be
met; on a 1 x 1 grid, on a 2 x 1 grid, and on a 3 x 1 grid with the source in the middle,
every index in range equals the source or is adjacent to it. -/
theorem sink_exit_satisfiable (self : UCircuitPuzzle) :
    (2 ≤ self.Width → 2 ≤ self.Height → ∀ src : Int, 0 ≤ src → src < self.Width * self.Height →
      ∃ snk, 0 ≤ snk ∧ snk < self.Width * self.Height ∧ snk ≠ src ∧
        self.AreAdjacent src snk = false) ∧
    (self.Width = 1 → self.Height = 1 → ∀ src snk : Int, 0 ≤ src →
      src < self.Width * self.Height → 0 ≤ snk → snk < self.Width * self.Height → snk = src) ∧
    (self.Width = 2 → self.Height = 1 → ∀ src snk : Int, 0 ≤ src →
      src < self.Width * self.Height → 0 ≤ snk → snk < self.Width * self.Height →
      snk = src ∨ self.AreAdjacent src snk = true) ∧
    (self.Width = 3 → self.Height = 1 → ∀ snk : Int, 0 ≤ snk →
      snk < self.Width * self.Height → snk = 1 ∨ self.AreAdjacent 1 snk = true) := by
  refine ⟨fun hW hH src h0 h1 => far_cell_exists self hW hH src h0 h1, ?_, ?_, ?_⟩
  · intro hW hH src snk a0 a1 b0 b1
    rw [hW, hH] at a1 b1
    omega
  · intro hW hH src snk a0 a1 b0 b1
    rw [hW, hH] at a1 b1
    unfold AreAdjacent
    rw [hW]
    have hs : src = 0 ∨ src = 1 := by omega
    have hk : snk = 0 ∨ snk = 1 := by omega
    rcases hs with rfl | rfl <;> rcases hk with rfl | rfl <;> decide
  · intro hW hH snk b0 b1
    rw [hW, hH] at b1
    unfold AreAdjacent
    rw [hW]
    have hk : snk = 0 ∨ snk = 1 ∨ snk = 2 := by omega
    rcases hk with rfl | rfl | rfl <;> decide

/-- Witness of C30: on a 3 x 3 grid the source index 4 (the centre) has a far sink, and on
the 3 x 1 sample grid the middle source has none. -/
theorem sink_exit_satisfiable_witness :
    (∃ snk, 0 ≤ snk ∧ snk < (3 : Int) * 3 ∧ snk ≠ 4 ∧
      (UCircuitPuzzle.mk 3 3 squareConfig [] []).AreAdjacent 4 snk = false) ∧
    (∀ snk : Int, 0 ≤ snk → snk < lineGrid.Width * lineGrid.Height →
      snk = 1 ∨ lineGrid.AreAdjacent 1 snk = true) :=
  ⟨(sink_exit_satisfiable (UCircuitPuzzle.mk 3 3 squareConfig [] [])).1 (by decide) (by decide)
      4 (by decide) (by decide),
    (sink_exit_satisfiable lineGrid).2.2.2 rfl rfl⟩

/-- C28: on a grid with `Width, Height >= 1`, for every index `i` of `[0, Width*Height)`:
if `GetNeighborIndex(i, d) = j` is not `-1` then `j` is in range, `GetDirectionTo(i, j) = d`,
`GetDirectionTo(j, i) = GetOppositeDirection(d)` and
`GetNeighborIndex(j, GetOppositeDirection(d)) = i`; and for every `j` in range
`AreAdjacent(i, j)` holds exactly when `GetNeighborIndex(i, d) = j` for some direction
`d`. -/
theorem direction_neighbor_consistent (self : UCircuitPuzzle) (hW : 1 ≤ self.Width)
    (hH : 1 ≤ self.Height) (i : Int) (hi0 : 0 ≤ i) (hi1 : i < self.Width * self.Height) :
    (∀ (d : ECircuitDir) (j : Int), self.GetNeighborIndex i d = j → j ≠ -1 →
      0 ≤ j ∧ j < self.Width * self.Height ∧ d < 4 ∧ self.GetDirectionTo i j = d ∧
      self.GetDirectionTo j i = GetOppositeDirection d ∧
      self.GetNeighborIndex j (GetOppositeDirection d) = i) ∧
    (∀ j : Int, 0 ≤ j → j < self.Width * self.Height →
      (self.AreAdjacent i j = true ↔ ∃ d : ECircuitDir, d < 4 ∧ self.GetNeighborIndex i d = j)) := by
  have hprod : 0 ≤ self.Width * self.Height := by omega
  have hsur := gridShaped_surrogate self hprod
  have hlen : ((List.replicate (self.Width * self.Height).toNat
      (FCircuitTile.mk ECircuitTileType.Empty 0 false false)).length : Int)
      = self.Width * self.Height := by
    simp only [List.length_replicate]
    omega
  constructor
  · intro d j hg hne
    have hstep := gni_step _ hsur i hi0 (by simp only; rw [hlen]; exact hi1) d
      (by
        show self.GetNeighborIndex i d ≠ -1
        rw [hg]; exact hne)
    have hback := gni_back self (by omega) (by omega) i hi0 hi1 d (by rw [hg]; exact hne)
    obtain ⟨a, b, c, e, f⟩ := hstep
    simp only at b
    rw [hlen] at b
    rw [hg] at hback
    change 0 ≤ self.GetNeighborIndex i d at a
    change self.GetNeighborIndex i d < _ at b
    change self.GetDirectionTo i (self.GetNeighborIndex i d) = d at e
    change self.GetDirectionTo (self.GetNeighborIndex i d) i = GetOppositeDirection d at f
    rw [hg] at a b e f
    exact ⟨a, b, c, e, f, hback⟩
  · intro j hj0 hj1
    constructor
    · intro h
      exact adjacent_is_neighbor self (by omega) (by omega) i j hi0 hi1 hj0 hj1 h
    · rintro ⟨d, _, hg⟩
      have hadj := gni_adjacent _ hsur i hi0 (by simp only; rw [hlen]; exact hi1) d
        (by
          show self.GetNeighborIndex i d ≠ -1
          rw [hg]; omega)
      change self.AreAdjacent i (self.GetNeighborIndex i d) = true at hadj
      rw [hg] at hadj
      exact hadj

/-- Witness of C28 at the middle cell of the 3 x 1 sample grid. -/
theorem direction_neighbor_consistent_witness :
    (1 : Int) ≤ lineGrid.Width ∧ (1 : Int) ≤ lineGrid.Height ∧
    lineGrid.GetNeighborIndex 1 ECircuitDir.Right = 2 ∧
    lineGrid.GetDirectionTo 1 2 = ECircuitDir.Right ∧
    lineGrid.GetDirectionTo 2 1 = GetOppositeDirection ECircuitDir.Right ∧
    lineGrid.GetNeighborIndex 2 (GetOppositeDirection ECircuitDir.Right) = 1 ∧
    (lineGrid.AreAdjacent 1 0 = true ↔
      ∃ d : ECircuitDir, d < 4 ∧ lineGrid.GetNeighborIndex 1 d = 0) :=
  have r := direction_neighbor_consistent lineGrid (by decide) (by decide) 1 (by decide)
    (by decide)
  have r1 := r.1 ECircuitDir.Right 2 (by decide) (by decide)
  ⟨by decide, by decide, by decide, r1.2.2.2.1, r1.2.2.2.2.1, r1.2.2.2.2.2,
    r.2 0 (by decide) (by decide)⟩

/-- C26: on a grid of `Width * Height` tiles with `Width, Height >= 1`, after
`RecomputePower`: two tiles `i`, `j`, with `j` the in-grid neighbour of `i` in direction
`d`, `d` among the connections of `i` and the opposite of `d` among those of `j`, have the
same powered flag; every powered tile is the Source tile at which the search starts or
has a powered neighbour with which it is mutually connected; and a step of the search
toward a neighbour that has no connector back changes neither a flag nor the queue. -/
theorem power_closed_under_conduction (self : UCircuitPuzzle) (hW : 1 ≤ self.Width)
    (hH : 1 ≤ self.Height) (hs : GridShaped self) :
    (∃ s', self.RecomputePower = some s' ∧
      (∀ (i j : Int) (d : ECircuitDir) (ti tj : FCircuitTile),
        self.GetNeighborIndex i d = j → tileAt s'.Tiles i = some ti →
        tileAt s'.Tiles j = some tj → d ∈ tileConnections ti →
        GetOppositeDirection d ∈ tileConnections tj → ti.bPowered = tj.bPowered) ∧
      (∀ j, PoweredAt s' j → FirstSource s' j ∨ ∃ i, PoweredAt s' i ∧ Conducts s' i j)) ∧
    (∀ (CurrentIndex : Int) (s : UCircuitPuzzle) (Queue : List Int) (d : ECircuitDir)
      (Neighbor : FCircuitTile),
      tileAt s.Tiles (s.GetNeighborIndex CurrentIndex d) = some Neighbor →
      GetOppositeDirection d ∉ tileConnections Neighbor →
      RecomputePower.visit CurrentIndex (s, Queue) d = some (s, Queue)) := by
  refine ⟨?_, fun cur s Q d nb hnb ho => visit_unreciprocated cur s Q d nb hnb ho⟩
  obtain ⟨s', hs', hsame, hpow⟩ :=
    recomputePower_spec self (neighborsInRange_of_gridShaped hs)
  refine ⟨s', hs', ?_, ?_⟩
  · intro i j d ti tj hg hti htj hdi hdj
    obtain ⟨i0, i1, _⟩ := tileAt_eq_some hti
    obtain ⟨j0, _, _⟩ := tileAt_eq_some htj
    rw [hsame.length] at i1
    have hc : Conducts self i j := by
      rw [conducts_iff]
      exact ⟨d, (hsame.connectsAt i d).1 ⟨ti, hti, hdi⟩, hg, by omega,
        (hsame.connectsAt j _).1 ⟨tj, htj, hdj⟩⟩
    have hc' := conducts_symm self (by omega) (by omega) hs i j i0 i1 hc
    have hiff : PoweredAt s' i ↔ PoweredAt s' j := by
      rw [hpow i, hpow j]
      constructor
      · rintro ⟨a, b⟩
        exact ⟨a, Relation.ReflTransGen.tail b hc⟩
      · rintro ⟨a, b⟩
        exact ⟨a, Relation.ReflTransGen.tail b hc'⟩
    have pi : PoweredAt s' i ↔ ti.bPowered = true := by
      constructor
      · rintro ⟨t, ht, hp⟩
        rw [hti] at ht
        injection ht with ht
        subst ht
        exact hp
      · intro hp
        exact ⟨ti, hti, hp⟩
    have pj : PoweredAt s' j ↔ tj.bPowered = true := by
      constructor
      · rintro ⟨t, ht, hp⟩
        rw [htj] at ht
        injection ht with ht
        subst ht
        exact hp
      · intro hp
        exact ⟨tj, htj, hp⟩
    rw [pi, pj] at hiff
    cases hbi : ti.bPowered <;> cases hbj : tj.bPowered <;> simp [hbi, hbj] at hiff ⊢
  · intro j hj
    obtain ⟨hne, hr⟩ := (hpow j).1 hj
    rcases Relation.ReflTransGen.cases_tail hr with e | ⟨i, hi, hc⟩
    · left
      rw [hsame.firstSource, firstSource_iff]
      exact ⟨hne, e.symm⟩
    · right
      exact ⟨i, (hpow i).2 ⟨hne, hi⟩, (hsame.conducts i j).2 hc⟩

/-- Witness of C26 on the 3 x 1 sample grid. -/
theorem power_closed_under_conduction_witness :
    (1 : Int) ≤ lineGrid.Width ∧ (1 : Int) ≤ lineGrid.Height ∧ GridShaped lineGrid ∧
    ∃ s', lineGrid.RecomputePower = some s' ∧
      (∀ (i j : Int) (d : ECircuitDir) (ti tj : FCircuitTile),
        lineGrid.GetNeighborIndex i d = j → tileAt s'.Tiles i = some ti →
        tileAt s'.Tiles j = some tj → d ∈ tileConnections ti →
        GetOppositeDirection d ∈ tileConnections tj → ti.bPowered = tj.bPowered) ∧
      (∀ j, PoweredAt s' j → FirstSource s' j ∨ ∃ i, PoweredAt s' i ∧ Conducts s' i j) :=
  ⟨by decide, by decide, gridShaped_lineGrid,
    (power_closed_under_conduction lineGrid (by decide) (by decide) gridShaped_lineGrid).1⟩

/-- C27: in every state reached from a returning `StartNew` by `RotateTile` calls, the
tile array and `SolutionRotations` each have exactly `Width * Height` elements, every
tile's rotation and every entry of `SolutionRotations` lies in `0..3`, no tile is Empty
or a Blocker, and `RecomputePower` returns the state itself: the powered flags are what
it yields on the current kinds and rotations. -/
theorem reachable_state_invariants (s : UCircuitPuzzle) (h : Reachable s) :
    (s.Tiles.length : Int) = s.Width * s.Height ∧
    (s.SolutionRotations.length : Int) = s.Width * s.Height ∧
    (∀ j t, tileAt s.Tiles j = some t →
      (0 ≤ t.RotationSteps ∧ t.RotationSteps ≤ 3) ∧
      t.TileType ≠ ECircuitTileType.Empty ∧ t.TileType ≠ ECircuitTileType.Blocker) ∧
    (∀ (n : Nat) (r : Int), s.SolutionRotations[n]? = some r → 0 ≤ r ∧ r ≤ 3) ∧
    s.RecomputePower = some s := by
  obtain ⟨hs, hrange, hfix⟩ := reachable_inv h
  obtain ⟨k1, k2, k3⟩ := reachable_solutionInv h
  have hs' : (s.Tiles.length : Int) = s.Width * s.Height := hs
  refine ⟨hs', by rw [k1]; exact hs', fun j t ht => ⟨hrange j t ht, k3 j t ht⟩, k2, hfix⟩

/-- Witness of C27 on the puzzle built from `rowConfig` and `rowDraws`. -/
theorem reachable_state_invariants_witness :
    Reachable rowPuzzle ∧
    (rowPuzzle.Tiles.length : Int) = rowPuzzle.Width * rowPuzzle.Height ∧
    (rowPuzzle.SolutionRotations.length : Int) = rowPuzzle.Width * rowPuzzle.Height ∧
    rowPuzzle.RecomputePower = some rowPuzzle :=
  have r := reachable_state_invariants rowPuzzle reachable_rowPuzzle
  ⟨reachable_rowPuzzle, r.1, r.2.1, r.2.2.2.2⟩

/-! ## Scrambling and locking: main results -/

/-- C23 as stated fails: on the 3 x 1 sample grid, whose Source may not be rotated, the
total `max(MinScramble, Width*Height/2)` is 1; when the single draw lands on the Source
the iteration is skipped and the loop ends: no tile has been rotated and only one draw has
been consumed, so the skipped draw was counted against the total. -/
theorem scramble_skip_is_counted :
    max lineGrid.Config.MinScramble ((lineGrid.Width * lineGrid.Height).tdiv 2) = 1 ∧
    (lineGrid.ScramblePuzzle (streamOf [0, 1, 1])).map Prod.fst = some lineGrid ∧
    (lineGrid.ScramblePuzzle (streamOf [0, 1, 1])).map (fun r => r.2.pos) = some 1 := by
  decide

/-- C23, amended: on a non-empty tile array `ScramblePuzzle` returns after exactly
`max(MinScramble, Width*Height/2)` loop iterations (none when that value is not
positive); each iteration draws one index in range and either is skipped, exactly when
the drawn tile is a Source or Sink that the config forbids rotating, or advances that
tile's rotation by a drawn amount in `1..3` modulo 4; skipped iterations count against the
total, so the number of rotation operations is the total minus the number of skips. -/
theorem scramblePuzzle_log (self : UCircuitPuzzle) (RandStream : FRandomStream)
    (hpos : 0 < self.Tiles.length) :
    ∃ s' rs' log,
      ScramblePuzzle.loopLog
        (max self.Config.MinScramble ((self.Width * self.Height).tdiv 2)).toNat self RandStream
        = some (s', rs', log) ∧
      self.ScramblePuzzle RandStream = some (s', rs') ∧
      ScrambleLog (max self.Config.MinScramble ((self.Width * self.Height).tdiv 2)).toNat
        self RandStream s' rs' log := by
  obtain ⟨s', rs', log, h1, h2, h3⟩ := scramble_loopLog_spec
    (max self.Config.MinScramble ((self.Width * self.Height).tdiv 2)).toNat self RandStream hpos
  exact ⟨s', rs', log, h1, h2, h3⟩

/-- Witness of the amended C23 on the 3 x 1 sample grid with the draw that lands on the
Source. -/
theorem scramblePuzzle_log_witness :
    0 < lineGrid.Tiles.length ∧
    ∃ s' rs' log,
      ScramblePuzzle.loopLog
        (max lineGrid.Config.MinScramble ((lineGrid.Width * lineGrid.Height).tdiv 2)).toNat
        lineGrid (streamOf [0, 1, 1]) = some (s', rs', log) ∧
      lineGrid.ScramblePuzzle (streamOf [0, 1, 1]) = some (s', rs') ∧
      ScrambleLog (max lineGrid.Config.MinScramble ((lineGrid.Width * lineGrid.Height).tdiv 2)).toNat
        lineGrid (streamOf [0, 1, 1]) s' rs' log :=
  ⟨by decide, scramblePuzzle_log lineGrid (streamOf [0, 1, 1]) (by decide)⟩

/-- C24 as stated fails for a negative lock count: with `LockCount = -1` on a 4 x 1 grid
`StartNew` returns a state with 0 locked tiles among 4, while
`min(lockCount, tileCount) = -1`, so the number of locked tiles is not at most that
minimum. -/
theorem locked_count_above_negative_min :
    (freshPuzzle.StartNew negLockConfig (streamOf rowDraws) 10).map
      (fun s => (lockedCount s.Tiles, s.Tiles.length)) = some (0, 4) ∧
    min negLockConfig.LockCount 4 = -1 ∧
    ¬ ((0 : Int) ≤ min negLockConfig.LockCount 4) := by
  decide

/-- C24, amended: `ApplyLocks` returns after exactly `max(0, min(lockCount, tileCount))`
index draws; it changes no tile's kind, rotation or powered flag; afterwards a tile is
locked exactly when it was locked before or its index was drawn and it is neither Source
nor Sink; at most one more tile is locked per draw; and the number of locked tiles after
`StartNew` is at most `max(0, min(lockCount, tileCount))`. -/
theorem applyLocks_draws_and_bound (self : UCircuitPuzzle) (RandStream : FRandomStream) :
    (∃ s' rs', self.ApplyLocks RandStream = some (s', rs') ∧
      rs' = FRandomStream.mk RandStream.draws
        (RandStream.pos + (min self.Config.LockCount (self.Tiles.length : Int)).toNat) ∧
      s'.Tiles.length = self.Tiles.length ∧
      (∀ j t, tileAt self.Tiles j = some t → ∃ t', tileAt s'.Tiles j = some t' ∧
        t'.TileType = t.TileType ∧ t'.RotationSteps = t.RotationSteps ∧
        t'.bPowered = t.bPowered ∧
        (t'.bLocked = true ↔ t.bLocked = true ∨
          ((∃ k, k < (min self.Config.LockCount (self.Tiles.length : Int)).toNat ∧
              drawnIndex RandStream self.Tiles.length k = j) ∧
            t.TileType ≠ ECircuitTileType.Source ∧ t.TileType ≠ ECircuitTileType.Sink))) ∧
      lockedCount s'.Tiles ≤
        lockedCount self.Tiles + (min self.Config.LockCount (self.Tiles.length : Int)).toNat) ∧
    (∀ (InConfig : FCircuitPuzzleConfig) (fuel : Nat) (s : UCircuitPuzzle),
      self.StartNew InConfig RandStream fuel = some s →
      lockedCount s.Tiles ≤ (min InConfig.LockCount (InConfig.Width * InConfig.Height)).toNat) := by
  refine ⟨applyLocks_draws self RandStream, ?_⟩
  intro cfg fuel s h
  obtain ⟨src, snk, s1, s2, s3, s4, s6, r⟩ := startNew_run h
  exact r.lockedBound

/-- Witness of the amended C24: the run of `StartNew` with `lockConfig` and `lockDraws`,
which locks one tile. -/
theorem applyLocks_draws_and_bound_witness :
    freshPuzzle.StartNew lockConfig (streamOf lockDraws) 8 = some lockedPuzzle ∧
    lockedCount lockedPuzzle.Tiles ≤
      (min lockConfig.LockCount (lockConfig.Width * lockConfig.Height)).toNat ∧
    lockedCount lockedPuzzle.Tiles = 1 :=
  ⟨by decide,
    (applyLocks_draws_and_bound freshPuzzle (streamOf lockDraws)).2 lockConfig 8 lockedPuzzle
      (by decide),
    by decide⟩

/-! ## Conversion of the path into tiles: main results -/

theorem onlySourceSink_placedRow : OnlySourceSink placedRow 0 2 := by
  intro j t ht
  obtain ⟨j0, j1, hg⟩ := tileAt_eq_some ht
  have hj : j = 0 ∨ j = 1 ∨ j = 2 := by
    have : (placedRow.Tiles.length : Int) = 3 := rfl
    omega
  rcases hj with rfl | rfl | rfl <;>
    · simp only [placedRow, tileAt] at ht
      injection ht with ht
      subst ht
      decide

/-- C21: when the walk of `GenerateSolutionPath` has exited with the path `P` on a grid of
`Width * Height` tiles whose only tiles other than Empty are the Source at `src` and the
Sink at `snk`, the conversion of `P` into tiles returns, `P` is a simple path of grid
neighbours from `src` to `snk`, and afterwards: the Source connects exactly toward `P[1]`,
the Sink exactly toward `P[length-2]`, and every interior path tile is a Straight or an
Elbow whose two connections are exactly the directions toward its predecessor and its
successor, which differ; for an Elbow with rotation `r` these are `r mod 4` and
`(r+1) mod 4`. -/
theorem generateSolutionPath_connections (self : UCircuitPuzzle) (hs : GridShaped self)
    (src snk : Int) (h0 : 0 ≤ src) (h1 : src < (self.Tiles.length : Int)) (hne : src ≠ snk)
    (hlay : OnlySourceSink self src snk) (RandStream rs' : FRandomStream) (fuel : Nat)
    (P : List Int)
    (hwalk : GenerateSolutionPath.walk self src snk fuel [src] src RandStream = some (P, rs')) :
    ∃ s2, self.GenerateSolutionPath src snk RandStream fuel = some (s2, rs') ∧
      PathInv self src P snk ∧ 2 ≤ P.length ∧
      (∀ q, P[1]? = some q → ∃ t, tileAt s2.Tiles src = some t ∧
        t.TileType = ECircuitTileType.Source ∧
        tileConnections t = [s2.GetDirectionTo src q]) ∧
      (∀ p, P[P.length - 2]? = some p → ∃ t, tileAt s2.Tiles snk = some t ∧
        t.TileType = ECircuitTileType.Sink ∧
        tileConnections t = [s2.GetDirectionTo snk p]) ∧
      (∀ (k : Nat) (p a q : Int), 1 ≤ k → P[k - 1]? = some p → P[k]? = some a →
        P[k + 1]? = some q → ∃ t, tileAt s2.Tiles a = some t ∧
          (t.TileType = ECircuitTileType.Straight ∨ t.TileType = ECircuitTileType.Elbow) ∧
          s2.GetDirectionTo a p ≠ s2.GetDirectionTo a q ∧
          (tileConnections t).length = 2 ∧
          (∀ d : Nat, d ∈ tileConnections t ↔
            d = s2.GetDirectionTo a p ∨ d = s2.GetDirectionTo a q) ∧
          (t.TileType = ECircuitTileType.Elbow → ∀ d : Nat,
            (d = (t.RotationSteps % 4).toNat ∨ d = ((t.RotationSteps + 1) % 4).toNat) ↔
              d = s2.GetDirectionTo a p ∨ d = s2.GetDirectionTo a q)) := by
  have hP := walk_spec hs h0 h1 fuel [src] src RandStream P rs' (pathInv_single h0 h1) hwalk
  obtain ⟨s2, hgen, hconv⟩ := generateSolutionPath_total hs h0 h1 hne hlay hwalk
  refine ⟨s2, hgen, ?_⟩
  have hlen := pathInv_length hP hne
  have hw : s2.Width = self.Width := hconv.1.1
  have hdir : ∀ i j, s2.GetDirectionTo i j = self.GetDirectionTo i j :=
    fun i j => getDirectionTo_congr hw i j
  obtain ⟨hfirst, hlast, hnd, hrange, hstep⟩ := hP
  have hP' : PathInv self src P snk := ⟨hfirst, hlast, hnd, hrange, hstep⟩
  refine ⟨hP', hlen, ?_, ?_, ?_⟩
  · intro q hq
    obtain ⟨t0, t, ht0, ht, hc⟩ := hconv.2.2 0 src (by omega) hfirst
    obtain ⟨_, _, _, _, _, hkeep, _, hnext⟩ := hc
    have hk0 : t0.TileType = ECircuitTileType.Source := (hlay src t0 ht0).1 rfl
    have hk : t.TileType = ECircuitTileType.Source := by
      rw [hkeep (by rw [hk0]; decide), hk0]
    refine ⟨t, ht, hk, ?_⟩
    rw [hdir]
    exact single_connection t (Or.inl hk) (hnext q hq)
  · intro p hp
    obtain ⟨t0, t, ht0, ht, hc⟩ := hconv.2.2 (P.length - 1) snk (by omega) hlast
    obtain ⟨_, _, _, _, _, hkeep, hprev, _⟩ := hc
    have hk0 : t0.TileType = ECircuitTileType.Sink := (hlay snk t0 ht0).2.1 rfl
    have hk : t.TileType = ECircuitTileType.Sink := by
      rw [hkeep (by rw [hk0]; decide), hk0]
    refine ⟨t, ht, hk, ?_⟩
    rw [hdir]
    have e : P.length - 1 - 1 = P.length - 2 := by omega
    exact single_connection t (Or.inr hk) (hprev p (by omega) (by rw [e]; exact hp))
  · intro k p a q hk hp ha hq
    have hklt : k + 1 < P.length := (List.getElem?_eq_some_iff.mp hq).1
    obtain ⟨t0, t, ht0, ht, hc⟩ := hconv.2.2 k a (by omega) ha
    obtain ⟨_, _, r0, r3, hnew, _, hprev, hnext⟩ := hc
    have hasrc : a ≠ src := by
      intro e
      subst e
      exact nodup_getElem?_ne hnd ha (by omega : 0 ≠ k) hfirst
    have hasnk : a ≠ snk := by
      intro e
      subst e
      exact nodup_getElem?_ne hnd ha (by omega : P.length - 1 ≠ k) hlast
    have hE : t0.TileType = ECircuitTileType.Empty := (hlay a t0 ht0).2.2 hasrc hasnk
    have hkind := hnew hE
    obtain ⟨x, y, hxy⟩ := pair_connections t hkind
    have m1 := hprev p hk hp
    have m2 := hnext q hq
    have hdist := path_dirs_distinct hs hP' hk hp ha hq
    rw [hxy] at m1 m2
    have hiff := two_of_pair m1 m2 hdist
    refine ⟨t, ht, hkind, by rw [hdir, hdir]; exact hdist, by rw [hxy]; rfl, ?_, ?_⟩
    · intro d
      rw [hxy, hdir, hdir]
      exact hiff d
    · intro hel d
      rw [hdir, hdir, ← hiff d, ← hxy]
      have htab := (tileConnections_table t.TileType t.RotationSteps t.bLocked t.bPowered
        r0 r3).1
      have eta : FCircuitTile.mk t.TileType t.RotationSteps t.bLocked t.bPowered = t := by
        cases t
        rfl
      rw [eta, hel] at htab
      rw [htab]
      simp [specConnections]

/-- Witness of C21 on the 3 x 1 grid with Source at 0 and Sink at 2. -/
theorem generateSolutionPath_connections_witness :
    GridShaped placedRow ∧ OnlySourceSink placedRow 0 2 ∧
    (GenerateSolutionPath.walk placedRow 0 2 5 [0] 0 (streamOf [0, 0])).map Prod.fst
      = some [0, 1, 2] ∧
    (placedRow.GenerateSolutionPath 0 2 (streamOf [0, 0]) 5).map Prod.fst = some carvedRow ∧
    ∃ s2 rs', placedRow.GenerateSolutionPath 0 2 (streamOf [0, 0]) 5 = some (s2, rs') ∧
      PathInv placedRow 0 [0, 1, 2] 2 ∧
      (∀ q, [(0 : Int), 1, 2][1]? = some q → ∃ t, tileAt s2.Tiles 0 = some t ∧
        t.TileType = ECircuitTileType.Source ∧
        tileConnections t = [s2.GetDirectionTo 0 q]) := by
  have hg : GridShaped placedRow := by unfold GridShaped placedRow; decide
  have hrun : (GenerateSolutionPath.walk placedRow 0 2 5 [0] 0 (streamOf [0, 0])).map Prod.fst
      = some [0, 1, 2] := by decide
  obtain ⟨⟨P, rs'⟩, hw, e⟩ := Option.map_eq_some'.1 hrun
  simp only at e
  subst e
  obtain ⟨s2, a, b, _, c, _⟩ := generateSolutionPath_connections placedRow hg 0 2 (by decide)
    (by decide) (by decide) onlySourceSink_placedRow (streamOf [0, 0]) rs' 5 _ hw
  exact ⟨hg, onlySourceSink_placedRow, hrun, by decide, s2, rs', a, b, c⟩

/-- C22: when the walk of `GenerateSolutionPath` has exited with the path `P` on a grid
of `Width * Height` tiles whose only tiles other than Empty are the Source at `src` and
the Sink at `snk` (the call from `StartNew`), the duplicate filter leaves `P` as it is,
and at every interior position `i` the conversion loop reads an Empty tile, so the skip
for a tile that is already set is not taken, and the directions `Dir1`, `Dir2` toward
predecessor and successor differ and satisfy `|Dir1 - Dir2| = 2`, `Dir2 = (Dir1+1) % 4`
or `Dir1 = (Dir2+1) % 4`, so the `min(Dir1, Dir2)` fallback is not reached. -/
theorem conversion_defensive_branches_dead (self : UCircuitPuzzle) (hs : GridShaped self)
    (src snk : Int) (h0 : 0 ≤ src) (h1 : src < (self.Tiles.length : Int)) (hne : src ≠ snk)
    (hlay : OnlySourceSink self src snk) (RandStream rs1 : FRandomStream) (fuel : Nat)
    (P : List Int)
    (hwalk : GenerateSolutionPath.walk self src snk fuel [src] src RandStream = some (P, rs1)) :
    GenerateSolutionPath.clean P [] = P ∧
    ∀ i : Nat, 1 ≤ i → i + 1 < P.length →
      ∃ (si : UCircuitPuzzle) (Idx : Int) (Tile : FCircuitTile) (PrevIdx NextIdx : Int),
        (List.range i).foldlM (GenerateSolutionPath.convert P) self = some si ∧
        intAt P i = some Idx ∧ tileAt si.Tiles Idx = some Tile ∧
        Tile.TileType = ECircuitTileType.Empty ∧
        intAt P ((i : Int) - 1) = some PrevIdx ∧ intAt P ((i : Int) + 1) = some NextIdx ∧
        dirToInt (si.GetDirectionTo Idx PrevIdx) ≠ dirToInt (si.GetDirectionTo Idx NextIdx) ∧
        (((dirToInt (si.GetDirectionTo Idx PrevIdx)
            - dirToInt (si.GetDirectionTo Idx NextIdx)).natAbs : Int) = 2 ∨
          dirToInt (si.GetDirectionTo Idx NextIdx)
            = (dirToInt (si.GetDirectionTo Idx PrevIdx) + 1).tmod 4 ∨
          dirToInt (si.GetDirectionTo Idx PrevIdx)
            = (dirToInt (si.GetDirectionTo Idx NextIdx) + 1).tmod 4) := by
  have hP := walk_spec hs h0 h1 fuel [src] src RandStream P rs1 (pathInv_single h0 h1) hwalk
  have hclean : GenerateSolutionPath.clean P [] = P := by
    rw [clean_of_nodup P [] (by simpa using hP.2.2.1)]
    simp
  refine ⟨hclean, ?_⟩
  intro i hi1 hi2
  obtain ⟨si, hfold, hinv⟩ := convert_fold hP hne hlay i (by omega)
  have hnd := hP.2.2.1
  have ha : P[i]? = some P[i] := List.getElem?_eq_getElem (by omega)
  have hp : P[i - 1]? = some P[i - 1] := List.getElem?_eq_getElem (by omega)
  have hq : P[i + 1]? = some P[i + 1] := List.getElem?_eq_getElem (by omega)
  generalize P[i] = a at ha
  generalize P[i - 1] = p at hp
  generalize P[i + 1] = q at hq
  obtain ⟨a0, a1⟩ := hP.2.2.2.1 a (List.getElem?_mem ha)
  obtain ⟨t0, ht0⟩ := tileAt_isSome (l := self.Tiles) a0 a1
  have hts : tileAt si.Tiles a = some t0 := by
    rw [hinv.2.1 a (fun k hk => nodup_getElem?_ne hnd ha (by omega))]
    exact ht0
  have hasrc : a ≠ src := by
    intro e
    subst e
    exact nodup_getElem?_ne hnd ha (by omega : 0 ≠ i) hP.1
  have hasnk : a ≠ snk := by
    intro e
    subst e
    exact nodup_getElem?_ne hnd ha (by omega : P.length - 1 ≠ i) hP.2.1
  have hE : t0.TileType = ECircuitTileType.Empty := (hlay a t0 ht0).2.2 hasrc hasnk
  have hdist := path_dirs_distinct hs hP hi1 hp ha hq
  have hw : si.Width = self.Width := hinv.1.1
  rw [← getDirectionTo_congr hw, ← getDirectionTo_congr hw] at hdist
  have hbr := dirs_branch _ _ (getDirectionTo_lt si a p) (getDirectionTo_lt si a q) hdist
  have e1 : (i : Int) - 1 = ((i - 1 : Nat) : Int) := by omega
  have e2 : (i : Int) + 1 = ((i + 1 : Nat) : Int) := by omega
  refine ⟨si, a, t0, p, q, hfold, by rw [intAt_natCast]; exact ha, hts, hE,
    by rw [e1, intAt_natCast]; exact hp, by rw [e2, intAt_natCast]; exact hq, hbr.1, hbr.2⟩

/-- Witness of C22 on the 3 x 1 grid with Source at 0 and Sink at 2, at the interior
position 1. -/
theorem conversion_defensive_branches_dead_witness :
    GridShaped placedRow ∧ OnlySourceSink placedRow 0 2 ∧
    (GenerateSolutionPath.walk placedRow 0 2 5 [0] 0 (streamOf [0, 0])).map Prod.fst
      = some [0, 1, 2] ∧
    GenerateSolutionPath.clean [0, 1, 2] [] = [0, 1, 2] ∧
    ∃ (si : UCircuitPuzzle) (Idx : Int) (Tile : FCircuitTile),
      (List.range 1).foldlM (GenerateSolutionPath.convert [0, 1, 2]) placedRow = some si ∧
      intAt [0, 1, 2] 1 = some Idx ∧ tileAt si.Tiles Idx = some Tile ∧
      Tile.TileType = ECircuitTileType.Empty := by
  have hg : GridShaped placedRow := by unfold GridShaped placedRow; decide
  have hrun : (GenerateSolutionPath.walk placedRow 0 2 5 [0] 0 (streamOf [0, 0])).map Prod.fst
      = some [0, 1, 2] := by decide
  obtain ⟨⟨P, rs1⟩, hw, e⟩ := Option.map_eq_some'.1 hrun
  simp only at e
  subst e
  obtain ⟨c, hall⟩ := conversion_defensive_branches_dead placedRow hg 0 2 (by decide)
    (by decide) (by decide) onlySourceSink_placedRow (streamOf [0, 0]) rs1 5 _ hw
  obtain ⟨si, Idx, Tile, _, _, f1, f2, f3, f4, _⟩ := hall 1 (by decide) (by decide)
  exact ⟨hg, onlySourceSink_placedRow, hrun, c, si, Idx, Tile, f1, f2, f3, f4⟩

/-- C29: when `LockCount <= 0`, for every sequence of random draws for which `StartNew`
returns: no tile is locked; a Source or Sink tile that the config forbids rotating has
the rotation recorded in `SolutionRotations`; and there is a sequence of at most
`3 * tileCount` `RotateTile` calls, each returning true, after which every tile has the
rotation recorded in `SolutionRotations` and `IsSolved()` is true. -/
theorem unlocked_puzzle_solvable (prior : UCircuitPuzzle) (InConfig : FCircuitPuzzleConfig)
    (RandStream : FRandomStream) (fuel : Nat) (s : UCircuitPuzzle)
    (hlock : InConfig.LockCount ≤ 0)
    (h : prior.StartNew InConfig RandStream fuel = some s) :
    (∀ j t, tileAt s.Tiles j = some t → t.bLocked = false) ∧
    (∀ j t, tileAt s.Tiles j = some t → ScrambleSkips InConfig t →
      intAt s.SolutionRotations j = some t.RotationSteps) ∧
    ∃ (moves : List Int) (final : UCircuitPuzzle),
      moves.length ≤ 3 * s.Tiles.length ∧ rotateSuccessfully s moves = some final ∧
      (∀ j t, tileAt final.Tiles j = some t →
        intAt final.SolutionRotations j = some t.RotationSteps) ∧
      final.IsSolved = true := by
  obtain ⟨src, snk, s1, s2, s3, s4, s6, r⟩ := startNew_run h
  have hun := r.unlocked hlock
  have hkeep := r.skipped_keep
  refine ⟨hun, hkeep, ?_⟩
  have hreach : Reachable s := Reachable.start prior InConfig RandStream fuel s h
  obtain ⟨hs, hrange, _⟩ := reachable_inv hreach
  obtain ⟨k1, k2, _⟩ := startNew_solutionInv r
  have hcfg : s.Config = InConfig := r.framed.2.2.1
  obtain ⟨moves, x, F, hml, hrun, hrel, hF⟩ := solve_prefix s hs hun hrange k1 k2
    (by rw [hcfg]; exact hkeep) s.Tiles.length (le_refl _)
  have hsol : ∀ j u, tileAt s.Tiles j = some u →
      intAt s.SolutionRotations j = some (F j u.RotationSteps) := by
    intro j u hu
    exact (hF j u hu).1 (tileAt_eq_some hu).2.1
  refine ⟨moves, x, hml, hrun, ?_, ?_⟩
  · intro j t ht
    obtain ⟨j0, j1, _⟩ := tileAt_eq_some ht
    rw [hrel.1.2.2.2.2] at j1
    obtain ⟨u, hu⟩ := tileAt_isSome (l := s.Tiles) j0 j1
    obtain ⟨u', hu', _, _, r1⟩ := hrel.2 j u hu
    rw [ht] at hu'
    injection hu' with hu'
    subst hu'
    rw [hrel.1.2.2.2.1, r1]
    exact hsol j u hu
  · have hx := reachable_inv (rotateSuccessfully_reachable moves s x hreach hrun)
    obtain ⟨after, hafter, hsolved⟩ := r.restored_solved
    have he := reset_eq_restore hrel hsol k1
    have := recomputePower_congr (a := restoreSolution s) (b := x) he
    rw [hx.2.2, hafter] at this
    injection this with this
    rw [this]
    exact hsolved

/-- Witness of C29: the puzzle built from `rowConfig` and `rowDraws`, which has no
locks. -/
theorem unlocked_puzzle_solvable_witness :
    rowConfig.LockCount ≤ 0 ∧
    freshPuzzle.StartNew rowConfig (streamOf rowDraws) 10 = some rowPuzzle ∧
    ∃ (moves : List Int) (final : UCircuitPuzzle),
      moves.length ≤ 3 * rowPuzzle.Tiles.length ∧
      rotateSuccessfully rowPuzzle moves = some final ∧
      (∀ j t, tileAt final.Tiles j = some t →
        intAt final.SolutionRotations j = some t.RotationSteps) ∧
      final.IsSolved = true :=
  ⟨by decide, by decide,
    (unlocked_puzzle_solvable freshPuzzle rowConfig (streamOf rowDraws) 10 rowPuzzle
      (by decide) (by decide)).2.2⟩

end Greystone
